import Mathlib

/-!
# SampleVRGame: the per-frame game core (`hello_xr/Game.cpp`, `hello_xr/AudioManager.h`)

A shallow embedding of the game core and proofs about it.

Numbers.  The C++ `float` and `double` values are modelled as exact rationals
(`ℚ`): every comparison and every arithmetic step is the one written in the
source, carried out without rounding.  The only irrational operation the
game logic depends on is `glm::length`; its result is kept exactly as the
square root of a rational (`Radical`).  Transcendental library functions
(`sin`, `cos`, `glm::slerp`, `glm::normalize`, `glm::rotate`) and the C library
`rand` are parameters of the model (`Lib`): theorems hold for every choice.

State.  The module-level globals of `namespace Game` form the record `World`;
`proc` is a function from a world and a `GameData` input to the next world,
whose field `calls` lists the calls the tick made on the audio and haptic
devices (`Event`).  A `vibrate` call through an absent haptic handle, which is
undefined behaviour in C++, is recorded as the call `vibrateAbsent` and has no
effect on the game state.
-/

namespace Game

/-! ## Vectors, quaternions, poses (the parts of GLM the core uses) -/

/-- The type `glm::vec3`, with exact rational components. -/
structure Vec3 where
  x : ℚ
  y : ℚ
  z : ℚ
deriving DecidableEq

/-- The type `glm::quat` (components `w`, `x`, `y`, `z`). -/
structure Quat where
  w : ℚ
  x : ℚ
  y : ℚ
  z : ℚ
deriving DecidableEq

/-- The type `Game::Pose` of `Game.hpp`: a position and an orientation. -/
structure Pose where
  pos : Vec3
  ori : Quat
deriving DecidableEq

namespace Vec3

/-- The zero vector: a value-initialised `glm::vec3`. -/
def zero : Vec3 := ⟨0, 0, 0⟩

/-- Componentwise sum, `a + b`. -/
def add (a b : Vec3) : Vec3 := ⟨a.x + b.x, a.y + b.y, a.z + b.z⟩

/-- Componentwise difference, `a - b`. -/
def sub (a b : Vec3) : Vec3 := ⟨a.x - b.x, a.y - b.y, a.z - b.z⟩

/-- Scaling by a scalar, `s * v` (and `v * s`). -/
def smul (s : ℚ) (v : Vec3) : Vec3 := ⟨s * v.x, s * v.y, s * v.z⟩

/-- Division by a scalar, `v / s`. -/
def sdiv (v : Vec3) (s : ℚ) : Vec3 := ⟨v.x / s, v.y / s, v.z / s⟩

instance : Add Vec3 := ⟨add⟩
instance : Sub Vec3 := ⟨sub⟩

end Vec3

/-- The function `glm::dot` on `vec3`. -/
def dot (a b : Vec3) : ℚ := a.x * b.x + a.y * b.y + a.z * b.z

/-- The function `glm::cross` on `vec3`. -/
def cross (a b : Vec3) : Vec3 :=
  ⟨a.y * b.z - b.y * a.z, a.z * b.x - b.z * a.x, a.x * b.y - b.x * a.y⟩

namespace Quat

/-- The identity quaternion, `glm::identity<glm::quat>()`. -/
def identity : Quat := ⟨1, 0, 0, 0⟩

/-- GLM's `operator*(quat, vec3)`: the vector rotated by the quaternion,
`v + 2 (w (q × v) + q × (q × v))` with `q` the vector part. -/
def rotate (q : Quat) (v : Vec3) : Vec3 :=
  let QuatVector : Vec3 := ⟨q.x, q.y, q.z⟩
  let uv := cross QuatVector v
  let uuv := cross QuatVector uv
  v + Vec3.smul 2 (Vec3.smul q.w uv + uuv)

/-- GLM's `operator*(quat, quat)`: the Hamilton product. -/
def mul (p q : Quat) : Quat :=
  ⟨p.w * q.w - p.x * q.x - p.y * q.y - p.z * q.z,
   p.w * q.x + p.x * q.w + p.y * q.z - p.z * q.y,
   p.w * q.y + p.y * q.w + p.z * q.x - p.x * q.z,
   p.w * q.z + p.z * q.w + p.x * q.y - p.y * q.x⟩

instance : Mul Quat := ⟨mul⟩

end Quat

/-- An exact non-negative real of the form `√sq`: the result type of
`glm::length`.  Comparisons against rational constants are decided on the
squares. -/
structure Radical where
  sq : ℚ
deriving DecidableEq

namespace Radical

/-- The comparison `√sq <= c` for a rational `c`. -/
def le (r : Radical) (c : ℚ) : Bool := decide (0 ≤ c ∧ r.sq ≤ c * c)

/-- The comparison `√sq < c` for a rational `c`. -/
def lt (r : Radical) (c : ℚ) : Bool := decide (0 < c ∧ r.sq < c * c)

/-- The radical with the value of a non-negative rational `d`. -/
def ofRat (d : ℚ) : Radical := ⟨d * d⟩

end Radical

/-- The function `glm::length` on `vec3`: `√(v · v)`. -/
def length (v : Vec3) : Radical := ⟨dot v v⟩

/-- Modelled from the spec: `glm::intersectRayPlane` (GLM's `gtx/intersect`,
which is not among the sources).  The ray from `orig` along `dir` meets the
plane through `planeOrig` with normal `planeNormal` when it is not parallel to
the plane and the intersection distance
`dot (planeOrig - orig) planeNormal / dot dir planeNormal` is positive, from
either side of the plane; the distance is returned.  The library's
floating-point tolerance on the parallel test is exact here. -/
def intersectRayPlane (orig dir planeOrig planeNormal : Vec3) : Option ℚ :=
  let d := dot dir planeNormal
  if d ≠ 0 then
    let tmp_intersectionDistance := dot (planeOrig - orig) planeNormal / d
    if tmp_intersectionDistance > 0 then some tmp_intersectionDistance else none
  else none

/-- The template `vLerp` of `Game.cpp`: `(1 - t) * v1 + t * v2`. -/
def vLerp (v1 v2 : Vec3) (t : ℚ) : Vec3 :=
  Vec3.smul (1 - t) v1 + Vec3.smul t v2

/-! ## The start rectangle: `struct Rect` -/

/-- The struct `Rect` of `Game.cpp`. -/
structure Rect where
  pose : Pose
  w : ℚ
  h : ℚ

/-- The method `Rect::RayCast`: the hit point and the ray distance, or no hit. -/
def Rect.RayCast (r : Rect) (rayfrom rayDir : Vec3) : Option (Vec3 × ℚ) :=
  let norm := r.pose.ori.rotate ⟨0, 0, 1⟩
  if dot rayDir norm ≥ 0 then
    match intersectRayPlane rayfrom rayDir r.pose.pos norm with
    | some d =>
      let p := rayfrom + Vec3.smul d rayDir
      let pPlane := p - r.pose.pos
      let xVec := r.pose.ori.rotate ⟨1, 0, 0⟩
      let yVec := r.pose.ori.rotate ⟨0, 1, 0⟩
      if |dot xVec pPlane| < r.w / 2 ∧ |dot yVec pPlane| < r.h / 2 then
        some (p, d)
      else
        none
    | none => none
  else
    none

/-! ## Targets: `struct Target` -/

/-- The struct `Target` of `Game.cpp`. -/
structure Target where
  pose : Pose
  tgtPose : Pose
  endPose : Pose
  hidPose : Pose
  timer : ℚ
  alive : Bool
  angleA : ℚ
  angleB : ℚ
  dist : ℚ
deriving DecidableEq

/-- The struct `Target::Hit`: the front-face flag, the hit point, the ray
distance and the distance of the hit point from the target centre. -/
structure Hit where
  enable : Bool
  colPos : Vec3
  rayLen : ℚ
  dCenter : Radical
deriving DecidableEq

/-- The method `Target::RayCast`. -/
def Target.RayCast (t : Target) (rayfrom rayDir : Vec3) : Option Hit :=
  let norm := t.pose.ori.rotate ⟨0, 0, 1⟩
  match intersectRayPlane rayfrom rayDir t.pose.pos norm with
  | some rayLen =>
    let p := rayfrom + Vec3.smul rayLen rayDir
    let pPlane := p - t.pose.pos
    let dCenter := length pPlane
    if dCenter.le 0.2 then
      some ⟨decide (dot rayDir norm ≥ 0), p, rayLen, dCenter⟩
    else
      none
  | none => none

/-! ## Library functions taken as parameters -/

/-- The library functions the core calls whose values are not rational
expressions of their arguments: `std::sin`, `std::cos`, `glm::slerp`,
`glm::normalize`, `glm::rotate (quat, angle, axis)`, and the C library `rand`
(`rand n` is the value returned by the `n`-th call since start-up). -/
structure Lib where
  sin : ℚ → ℚ
  cos : ℚ → ℚ
  slerp : Quat → Quat → ℚ → Quat
  normalize : Quat → Quat
  rotate : Quat → ℚ → Vec3 → Quat
  rand : Nat → Nat

/-- The constant `pi` of `Game.cpp`. -/
def pi : ℚ := 3.141592653589793238462643383279

/-- The constructor `Target::Target()`, reading the globals `sightBase`,
`stagePose`, `upperVec`, `rightVec`, `fwdVec`; `r0`, `r1`, `r2` are the values
of its three `rand()` calls. -/
def Target.new (L : Lib) (sightBase stagePose : Pose) (upperVec rightVec fwdVec : Vec3)
    (r0 r1 r2 : Nat) : Target :=
  let angleA : ℚ := ((r0 % 1000 : Nat) : ℚ) * 0.002 - 1
  let angleB : ℚ := ((r1 % 1000 : Nat) : ℚ) * 0.002 - 1
  let dist : ℚ := ((r2 % 1000 : Nat) : ℚ) * 0.007 + 1
  let tgtPos := sightBase.pos + Vec3.smul dist
    (Vec3.smul (L.sin angleA) upperVec
      + Vec3.smul (L.sin angleB) (Vec3.smul (L.cos angleA) rightVec)
      + Vec3.smul (L.cos angleB) (Vec3.smul (L.cos angleA) fwdVec))
  let tgtOri := L.rotate Quat.identity angleA rightVec
    * L.rotate Quat.identity (-angleB) upperVec * stagePose.ori
    * L.rotate Quat.identity pi ⟨0, 1, 0⟩
  let tgtPose : Pose := ⟨tgtPos, L.normalize tgtOri⟩
  let endOri := L.rotate Quat.identity angleA rightVec
    * L.rotate Quat.identity (-angleB) upperVec * stagePose.ori
  let endPose : Pose := ⟨tgtPose.pos, L.normalize endOri⟩
  let hidPose : Pose := ⟨tgtPose.pos - Vec3.smul 10 upperVec, tgtPose.ori⟩
  { pose := hidPose, tgtPose := tgtPose, endPose := endPose, hidPose := hidPose,
    timer := 0, alive := true, angleA := angleA, angleB := angleB, dist := dist }

/-- The method `Target::proc`. -/
def Target.proc (L : Lib) (t : Target) (dt : ℚ) : Target :=
  let t1 : Target :=
    if t.timer < 2 then
      let u := t.timer / 2
      { t with pose := ⟨vLerp t.hidPose.pos t.tgtPose.pos (1 - (1 - u) * (1 - u)), t.pose.ori⟩ }
    else if t.timer < 4 then
      { t with pose := t.tgtPose }
    else if t.timer < 5 then
      let u := t.timer - 4
      { t with pose := ⟨t.tgtPose.pos, L.normalize (L.slerp t.tgtPose.ori t.endPose.ori u)⟩ }
    else if t.timer < 7 then
      let u := (t.timer - 5) / 2
      { t with pose := ⟨vLerp t.tgtPose.pos t.hidPose.pos (u * u), t.pose.ori⟩ }
    else
      { t with alive := false }
  { t1 with timer := t1.timer + dt }

/-! ## Effects: `struct scoreEffect`, `struct boomEffect` -/

/-- The struct `scoreEffect` of `Game.cpp`; `type` is the score tier. -/
structure scoreEffect where
  type : Int
  pose : Pose
  alive : Bool
  timer : ℚ
deriving DecidableEq

/-- The constructor `scoreEffect::scoreEffect(pos, ty)`, reading `stagePose`. -/
def scoreEffect.new (L : Lib) (stagePose : Pose) (pos : Vec3) (ty : Int) : scoreEffect :=
  { type := ty,
    pose := ⟨pos, stagePose.ori * L.rotate Quat.identity pi ⟨0, 1, 0⟩⟩,
    alive := true, timer := 0 }

/-- The method `scoreEffect::proc`, reading `upperVec`. -/
def scoreEffect.proc (upperVec : Vec3) (e : scoreEffect) (dt : ℚ) : scoreEffect :=
  let timer := e.timer + dt
  let pose : Pose := ⟨e.pose.pos + Vec3.smul (dt * 0.3) upperVec, e.pose.ori⟩
  { e with timer := timer, pose := pose, alive := if timer > 2 then false else e.alive }

/-- The struct `boomEffect` of `Game.cpp`. -/
structure boomEffect where
  pos : Vec3
  vel : Vec3
  timer : ℚ
  alive : Bool
deriving DecidableEq

/-- The constructor `boomEffect::boomEffect(pos)`, reading `upperVec` and
`rightVec`; `r` is the value of its `rand()` call. -/
def boomEffect.new (L : Lib) (upperVec rightVec : Vec3) (pos : Vec3) (r : Nat) : boomEffect :=
  let angle : ℚ := ((r % 10000 : Nat) : ℚ) / 5000 * pi
  { pos := pos,
    vel := Vec3.smul 3 (Vec3.smul (L.sin angle) upperVec + Vec3.smul (L.cos angle) rightVec),
    timer := 0, alive := true }

/-- The method `boomEffect::proc`. -/
def boomEffect.proc (e : boomEffect) (dt : ℚ) : boomEffect :=
  let timer := e.timer + dt
  { e with timer := timer, pos := e.pos + Vec3.smul dt e.vel,
           alive := if timer > 0.2 then false else e.alive }

/-! ## The one-shot audio manager (`AudioManager.h`) -/

/-- The sound assets loaded by `init`. -/
inductive Sound
  | gunSe
  | tgtSe
  | cntSe
  | buzzerSe
deriving DecidableEq

/-- Insertion into a `std::set<int>` kept as a strictly increasing list. -/
def setInsert (i : Nat) : List Nat → List Nat
  | [] => [i]
  | j :: js => if i < j then i :: j :: js else if i = j then j :: js else j :: setInsert i js

/-- The class `OneShotAudioManager`: the countdown `ttl` of every slot of
`container`, and the set `available` (increasing order, as `std::set`
iterates). -/
structure OneShotAudioManager where
  container : List ℚ
  available : List Nat
deriving DecidableEq

/-- The constructor `OneShotAudioManager(slotnum)`: every slot starts with
`ttl = 2.0` and every index is available. -/
def OneShotAudioManager.new (slotnum : Nat) : OneShotAudioManager :=
  { container := List.replicate slotnum 2, available := List.range slotnum }

/-- The method `OneShotAudioManager::play`; the second component is the slot
on which playback was started, or `none` when the request was dropped with
the warning. -/
def OneShotAudioManager.play (m : OneShotAudioManager) : OneShotAudioManager × Option Nat :=
  match m.available with
  | [] => (m, none)
  | availableIndex :: _ =>
    ({ container := m.container.set availableIndex 2,
       available := m.available.erase availableIndex }, some availableIndex)

/-- The body of the loop of `OneShotAudioManager::update` for slot `i`. -/
def OneShotAudioManager.updateSlot (dt : ℚ) (m : OneShotAudioManager) (i : Nat) :
    OneShotAudioManager :=
  match m.container.get? i with
  | some ttl =>
    if ttl > 0 then
      let m1 := { m with container := m.container.set i (ttl - dt) }
      if ttl - dt ≤ 0 then { m1 with available := setInsert i m1.available } else m1
    else m
  | none => m

/-- The method `OneShotAudioManager::update`. -/
def OneShotAudioManager.update (m : OneShotAudioManager) (dt : ℚ) : OneShotAudioManager :=
  (List.range m.container.length).foldl (OneShotAudioManager.updateSlot dt) m

/-! ## Inputs, device calls, and the module state -/

/-- The struct `GameData` of `Game.hpp`.  A haptic handle is identified by a
number. -/
structure GameData where
  dt : ℚ
  viewPose : Option Pose
  stagePose : Option Pose
  handPoses : Fin 2 → Option Pose
  trigger : Fin 2 → Bool
  handVib : Fin 2 → Option Nat

/-- A value-initialised `GameData` (the global `gameDat` before the first
`proc`). -/
def GameData.zero : GameData :=
  { dt := 0, viewPose := none, stagePose := none, handPoses := fun _ => none,
    trigger := fun _ => false, handVib := fun _ => none }

/-- The calls the core makes on the audio and haptic devices.
`vibrateAbsent` is a `vibrate` call made through an absent `handVib[i]`
(undefined behaviour in C++).  `sePlay` is a call of `seManager->play`: `slot`
is the slot on which playback started, or `none` if the request was dropped. -/
inductive Event
  | setListenerPose (pose : Pose)
  | gunSetPos (hand : Fin 2) (pos : Vec3)
  | gunPlay (hand : Fin 2) (se : Sound)
  | vibrate (hand : Fin 2) (handle : Nat) (a : ℚ)
  | vibrateAbsent (hand : Fin 2) (a : ℚ)
  | sePlay (se : Sound) (pos : Vec3) (slot : Option Nat)
deriving DecidableEq

/-- The enum `Scene`. -/
inductive Scene
  | Title
  | MainGame
  | ScoreResult
deriving DecidableEq

/-- The module-level variables of `namespace Game` in `Game.cpp`.  `randCount`
is the number of `rand()` calls made so far; `calls` lists the device calls
made by the current `proc` call, in order. -/
structure World where
  initialized : Bool
  handPoseBufIndex : Fin 2 → Fin 3
  handPoseBuf : Fin 2 → Fin 3 → Option Pose
  handPose : Fin 2 → Option Pose
  stagePose : Pose
  fwdVec : Vec3
  upperVec : Vec3
  rightVec : Vec3
  sightBase : Pose
  gameStartStrPose : Pose
  stageRotate : ℚ
  gameTimer : ℚ
  tgtTimer : ℚ
  score : Int
  gsSelected : Bool
  gsSelectedHands : Fin 2 → Bool
  rayD : Fin 2 → Option ℚ
  scene : Scene
  gameDat : GameData
  trigger_old : Fin 2 → Bool
  targets : List Target
  scoreEffects : List scoreEffect
  boomEffects : List boomEffect
  seManager : OneShotAudioManager
  randCount : Nat
  calls : List Event

/-- The state after static initialisation and `init`: every global is
zero-initialised, the scene is `Title`, and `seManager` has 128 slots. -/
def World.start : World :=
  { initialized := false,
    handPoseBufIndex := fun _ => 0,
    handPoseBuf := fun _ _ => none,
    handPose := fun _ => none,
    stagePose := ⟨Vec3.zero, ⟨0, 0, 0, 0⟩⟩,
    fwdVec := Vec3.zero, upperVec := Vec3.zero, rightVec := Vec3.zero,
    sightBase := ⟨Vec3.zero, ⟨0, 0, 0, 0⟩⟩,
    gameStartStrPose := ⟨Vec3.zero, ⟨0, 0, 0, 0⟩⟩,
    stageRotate := 0, gameTimer := 0, tgtTimer := 0, score := 0,
    gsSelected := false, gsSelectedHands := fun _ => false,
    rayD := fun _ => none, scene := Scene.Title,
    gameDat := GameData.zero, trigger_old := fun _ => false,
    targets := [], scoreEffects := [], boomEffects := [],
    seManager := OneShotAudioManager.new 128,
    randCount := 0, calls := [] }

/-- Record one device call. -/
def World.emit (w : World) (e : Event) : World :=
  { w with calls := w.calls ++ [e] }

/-- A call `seManager->play(se, pos)`. -/
def World.sePlay (w : World) (se : Sound) (pos : Vec3) : World :=
  { w with seManager := w.seManager.play.1,
           calls := w.calls ++ [Event.sePlay se pos w.seManager.play.2] }

/-! ## `proc_init` -/

/-- The function `proc_init`. -/
def proc_init (L : Lib) (w : World) (dat : GameData) : World :=
  match dat.stagePose with
  | some sp =>
    let fwdVec := sp.ori.rotate ⟨0, 0, -1⟩
    let upperVec := sp.ori.rotate ⟨0, 1, 0⟩
    let rightVec := sp.ori.rotate ⟨1, 0, 0⟩
    let sightHeight : ℚ := 1.2
    let sightBase : Pose := ⟨sp.pos + Vec3.smul sightHeight upperVec, sp.ori⟩
    let gameStartStrPose : Pose :=
      ⟨sightBase.pos + Vec3.smul 3 fwdVec, L.rotate Quat.identity pi ⟨0, 1, 0⟩ * sightBase.ori⟩
    { w with stagePose := sp, fwdVec := fwdVec, upperVec := upperVec, rightVec := rightVec,
             sightBase := sightBase, gameStartStrPose := gameStartStrPose,
             tgtTimer := 1, initialized := true }
  | none => w

/-! ## `proc_main`, part by part -/

/-- Lines 275-279 of `proc_main`: the stage rotation and the reset of `rayD`. -/
def stageStep (w : World) (dat : GameData) : World :=
  let stageRotate := w.stageRotate + dat.dt * 0.1
  { w with stageRotate := if stageRotate > 1 then stageRotate - 1 else stageRotate,
           rayD := fun _ => none }

/-- The body of the smoothing loop of `proc_main` (lines 281-307) for hand
`i`: insert the raw sample if there is one, then recompute `handPose[i]` from
the ring buffer. -/
def smoothHand (L : Lib) (dat : GameData) (w : World) (i : Fin 2) : World :=
  let w1 : World :=
    match dat.handPoses i with
    | some p =>
      { w with
        handPoseBuf :=
          Function.update w.handPoseBuf i
            (Function.update (w.handPoseBuf i) (w.handPoseBufIndex i) (some p)),
        handPoseBufIndex := Function.update w.handPoseBufIndex i (w.handPoseBufIndex i + 1) }
    | none => w
  match w1.handPoseBuf i 0, w1.handPoseBuf i 1, w1.handPoseBuf i 2 with
  | some b0, some b1, some b2 =>
    let buf : Fin 3 → Pose := fun j => if j = 0 then b0 else if j = 1 then b1 else b2
    let pos := Vec3.sdiv (((Vec3.zero + b0.pos) + b1.pos) + b2.pos) 3
    let idx := w1.handPoseBufIndex i
    let ori0 := (buf idx).ori
    let ori1 := L.slerp ori0 (buf (idx + 1)).ori (1 / 2)
    let ori2 := L.slerp ori1 (buf (idx + 2)).ori (1 / 3)
    { w1 with handPose := Function.update w1.handPose i (some ⟨pos, ori2⟩) }
  | _, _, _ => { w1 with handPose := Function.update w1.handPose i none }

/-- Lines 309-310 of `proc_main`: the listener pose. -/
def listenerStep (w : World) (dat : GameData) : World :=
  match dat.viewPose with
  | some p => w.emit (Event.setListenerPose p)
  | none => w

/-- The body of the gun feedback loop of `proc_main` (lines 311-320) for hand
`i`. -/
def gunFeedback (dat : GameData) (w : World) (i : Fin 2) : World :=
  let w1 : World :=
    match w.handPose i with
    | some hp => w.emit (Event.gunSetPos i hp.pos)
    | none => w
  if !w1.trigger_old i && dat.trigger i then
    let w2 := w1.emit (Event.gunPlay i Sound.gunSe)
    match dat.handVib i with
    | some h => w2.emit (Event.vibrate i h 1)
    | none => w2
  else w1

/-- The rectangle `Rect{ gameStartStrPose, 2.5, 0.5 }` of the Title scene. -/
def startRect (w : World) : Rect := { pose := w.gameStartStrPose, w := 2.5, h := 0.5 }

/-- The forward ray direction of a pose: `ori * glm::vec3{0, 0, -1}`. -/
def Pose.ray (p : Pose) : Vec3 := p.ori.rotate ⟨0, 0, -1⟩

/-- The body of the hand loop of `case Scene::Title` (lines 330-345) for hand
`i`; the second component is the local variable `gameStart`. -/
def titleHand (dat : GameData) (st : World × Bool) (i : Fin 2) : World × Bool :=
  let w := st.1
  let gameStart := st.2
  let gsSelectedHands_old := w.gsSelectedHands i
  let w1 : World := { w with gsSelectedHands := Function.update w.gsSelectedHands i false }
  let st2 : World × Bool :=
    match w1.handPose i with
    | some hp =>
      match (startRect w1).RayCast hp.pos hp.ray with
      | some col =>
        ({ w1 with rayD := Function.update w1.rayD i (some col.2),
                   gsSelectedHands := Function.update w1.gsSelectedHands i true,
                   gsSelected := true },
         if w1.gameDat.trigger i then true else gameStart)
      | none => (w1, gameStart)
    | none => (w1, gameStart)
  let w3 : World :=
    if gsSelectedHands_old ≠ st2.1.gsSelectedHands i then
      match dat.handVib i with
      | some h => st2.1.emit (Event.vibrate i h 0.1)
      | none => st2.1.emit (Event.vibrateAbsent i 0.1)
    else st2.1
  (w3, st2.2)

/-- The case `Scene::Title` of `proc_main` (lines 324-358). -/
def sceneTitle (dat : GameData) (w : World) : World :=
  let w1 : World := { w with gsSelected := false }
  let st := titleHand dat (titleHand dat (w1, false) 0) 1
  if st.2 then
    { st.1 with scene := Scene.MainGame, score := 0, gameTimer := 30 }
  else st.1

/-- The local variables of the target loop of `case Scene::MainGame` for one
hand: `rayD[i]`, the pair `lockedon` (as an index into `targets`) and `hit`,
which are always assigned together, and `colPos`. -/
structure LockState where
  rayD : Option ℚ
  lockedon : Option (Nat × Hit)
  colPos : Vec3

/-- The body of the target loop (lines 370-385) for the target `target` at
index `k`, for a hand with smoothed pose `hp`. -/
def lockStep (hp : Pose) (s : LockState) (k : Nat) (target : Target) : LockState :=
  let ray := hp.ray
  match target.RayCast hp.pos ray with
  | none => s
  | some res =>
    let d := res.rayLen
    let nearer : Bool :=
      match s.rayD with
      | none => true
      | some r => decide (d < r)
    if nearer then
      { rayD := some d,
        colPos := hp.pos + Vec3.smul d ray,
        lockedon := if res.enable then some (k, res) else s.lockedon }
    else s

/-- The target loop (lines 370-385) over the targets from index `k` on. -/
def lockLoop (hp : Pose) : List Target → Nat → LockState → LockState
  | [], _, s => s
  | target :: rest, k, s => lockLoop hp rest (k + 1) (lockStep hp s k target)

/-- The assignment `lockedon->get().alive = false` on the target at index `k`. -/
def setDead : List Target → Nat → List Target
  | [], _ => []
  | t :: ts, 0 => { t with alive := false } :: ts
  | t :: ts, k + 1 => t :: setDead ts k

/-- One `boomEffects.emplace_back(pos)`, consuming one `rand()` value. -/
def addBoom (L : Lib) (pos : Vec3) (w : World) : World :=
  { w with
    boomEffects := w.boomEffects ++ [boomEffect.new L w.upperVec w.rightVec pos (L.rand w.randCount)],
    randCount := w.randCount + 1 }

/-- The loop of lines 390-391: ten `boomEffects.emplace_back(pos)`. -/
def addBooms (L : Lib) (pos : Vec3) (w : World) : World :=
  (List.range 10).foldl (fun v _ => addBoom L pos v) w

/-- The score banding of lines 393-408: the tier and the points for a hit at
distance `dCenter` from the target centre. -/
def scoreBand (dCenter : Radical) : Int × Int :=
  if dCenter.lt 0.04 then (0, 100)
  else if dCenter.lt 0.07 then (1, 50)
  else if dCenter.lt 0.13 then (2, 30)
  else (3, 10)

/-- Lines 386-409: the scoring of hand `i` after its target loop ended in the
state `s`. -/
def applyHit (L : Lib) (w : World) (i : Fin 2) (s : LockState) : World :=
  match s.lockedon with
  | some (k, hit) =>
    if w.gameDat.trigger i then
      let w2 : World := { w with targets := setDead w.targets k }
      let w3 := w2.sePlay Sound.tgtSe hit.colPos
      let w4 := addBooms L hit.colPos w3
      { w4 with
        scoreEffects :=
          w4.scoreEffects ++ [scoreEffect.new L w4.stagePose s.colPos (scoreBand hit.dCenter).1],
        score := w4.score + (scoreBand hit.dCenter).2 }
    else w
  | none => w

/-- The body of the hand loop of `case Scene::MainGame` (lines 362-410) for
hand `i`. -/
def mainGameHand (L : Lib) (w : World) (i : Fin 2) : World :=
  match w.handPose i with
  | none => w
  | some hp =>
    let s := lockLoop hp w.targets 0 { rayD := w.rayD i, lockedon := none, colPos := Vec3.zero }
    let w1 : World := { w with rayD := Function.update w.rayD i s.rayD }
    applyHit L w1 i s

/-- Lines 413-419: the target spawn timer. -/
def spawnStep (L : Lib) (w : World) : World :=
  let tgtTimer := w.tgtTimer - w.gameDat.dt
  if tgtTimer ≤ 0 then
    { w with
      tgtTimer := 0.5,
      targets := w.targets ++
        [Target.new L w.sightBase w.stagePose w.upperVec w.rightVec w.fwdVec
          (L.rand w.randCount) (L.rand (w.randCount + 1)) (L.rand (w.randCount + 2))],
      randCount := w.randCount + 3 }
  else { w with tgtTimer := tgtTimer }

/-- Lines 421-447 (and 464-490): every target, score effect and boom effect is
advanced by `gameDat.dt`, then the dead ones are erased. -/
def entityStep (L : Lib) (w : World) : World :=
  { w with
    targets := (w.targets.map (fun t => t.proc L w.gameDat.dt)).filter (fun t => t.alive),
    scoreEffects :=
      (w.scoreEffects.map (fun e => e.proc w.upperVec w.gameDat.dt)).filter (fun e => e.alive),
    boomEffects := (w.boomEffects.map (fun e => e.proc w.gameDat.dt)).filter (fun e => e.alive) }

/-- The body of the countdown-cue loop (lines 455-459) for the boundary `i`. -/
def cueStep (dat : GameData) (w : World) (i : Nat) : World :=
  if w.gameTimer ≥ (i : ℚ) ∧ w.gameTimer - dat.dt < (i : ℚ) then
    w.sePlay Sound.cntSe (w.sightBase.pos + Vec3.smul 1 w.fwdVec + Vec3.smul 1 w.upperVec)
  else w

/-- The case `Scene::MainGame` of `proc_main` (lines 359-461). -/
def sceneMainGame (L : Lib) (dat : GameData) (w : World) : World :=
  let w1 : World := { w with gameTimer := w.gameTimer - dat.dt }
  let w2 := mainGameHand L (mainGameHand L w1 0) 1
  let w3 := spawnStep L w2
  let w4 := entityStep L w3
  let w5 : World :=
    if w4.gameTimer ≤ 0 then
      ({ w4 with scene := Scene.ScoreResult, gameTimer := 8 } : World).sePlay Sound.buzzerSe
        (w4.sightBase.pos + Vec3.smul 2 w4.fwdVec + Vec3.smul 2 w4.upperVec)
    else w4
  [1, 2, 3, 4, 5].foldl (cueStep dat) w5

/-- The case `Scene::ScoreResult` of `proc_main` (lines 462-501). -/
def sceneScoreResult (L : Lib) (dat : GameData) (w : World) : World :=
  let w1 : World := { w with gameTimer := w.gameTimer - dat.dt }
  let w2 := entityStep L w1
  let w3 : World :=
    if w2.gameTimer ≥ 5 ∧ w2.gameTimer - dat.dt < 5 then
      w2.sePlay Sound.gunSe (w2.sightBase.pos + Vec3.smul 1 w2.fwdVec + Vec3.smul 1 w2.upperVec)
    else w2
  if w3.gameTimer ≤ 0 then { w3 with scene := Scene.Title } else w3

/-- The part of `proc_main` before the scene switch (lines 275-320). -/
def preScene (L : Lib) (w : World) (dat : GameData) : World :=
  let w1 := stageStep w dat
  let w2 := smoothHand L dat (smoothHand L dat w1 0) 1
  let w3 := listenerStep w2 dat
  gunFeedback dat (gunFeedback dat w3 0) 1

/-- The function `proc_main`. -/
def proc_main (L : Lib) (w : World) (dat : GameData) : World :=
  let w1 := preScene L w dat
  match w1.scene with
  | Scene.Title => sceneTitle dat w1
  | Scene.MainGame => sceneMainGame L dat w1
  | Scene.ScoreResult => sceneScoreResult L dat w1

/-- Lines 508-510 of `proc`: the previous triggers are saved and the input is
stored; the list of device calls of the tick starts empty. -/
def World.begin (w : World) (dat : GameData) : World :=
  { w with trigger_old := w.gameDat.trigger, gameDat := dat, calls := [] }

/-- The function `proc`: one tick.  The field `calls` of the result lists the
device calls made by this tick. -/
def proc (L : Lib) (w : World) (dat : GameData) : World :=
  let w1 : World := w.begin dat
  if w1.initialized then
    let w2 := proc_main L w1 dat
    { w2 with seManager := w2.seManager.update dat.dt }
  else
    proc_init L w1 dat

/-- A run of ticks: `proc` applied to each input in turn. -/
def run (L : Lib) (w : World) (ds : List GameData) : World :=
  ds.foldl (proc L) w

/-! ## Auxiliary definitions for the proofs -/

/-- The globals that no statement after the smoothing loop writes. -/
structure Fixed where
  initialized : Bool
  handPoseBufIndex : Fin 2 → Fin 3
  handPoseBuf : Fin 2 → Fin 3 → Option Pose
  handPose : Fin 2 → Option Pose
  gameDat : GameData
  trigger_old : Fin 2 → Bool
  stagePose : Pose
  fwdVec : Vec3
  upperVec : Vec3
  rightVec : Vec3
  sightBase : Pose
  gameStartStrPose : Pose

/-- The values of the `Fixed` globals in a world. -/
def World.fixed (w : World) : Fixed :=
  { initialized := w.initialized, handPoseBufIndex := w.handPoseBufIndex,
    handPoseBuf := w.handPoseBuf, handPose := w.handPose, gameDat := w.gameDat,
    trigger_old := w.trigger_old, stagePose := w.stagePose, fwdVec := w.fwdVec,
    upperVec := w.upperVec, rightVec := w.rightVec, sightBase := w.sightBase,
    gameStartStrPose := w.gameStartStrPose }

/-- The smoothing of one hand as a function of that hand's ring buffer, write
cursor and raw sample alone (the loop body `smoothHand` restricted to the
entries of hand `i`): the new buffer, the new cursor and the smoothed pose. -/
def smoothCore (L : Lib) (buf : Fin 3 → Option Pose) (idx : Fin 3) (raw : Option Pose) :
    (Fin 3 → Option Pose) × Fin 3 × Option Pose :=
  let buf1 : Fin 3 → Option Pose :=
    match raw with
    | some p => Function.update buf idx (some p)
    | none => buf
  let idx1 : Fin 3 :=
    match raw with
    | some _ => idx + 1
    | none => idx
  match buf1 0, buf1 1, buf1 2 with
  | some b0, some b1, some b2 =>
    let arr : Fin 3 → Pose := fun j => if j = 0 then b0 else if j = 1 then b1 else b2
    let pos := Vec3.sdiv (((Vec3.zero + b0.pos) + b1.pos) + b2.pos) 3
    let ori0 := (arr idx1).ori
    let ori1 := L.slerp ori0 (arr (idx1 + 1)).ori (1 / 2)
    let ori2 := L.slerp ori1 (arr (idx1 + 2)).ori (1 / 3)
    (buf1, idx1, some ⟨pos, ori2⟩)
  | _, _, _ => (buf1, idx1, none)

/-- The ring buffer of a hand after `k` insertions since it was empty: fewer
than three insertions fill the slots below the cursor `k`; three or more fill
every slot. -/
def BufInv (buf : Fin 3 → Option Pose) (idx : Fin 3) (k : Nat) : Prop :=
  (k < 3 → idx.val = k ∧ ∀ j : Fin 3, (buf j).isSome = decide (j.val < k)) ∧
  (3 ≤ k → ∀ j : Fin 3, (buf j).isSome = true)

/-- The number of inputs of a run that supply a raw pose sample for hand `i`. -/
def samples (i : Fin 2) (ds : List GameData) : Nat :=
  (ds.filter (fun d => (d.handPoses i).isSome)).length

/-- A rational instance of `Lib` on which the model can be evaluated.  It
agrees with the library at the arguments the examples use: `slerp` is the
linear blend, which is exact for equal quaternions; `normalize` is exact on
unit quaternions; `rotate` is exact for a rotation by the constant `pi`
about a unit axis (half-angle cosine 0 and sine 1), and is taken at angle 0
otherwise, as are `sin` and `cos`; `rand` always returns 0. -/
def Lib.sample : Lib :=
  { sin := fun _ => 0,
    cos := fun _ => 1,
    slerp := fun a b t =>
      ⟨(1 - t) * a.w + t * b.w, (1 - t) * a.x + t * b.x,
       (1 - t) * a.y + t * b.y, (1 - t) * a.z + t * b.z⟩,
    normalize := fun q => q,
    rotate := fun q angle axis => if angle = pi then q * ⟨0, axis.x, axis.y, axis.z⟩ else q,
    rand := fun _ => 0 }

/-- An input with the given time step, triggers and raw hand poses, tracked
head and stage at the origin, and both haptic handles present. -/
def GameData.sample (dt : ℚ) (trigger : Fin 2 → Bool) (handPoses : Fin 2 → Option Pose) :
    GameData :=
  { dt := dt, viewPose := some ⟨Vec3.zero, Quat.identity⟩,
    stagePose := some ⟨Vec3.zero, Quat.identity⟩,
    handPoses := handPoses, trigger := trigger, handVib := fun i => some i.val }

/-- The world after the first `proc` call from start-up with a tracked stage
at the origin: initialised, in the Title scene, nothing else yet set. -/
def World.ready : World :=
  proc Lib.sample World.start (GameData.sample 0 (fun _ => false) (fun _ => none))

/-- A pose at the point `(0, 1.2, 1)` looking along `-z` (identity
orientation): in front of the start rectangle of `World.ready`, at its height. -/
def Pose.sample : Pose := ⟨⟨0, 1.2, 1⟩, Quat.identity⟩

/-- An input with both hands tracked at `Pose.sample` and no trigger pressed. -/
def GameData.idle : GameData :=
  GameData.sample 1 (fun _ => false) (fun _ => some Pose.sample)

/-- An input with both hands tracked at `Pose.sample` and the trigger of hand 0
pressed. -/
def GameData.held : GameData :=
  GameData.sample 1 (fun i => decide (i = 0)) (fun _ => some Pose.sample)

/-- Whether a device call is a request to play the buzzer on the one-shot
audio manager. -/
def Event.isBuzzer : Event → Bool
  | Event.sePlay Sound.buzzerSe _ _ => true
  | _ => false

/-- The scene, the game timer and the number of buzzer requests made so far in
the current tick. -/
structure Clock where
  scene : Scene
  gameTimer : ℚ
  buzzers : Nat

/-- The `Clock` values of a world. -/
def World.clock (w : World) : Clock :=
  { scene := w.scene, gameTimer := w.gameTimer, buzzers := w.calls.countP Event.isBuzzer }

/-- The test made for hand `i` in the Title scene: the smoothed pose is
present, its forward ray hits the start rectangle, and `gameDat.trigger[i]`
is set. -/
def startsGame (w : World) (i : Fin 2) : Bool :=
  match w.handPose i with
  | some hp => ((startRect w).RayCast hp.pos hp.ray).isSome && w.gameDat.trigger i
  | none => false

/-- The globals that the part of `proc_main` before the scene switch does not
write. -/
structure Rest where
  scene : Scene
  gameTimer : ℚ
  tgtTimer : ℚ
  score : Int
  gsSelected : Bool
  gsSelectedHands : Fin 2 → Bool
  targets : List Target
  scoreEffects : List scoreEffect
  boomEffects : List boomEffect
  seManager : OneShotAudioManager
  randCount : Nat
  gameDat : GameData
  trigger_old : Fin 2 → Bool
  initialized : Bool
  stagePose : Pose
  fwdVec : Vec3
  upperVec : Vec3
  rightVec : Vec3
  sightBase : Pose
  gameStartStrPose : Pose

/-- The values of the `Rest` globals in a world. -/
def World.rest (w : World) : Rest :=
  { scene := w.scene, gameTimer := w.gameTimer, tgtTimer := w.tgtTimer, score := w.score,
    gsSelected := w.gsSelected, gsSelectedHands := w.gsSelectedHands, targets := w.targets,
    scoreEffects := w.scoreEffects, boomEffects := w.boomEffects, seManager := w.seManager,
    randCount := w.randCount, gameDat := w.gameDat, trigger_old := w.trigger_old,
    initialized := w.initialized, stagePose := w.stagePose, fwdVec := w.fwdVec,
    upperVec := w.upperVec, rightVec := w.rightVec, sightBase := w.sightBase,
    gameStartStrPose := w.gameStartStrPose }

/-- The time covered by a run of inputs: the sum of their `dt`. -/
def dtSum (ds : List GameData) : ℚ := (ds.map GameData.dt).sum

/-- The state of the loop-local variables when the target loop of a hand
starts in a tick: `rayD[i]` has been reset, nothing is locked on. -/
def LockState.start : LockState := { rayD := none, lockedon := none, colPos := Vec3.zero }

/-- A target resting at `pos` with orientation `ori` (its `pose` and `tgtPose`),
3 seconds into its life. -/
def Target.resting (pos : Vec3) (ori : Quat) : Target :=
  { pose := ⟨pos, ori⟩, tgtPose := ⟨pos, ori⟩, endPose := ⟨pos, ori⟩,
    hidPose := ⟨pos - Vec3.smul 10 ⟨0, 1, 0⟩, ori⟩, timer := 3, alive := true,
    angleA := 0, angleB := 0, dist := 1 }

/-- A target one unit in front of a hand at the origin looking along `-z`,
showing its back to the ray (`dot(rayDir, norm) = -1`). -/
def Target.nearBack : Target := Target.resting ⟨0, 0, -1⟩ Quat.identity

/-- A target two units in front of a hand at the origin looking along `-z`,
showing its front to the ray (`dot(rayDir, norm) = 1`). -/
def Target.farFront : Target := Target.resting ⟨0, 0, -2⟩ ⟨0, 0, 1, 0⟩

/-- A hand pose at the origin looking along `-z`. -/
def Pose.origin : Pose := ⟨⟨0, 0, 0⟩, Quat.identity⟩

/-- The score and the beam lengths `rayD`: what the MainGame scene code writes
only inside the hand loop. -/
def World.tally (w : World) : Int × (Fin 2 → Option ℚ) := (w.score, w.rayD)

/-- The state in which the target loop of hand `i` ends in the world `w`, for
the smoothed pose `hp` of that hand. -/
def lockOf (w : World) (i : Fin 2) (hp : Pose) : LockState :=
  lockLoop hp w.targets 0 { rayD := w.rayD i, lockedon := none, colPos := Vec3.zero }

/-- The world in which the hand loop of `case Scene::MainGame` starts in the
tick `proc L w dat`: the state after the part of `proc_main` before the scene
switch, with the game timer decremented. -/
def handsWorld (L : Lib) (w : World) (dat : GameData) : World :=
  { preScene L (w.begin dat) dat with
    gameTimer := (preScene L (w.begin dat) dat).gameTimer - dat.dt }

/-- The world in which the hand loop body of `case Scene::MainGame` runs for
hand `i` in the tick `proc L w dat`: `handsWorld` for hand 0, and the world left
by the loop body of hand 0 for hand 1. -/
def handWorld (L : Lib) (w : World) (dat : GameData) (i : Fin 2) : World :=
  if i = 0 then handsWorld L w dat else mainGameHand L (handsWorld L w dat) 0

/-- A target resting two units in front of `Pose.sample`, facing it, whose
centre is 0.039 to the side of the forward ray of `Pose.sample`. -/
def Target.sample : Target := Target.resting ⟨0.039, 1.2, -1⟩ ⟨0, 0, 1, 0⟩

/-- The world of the held-trigger run after the tick that started the game
(`MainGame`, both hands aimed along `-z` from `Pose.sample`, the trigger of hand 0
pressed in the stored input), with `Target.sample` as the one live target. -/
def World.shot : World :=
  { run Lib.sample World.ready [GameData.held, GameData.held, GameData.held] with
    targets := [Target.sample] }

/-- The representation invariant of a `OneShotAudioManager`: `available` is a
set (strictly increasing, as `std::set<int>` iterates) of valid slot numbers. -/
def OneShotAudioManager.WF (m : OneShotAudioManager) : Prop :=
  m.available.Sorted (· < ·) ∧ ∀ j ∈ m.available, j < m.container.length

/-- A call on a `OneShotAudioManager`: `update(dt)` or `play(se, pos)`. -/
inductive AudioOp
  | update (dt : ℚ)
  | play

/-- The manager after one call. -/
def OneShotAudioManager.step (m : OneShotAudioManager) : AudioOp → OneShotAudioManager
  | AudioOp.update dt => m.update dt
  | AudioOp.play => m.play.1

/-- The manager after a sequence of calls. -/
def OneShotAudioManager.exec (m : OneShotAudioManager) (ops : List AudioOp) :
    OneShotAudioManager :=
  ops.foldl OneShotAudioManager.step m

/-- No `play` call of the sequence, run from the manager `m`, claims slot `i`. -/
def notClaimed (i : Nat) : OneShotAudioManager → List AudioOp → Prop
  | _, [] => True
  | m, AudioOp.update dt :: ops => notClaimed i (m.update dt) ops
  | m, AudioOp.play :: ops => m.play.2 ≠ some i ∧ notClaimed i m.play.1 ops

/-- The time covered by the `update` calls of a sequence of calls. -/
def opTime : List AudioOp → ℚ
  | [] => 0
  | AudioOp.update dt :: ops => dt + opTime ops
  | AudioOp.play :: ops => opTime ops

/-- Every `update` call of a sequence has a positive `dt`. -/
def opPositive : List AudioOp → Prop
  | [] => True
  | AudioOp.update dt :: ops => 0 < dt ∧ opPositive ops
  | AudioOp.play :: ops => opPositive ops

/-- The raw pose samples that a run of inputs supplies for hand `i`, in order. -/
def rawSamples (i : Fin 2) (ds : List GameData) : List Pose :=
  ds.filterMap (fun d => d.handPoses i)

/-- The newest samples of a ring buffer with write cursor `idx` are the last
elements of the list `ps` of inserted samples: the newest in the slot before
the cursor, the one before it two slots before the cursor, the third newest
at the cursor (the slot that the next insertion overwrites). -/
def Recent (buf : Fin 3 → Option Pose) (idx : Fin 3) (ps : List Pose) : Prop :=
  (∀ qs c, ps = qs ++ [c] → buf (idx + 2) = some c) ∧
  (∀ qs b c, ps = qs ++ [b, c] → buf (idx + 1) = some b) ∧
  (∀ qs a b c, ps = qs ++ [a, b, c] → buf idx = some a)

/-- The three entity collections and the spawn timer: what the Title scene
code never writes. -/
def World.stock (w : World) : List Target × List scoreEffect × List boomEffect × ℚ :=
  (w.targets, w.scoreEffects, w.boomEffects, w.tgtTimer)

/-- The index in `targets` of the target that the hand loop body of
`case Scene::MainGame` marks dead for hand `i` when run in the world `w`: the
target locked on by the target loop, if `gameDat.trigger[i]` is set. -/
def shotIndex (w : World) (i : Fin 2) : Option Nat :=
  match w.handPose i with
  | none => none
  | some hp =>
    match (lockOf w i hp).lockedon with
    | some (k, _) => if w.gameDat.trigger i then some k else none
    | none => none

/-- The world left by the hand loop of `case Scene::MainGame` in the tick
`proc L w dat`. -/
def shotWorld (L : Lib) (w : World) (dat : GameData) : World :=
  mainGameHand L (mainGameHand L (handsWorld L w dat) 0) 1

/-- A MainGame world with `Target.sample` as its one target, nothing tracked
yet. -/
def World.range : World :=
  { World.ready with scene := Scene.MainGame, gameTimer := 30, targets := [Target.sample] }

/-- An input of one second with no hand tracked and no trigger pressed. -/
def GameData.blind : GameData := GameData.sample 1 (fun _ => false) (fun _ => none)

/-- An input of `dt` seconds with no hand tracked and no trigger pressed. -/
def GameData.wait (dt : ℚ) : GameData := GameData.sample dt (fun _ => false) (fun _ => none)

/-- The world reached from start-up by the three ticks of the held-trigger run
(the third starts the game), two MainGame ticks of 29 s and 1 s (the second
ends the game) and one ScoreResult tick of 8 s (which returns to Title). -/
def World.leftover : World :=
  run Lib.sample World.ready
    [GameData.held, GameData.held, GameData.held, GameData.wait 29, GameData.wait 1,
     GameData.wait 8]

/-- The test made for hand `i` in the Title scene before the trigger is looked
at: the smoothed pose is present and its forward ray hits the start rectangle. -/
def hovers (w : World) (i : Fin 2) : Bool :=
  match w.handPose i with
  | some hp => ((startRect w).RayCast hp.pos hp.ray).isSome
  | none => false

/-- The call `dat.handVib[i]->get().vibrate(0.1)` of the Title scene: a pulse on
the handle of hand `i`, or the call through an absent handle. -/
def pulse (dat : GameData) (i : Fin 2) : Event :=
  match dat.handVib i with
  | some h => Event.vibrate i h 0.1
  | none => Event.vibrateAbsent i 0.1

/-- Whether a device call is a light haptic pulse, a `vibrate` of amplitude
0.1. -/
def Event.isPulse : Event → Bool
  | Event.vibrate _ _ a => decide (a = 0.1)
  | Event.vibrateAbsent _ a => decide (a = 0.1)
  | _ => false

/-- A pose 300 to the side of `Pose.sample`, looking along `-z`. -/
def Pose.aside : Pose := ⟨⟨300, 1.2, 1⟩, Quat.identity⟩

/-- An input with both hands tracked at `Pose.aside`, no trigger pressed, both
haptic handles present. -/
def GameData.away : GameData :=
  GameData.sample 1 (fun _ => false) (fun _ => some Pose.aside)

/-- The input `GameData.away` with both haptic handles absent. -/
def GameData.mute : GameData := { GameData.away with handVib := fun _ => none }

/-- The world reached from start-up by three Title ticks with both hands
tracked at `Pose.sample`, aimed at the start rectangle, and no trigger pressed. -/
def World.hovering : World :=
  run Lib.sample World.ready [GameData.idle, GameData.idle, GameData.idle]

/-- Whether a device call belongs to the gun feedback: a `play` on a hand's
audio source or a `vibrate` of amplitude 1. -/
def Event.isGun : Event → Bool
  | Event.gunPlay _ _ => true
  | Event.vibrate _ _ a => decide (a = 1)
  | _ => false

/-- The gun-feedback calls among the device calls of the current tick. -/
def World.guns (w : World) : List Event := w.calls.filter Event.isGun

/-- The gun-feedback calls of lines 314-319 for hand `i`, with `old` the
trigger state of the previous input. -/
def gunCalls (old : Fin 2 → Bool) (dat : GameData) (i : Fin 2) : List Event :=
  if !old i && dat.trigger i then
    Event.gunPlay i Sound.gunSe ::
      (match dat.handVib i with
       | some h => [Event.vibrate i h 1]
       | none => [])
  else []

/-- Whether a device call is a request to play the countdown cue on the
one-shot audio manager. -/
def Event.isCue : Event → Bool
  | Event.sePlay Sound.cntSe _ _ => true
  | _ => false

/-- The number of countdown-cue requests among the device calls of the
current tick. -/
def World.cues (w : World) : Nat := w.calls.countP Event.isCue

/-- The guard of the countdown-cue loop (line 456) for the boundary `i`, with
`g` the game timer at that point of the tick and `dt` the step of the tick. -/
def cueDue (g dt : ℚ) (i : Nat) : Bool := decide (g ≥ (i : ℚ) ∧ g - dt < (i : ℚ))

/-- The number of ticks of a run, among those processed in the MainGame scene,
in which the guard of the countdown-cue loop holds for the boundary `i`, so
that the cue is requested for it; the cue loop reads the game timer that the
tick leaves. -/
def cueTotal (L : Lib) (i : Nat) : World → List GameData → Nat
  | _, [] => 0
  | w, d :: ds =>
    (if w.scene = Scene.MainGame ∧ cueDue (proc L w d).gameTimer d.dt i = true then 1 else 0)
      + cueTotal L i (proc L w d) ds

/-- A run of 32 steps, each positive and at most one second, of irregular
length: 23 steps of 1 s, then 0.5 s, 1 s and 0.4 s, then 6 steps of 1 s. -/
def GameData.uneven : List GameData :=
  List.replicate 23 (GameData.wait 1)
    ++ [GameData.wait (1 / 2), GameData.wait 1, GameData.wait (2 / 5)]
    ++ List.replicate 6 (GameData.wait 1)

/-- A target one unit in front of `Pose.sample`, on its forward ray, showing its
back to the ray (`dot(rayDir, norm) = -1`). -/
def Target.screen : Target := Target.resting ⟨0, 1.2, 0⟩ Quat.identity

/-- The world of the held-trigger run after the tick that started the game,
with two targets on the forward ray of `Pose.sample`: first in the collection
`Target.sample`, two units away and facing the hand, then `Target.screen`, one
unit away and back-facing. -/
def World.lined : World :=
  { run Lib.sample World.ready [GameData.held, GameData.held, GameData.held] with
    targets := [Target.sample, Target.screen] }

/-- The points that the hand loop body awards to a hand with smoothed pose
`pose` and trigger state `trigger` when its target loop runs over the targets
`ts` with no distance recorded: the points of the band of the locked-on hit if
there is one and the trigger is pressed, none otherwise. -/
def hitPoints (ts : List Target) (pose : Option Pose) (trigger : Bool) : Int :=
  match pose with
  | none => 0
  | some hp =>
    match (lockLoop hp ts 0 LockState.start).lockedon with
    | some (_, hit) => if trigger then (scoreBand hit.dCenter).2 else 0
    | none => 0

/-- An input with both hands tracked at `Pose.sample` and both triggers
pressed. -/
def GameData.both : GameData :=
  GameData.sample 1 (fun _ => true) (fun _ => some Pose.sample)

/-- The conversion `int(x)` of a `double` to `int`: truncation toward zero. -/
def toInt (q : ℚ) : Int := if 0 ≤ q then ⌊q⌋ else ⌈q⌉

/-- The two indices into `numberModel` that `draw` computes in
`case Scene::MainGame` (lines 558 and 560): `int(gameTimer) / 10` and
`int(gameTimer) % 10`, with the truncating division of C++. -/
def timerDigits (w : World) : Int × Int :=
  (Int.tdiv (toInt w.gameTimer) 10, Int.tmod (toInt w.gameTimer) 10)

/-! ## Lemmas on the vector operations -/

theorem Vec3.add_def (a b : Vec3) : a + b = ⟨a.x + b.x, a.y + b.y, a.z + b.z⟩ := rfl

theorem Vec3.sub_def (a b : Vec3) : a - b = ⟨a.x - b.x, a.y - b.y, a.z - b.z⟩ := rfl

/-- The signed offset of the ray point at distance `d` from a plane is affine
in `d`. -/
theorem dot_ray_point (o dir po n : Vec3) (d : ℚ) :
    dot (o + Vec3.smul d dir - po) n = d * dot dir n - dot (po - o) n := by
  simp only [dot, Vec3.add_def, Vec3.sub_def, Vec3.smul]
  ring

/-- What `intersectRayPlane` returns: the ray is not parallel to the plane
and the distance is the positive quotient. -/
theorem intersectRayPlane_eq_some (o dir po n : Vec3) (t : ℚ) :
    intersectRayPlane o dir po n = some t ↔
      dot dir n ≠ 0 ∧ 0 < t ∧ t = dot (po - o) n / dot dir n := by
  unfold intersectRayPlane
  by_cases hd : dot dir n = 0
  · simp [hd]
  · by_cases ht : 0 < dot (po - o) n / dot dir n
    · simp only [ne_eq, hd, not_false_eq_true, if_true, gt_iff_lt, ht, Option.some.injEq,
        true_and]
      constructor
      · intro h; subst h; exact ⟨ht, rfl⟩
      · intro h; exact h.2.symm
    · simp only [ne_eq, hd, not_false_eq_true, if_true, gt_iff_lt, ht, if_false, true_and]
      constructor
      · intro h; cases h
      · intro h; exact absurd (h.2 ▸ h.1) ht

/-- Geometric reading of `intersectRayPlane`: it returns `t` exactly when the
ray is transversal to the plane and its point at the positive distance `t`
lies on the plane. -/
theorem intersectRayPlane_meets (o dir po n : Vec3) (t : ℚ) :
    intersectRayPlane o dir po n = some t ↔
      dot dir n ≠ 0 ∧ 0 < t ∧ dot (o + Vec3.smul t dir - po) n = 0 := by
  rw [intersectRayPlane_eq_some, dot_ray_point]
  constructor
  · rintro ⟨hd, ht, he⟩
    refine ⟨hd, ht, ?_⟩
    rw [he, div_mul_cancel₀ _ hd, sub_self]
  · rintro ⟨hd, ht, he⟩
    refine ⟨hd, ht, ?_⟩
    rw [eq_div_iff hd]
    linarith

/-- A parallel ray has no intersection. -/
theorem intersectRayPlane_parallel (o dir po n : Vec3) (h : dot dir n = 0) :
    intersectRayPlane o dir po n = none := by
  simp [intersectRayPlane, h]

/-- The comparison `Radical.le` is the comparison of the square root with the
constant. -/
theorem Radical.le_iff_sqrt (r : Radical) (c : ℚ) :
    r.le c = true ↔ Real.sqrt (r.sq : ℝ) ≤ (c : ℝ) := by
  rw [Real.sqrt_le_iff]
  simp only [Radical.le, decide_eq_true_eq]
  constructor
  · rintro ⟨h0, h1⟩
    refine ⟨by exact_mod_cast h0, ?_⟩
    have : (r.sq : ℝ) ≤ ((c * c : ℚ) : ℝ) := by exact_mod_cast h1
    rw [pow_two]; push_cast at this; exact this
  · rintro ⟨h0, h1⟩
    refine ⟨by exact_mod_cast h0, ?_⟩
    rw [pow_two] at h1
    exact_mod_cast h1

/-- The comparison `Radical.lt` is the strict comparison of the square root
with the constant. -/
theorem Radical.lt_iff_sqrt (r : Radical) (c : ℚ) :
    r.lt c = true ↔ Real.sqrt (r.sq : ℝ) < (c : ℝ) := by
  simp only [Radical.lt, decide_eq_true_eq]
  constructor
  · rintro ⟨h0, h1⟩
    have hc : (0 : ℝ) < (c : ℝ) := by exact_mod_cast h0
    rw [Real.sqrt_lt' hc, pow_two]
    exact_mod_cast h1
  · intro h
    have hc : (0 : ℝ) < (c : ℝ) := lt_of_le_of_lt (Real.sqrt_nonneg _) h
    refine ⟨by exact_mod_cast hc, ?_⟩
    rw [Real.sqrt_lt' hc, pow_two] at h
    exact_mod_cast h

/-! ## Ray casts against the rectangle and the target disc -/

/-- When `Rect::RayCast` returns a hit, the ray passed the guard
`dot(rayDir, norm) >= 0`, the plane intersection succeeded with the returned
distance, and the local projections are inside the half extents. -/
theorem Rect.rayCast_hit (r : Rect) (rayfrom rayDir : Vec3) (hit : Vec3 × ℚ)
    (h : r.RayCast rayfrom rayDir = some hit) :
    0 ≤ dot rayDir (r.pose.ori.rotate ⟨0, 0, 1⟩) ∧
    intersectRayPlane rayfrom rayDir r.pose.pos (r.pose.ori.rotate ⟨0, 0, 1⟩) = some hit.2 ∧
    hit.1 = rayfrom + Vec3.smul hit.2 rayDir ∧
    |dot (r.pose.ori.rotate ⟨1, 0, 0⟩) (hit.1 - r.pose.pos)| < r.w / 2 ∧
    |dot (r.pose.ori.rotate ⟨0, 1, 0⟩) (hit.1 - r.pose.pos)| < r.h / 2 := by
  unfold Rect.RayCast at h
  simp only [ge_iff_le] at h
  split_ifs at h with h0
  cases hi : intersectRayPlane rayfrom rayDir r.pose.pos (r.pose.ori.rotate ⟨0, 0, 1⟩) with
  | none => rw [hi] at h; cases h
  | some d =>
    rw [hi] at h
    simp only at h
    split_ifs at h with h1
    cases h
    exact ⟨h0, rfl, rfl, h1.1, h1.2⟩

/-- C7.  Disc hit test: `Target::RayCast` returns a hit if and only if the ray
is transversal to the target plane (through `pose.pos`, normal
`pose.ori * (0,0,1)`), meets it at a positive ray distance `d` - with no
condition on the side from which it comes - and the intersection point lies
at Euclidean distance at most 0.2 from `pose.pos`; the boundary 0.2 is
accepted and anything farther is rejected. -/
theorem Target.rayCast_isSome_iff (t : Target) (rayfrom rayDir : Vec3) :
    (t.RayCast rayfrom rayDir).isSome = true ↔
      ∃ d : ℚ, 0 < d ∧ dot rayDir (t.pose.ori.rotate ⟨0, 0, 1⟩) ≠ 0 ∧
        dot (rayfrom + Vec3.smul d rayDir - t.pose.pos) (t.pose.ori.rotate ⟨0, 0, 1⟩) = 0 ∧
        Real.sqrt ((dot (rayfrom + Vec3.smul d rayDir - t.pose.pos)
          (rayfrom + Vec3.smul d rayDir - t.pose.pos) : ℚ) : ℝ) ≤ (0.2 : ℝ) := by
  have hc : ((0.2 : ℚ) : ℝ) = (0.2 : ℝ) := by norm_num
  unfold Target.RayCast
  dsimp only
  constructor
  · intro h
    cases hi : intersectRayPlane rayfrom rayDir t.pose.pos (t.pose.ori.rotate ⟨0, 0, 1⟩) with
    | none => rw [hi] at h; simp at h
    | some d =>
      rw [hi] at h
      simp only at h
      obtain ⟨hd, hpos, hon⟩ := (intersectRayPlane_meets _ _ _ _ _).1 hi
      refine ⟨d, hpos, hd, hon, ?_⟩
      by_cases hl : (length (rayfrom + Vec3.smul d rayDir - t.pose.pos)).le 0.2 = true
      · have := (Radical.le_iff_sqrt _ _).1 hl
        rw [hc] at this
        exact this
      · rw [if_neg hl] at h; simp at h
  · rintro ⟨d, hpos, hd, hon, hlen⟩
    have hi := (intersectRayPlane_meets rayfrom rayDir t.pose.pos _ d).2 ⟨hd, hpos, hon⟩
    rw [hi]
    have hl : (length (rayfrom + Vec3.smul d rayDir - t.pose.pos)).le 0.2 = true := by
      rw [Radical.le_iff_sqrt, hc]
      exact hlen
    simp only [hl, if_true, Option.isSome_some]

/-- Every hit of `Rect::RayCast` comes from a ray whose direction has a
strictly positive dot product with `pose.ori * (0,0,1)`. -/
theorem Rect.rayCast_pos (r : Rect) (rayfrom rayDir : Vec3) (hit : Vec3 × ℚ)
    (h : r.RayCast rayfrom rayDir = some hit) :
    0 < dot rayDir (r.pose.ori.rotate ⟨0, 0, 1⟩) := by
  obtain ⟨h0, hi, _⟩ := Rect.rayCast_hit r rayfrom rayDir hit h
  have hne := ((intersectRayPlane_eq_some _ _ _ _ _).1 hi).1
  exact lt_of_le_of_ne h0 (Ne.symm hne)

/-- C8, as the code has it.  `Rect::RayCast` returns no hit whenever the ray
direction has a non-positive dot product with `pose.ori * (0,0,1)`, and every
hit it returns comes from a ray whose direction has a strictly positive dot
product with that vector: the guard of the source is
`dot(rayDir, norm) >= 0`, and a zero dot product is a parallel ray. -/
theorem Rect.rayCast_sign (r : Rect) (rayfrom rayDir : Vec3) :
    (dot rayDir (r.pose.ori.rotate ⟨0, 0, 1⟩) ≤ 0 → r.RayCast rayfrom rayDir = none) ∧
    (∀ hit, r.RayCast rayfrom rayDir = some hit →
      0 < dot rayDir (r.pose.ori.rotate ⟨0, 0, 1⟩)) := by
  refine ⟨?_, Rect.rayCast_pos r rayfrom rayDir⟩
  intro hle
  cases hr : r.RayCast rayfrom rayDir with
  | none => rfl
  | some hit => exact absurd (Rect.rayCast_pos r rayfrom rayDir hit hr) (not_lt.2 hle)

/-- C8, the claim as written fails: a ray along `+z` from `(0,0,-1)` has dot
product `1 >= 0` with the vector `pose.ori * (0,0,1)` of the rectangle at the
origin with identity orientation, and `Rect::RayCast` returns the hit at
distance 1. -/
theorem Rect.rayCast_nonneg_dot_hits :
    0 ≤ dot ⟨0, 0, 1⟩ (Quat.identity.rotate ⟨0, 0, 1⟩) ∧
    (Rect.mk ⟨⟨0, 0, 0⟩, Quat.identity⟩ 2.5 0.5).RayCast ⟨0, 0, -1⟩ ⟨0, 0, 1⟩
      = some (⟨0, 0, 0⟩, 1) := by
  constructor
  · norm_num [dot, Quat.rotate, Quat.identity, cross, Vec3.smul, Vec3.add_def]
  · norm_num [Rect.RayCast, intersectRayPlane, dot, Quat.rotate, Quat.identity, cross,
      Vec3.smul, Vec3.add_def, Vec3.sub_def]

/-- A use of `Rect.rayCast_sign`: the ray along `-z` from `(0,0,1)` has dot
product `-1` and misses; the hit of the ray along `+z` has dot product
`1 > 0`. -/
theorem Rect.rayCast_sign_witness :
    (Rect.mk ⟨⟨0, 0, 0⟩, Quat.identity⟩ 2.5 0.5).RayCast ⟨0, 0, 1⟩ ⟨0, 0, -1⟩ = none ∧
    0 < dot ⟨0, 0, 1⟩ (Quat.identity.rotate ⟨0, 0, 1⟩) :=
  ⟨(Rect.rayCast_sign (Rect.mk ⟨⟨0, 0, 0⟩, Quat.identity⟩ 2.5 0.5) ⟨0, 0, 1⟩ ⟨0, 0, -1⟩).1
      (by norm_num [dot, Quat.rotate, Quat.identity, cross, Vec3.smul, Vec3.add_def]),
   (Rect.rayCast_sign (Rect.mk ⟨⟨0, 0, 0⟩, Quat.identity⟩ 2.5 0.5) ⟨0, 0, -1⟩ ⟨0, 0, 1⟩).2
      (⟨0, 0, 0⟩, 1)
      (by norm_num [Rect.RayCast, intersectRayPlane, dot, Quat.rotate, Quat.identity, cross,
        Vec3.smul, Vec3.add_def, Vec3.sub_def])⟩

/-- C9.  Rectangle misses: `Rect::RayCast` returns no hit when the ray
direction is perpendicular to the plane normal, and returns no hit when the
point at which the ray meets the plane (the ray point at a distance `d` lying
on the plane) has a local x projection of absolute value at least `w / 2` or a
local y projection of absolute value at least `h / 2`. -/
theorem Rect.rayCast_misses (r : Rect) (rayfrom rayDir : Vec3) :
    (dot rayDir (r.pose.ori.rotate ⟨0, 0, 1⟩) = 0 → r.RayCast rayfrom rayDir = none) ∧
    (∀ d : ℚ,
      dot (rayfrom + Vec3.smul d rayDir - r.pose.pos) (r.pose.ori.rotate ⟨0, 0, 1⟩) = 0 →
      (r.w / 2 ≤ |dot (r.pose.ori.rotate ⟨1, 0, 0⟩) (rayfrom + Vec3.smul d rayDir - r.pose.pos)| ∨
       r.h / 2 ≤ |dot (r.pose.ori.rotate ⟨0, 1, 0⟩) (rayfrom + Vec3.smul d rayDir - r.pose.pos)|) →
      r.RayCast rayfrom rayDir = none) := by
  constructor
  · intro h0
    cases hr : r.RayCast rayfrom rayDir with
    | none => rfl
    | some hit =>
      have := Rect.rayCast_pos r rayfrom rayDir hit hr
      rw [h0] at this
      exact absurd this (lt_irrefl _)
  · intro d hon hout
    cases hr : r.RayCast rayfrom rayDir with
    | none => rfl
    | some hit =>
      exfalso
      obtain ⟨_, hi, hp, hx, hy⟩ := Rect.rayCast_hit r rayfrom rayDir hit hr
      obtain ⟨hne, _, hon2⟩ := (intersectRayPlane_meets _ _ _ _ _).1 hi
      rw [dot_ray_point] at hon hon2
      have hd : d = hit.2 := by
        have : (d - hit.2) * dot rayDir (r.pose.ori.rotate ⟨0, 0, 1⟩) = 0 := by linarith
        rcases mul_eq_zero.1 this with h | h
        · linarith
        · exact absurd h hne
      rw [hd, ← hp] at hout
      rcases hout with h | h
      · exact absurd hx (not_lt.2 h)
      · exact absurd hy (not_lt.2 h)

/-- A use of `Rect.rayCast_misses`: a ray in the plane of the rectangle is
parallel to it and misses; the ray along `+z` from `(2,0,-1)` meets the plane
at `(2,0,0)`, whose local x projection 2 is beyond the half width 1.25, and
misses. -/
theorem Rect.rayCast_misses_witness :
    (Rect.mk ⟨⟨0, 0, 0⟩, Quat.identity⟩ 2.5 0.5).RayCast ⟨0, 0, -1⟩ ⟨1, 0, 0⟩ = none ∧
    (Rect.mk ⟨⟨0, 0, 0⟩, Quat.identity⟩ 2.5 0.5).RayCast ⟨2, 0, -1⟩ ⟨0, 0, 1⟩ = none :=
  ⟨(Rect.rayCast_misses (Rect.mk ⟨⟨0, 0, 0⟩, Quat.identity⟩ 2.5 0.5) ⟨0, 0, -1⟩ ⟨1, 0, 0⟩).1
      (by norm_num [dot, Quat.rotate, Quat.identity, cross, Vec3.smul, Vec3.add_def]),
   (Rect.rayCast_misses (Rect.mk ⟨⟨0, 0, 0⟩, Quat.identity⟩ 2.5 0.5) ⟨2, 0, -1⟩ ⟨0, 0, 1⟩).2 1
      (by norm_num [dot, Quat.rotate, Quat.identity, cross, Vec3.smul, Vec3.add_def,
        Vec3.sub_def])
      (Or.inl (by norm_num [dot, Quat.rotate, Quat.identity, cross, Vec3.smul, Vec3.add_def,
        Vec3.sub_def]))⟩

/-! ## What the parts of `proc_main` leave unchanged -/

theorem foldl_preserves {α β γ : Type} (f : α → β → α) (g : α → γ)
    (h : ∀ a b, g (f a b) = g a) (l : List β) (a : α) : g (l.foldl f a) = g a := by
  induction l generalizing a with
  | nil => rfl
  | cons b l ih => rw [List.foldl_cons, ih, h]

@[simp] theorem emit_fixed (w : World) (e : Event) : (w.emit e).fixed = w.fixed := rfl

@[simp] theorem sePlay_fixed (w : World) (se : Sound) (p : Vec3) :
    (w.sePlay se p).fixed = w.fixed := rfl

@[simp] theorem addBoom_fixed (L : Lib) (p : Vec3) (w : World) :
    (addBoom L p w).fixed = w.fixed := rfl

@[simp] theorem listenerStep_fixed (w : World) (dat : GameData) :
    (listenerStep w dat).fixed = w.fixed := by
  unfold listenerStep; split <;> rfl

@[simp] theorem gunFeedback_fixed (dat : GameData) (w : World) (i : Fin 2) :
    (gunFeedback dat w i).fixed = w.fixed := by
  unfold gunFeedback
  dsimp only
  have h1 : (match w.handPose i with
      | some hp => w.emit (Event.gunSetPos i hp.pos)
      | none => w).fixed = w.fixed := by split <;> rfl
  split_ifs
  · split <;> simp [h1]
  · exact h1

@[simp] theorem titleHand_fixed (dat : GameData) (st : World × Bool) (i : Fin 2) :
    (titleHand dat st i).1.fixed = st.1.fixed := by
  unfold titleHand
  dsimp only
  split_ifs <;> (repeat' split) <;> rfl

@[simp] theorem sceneTitle_fixed (dat : GameData) (w : World) :
    (sceneTitle dat w).fixed = w.fixed := by
  unfold sceneTitle
  dsimp only
  split_ifs
  · show (titleHand dat (titleHand dat _ 0) 1).1.fixed = _
    rw [titleHand_fixed, titleHand_fixed]; rfl
  · rw [titleHand_fixed, titleHand_fixed]; rfl

@[simp] theorem addBooms_fixed (L : Lib) (p : Vec3) (w : World) :
    (addBooms L p w).fixed = w.fixed :=
  foldl_preserves (fun v (_ : Nat) => addBoom L p v) World.fixed
    (fun a _ => addBoom_fixed L p a) _ w

@[simp] theorem applyHit_fixed (L : Lib) (w : World) (i : Fin 2) (s : LockState) :
    (applyHit L w i s).fixed = w.fixed := by
  unfold applyHit
  split
  · split_ifs
    · show (addBooms L _ _).fixed = _
      rw [addBooms_fixed]
      rfl
    · rfl
  · rfl

@[simp] theorem mainGameHand_fixed (L : Lib) (w : World) (i : Fin 2) :
    (mainGameHand L w i).fixed = w.fixed := by
  unfold mainGameHand
  split
  · rfl
  · dsimp only; rw [applyHit_fixed]; rfl

@[simp] theorem spawnStep_fixed (L : Lib) (w : World) : (spawnStep L w).fixed = w.fixed := by
  unfold spawnStep; dsimp only; split_ifs <;> rfl

@[simp] theorem entityStep_fixed (L : Lib) (w : World) : (entityStep L w).fixed = w.fixed := rfl

@[simp] theorem cueStep_fixed (dat : GameData) (w : World) (i : Nat) :
    (cueStep dat w i).fixed = w.fixed := by
  unfold cueStep; split_ifs <;> rfl

@[simp] theorem sceneMainGame_fixed (L : Lib) (dat : GameData) (w : World) :
    (sceneMainGame L dat w).fixed = w.fixed := by
  unfold sceneMainGame
  dsimp only
  rw [foldl_preserves (cueStep dat) World.fixed (fun a b => cueStep_fixed dat a b)]
  split_ifs
  · rw [sePlay_fixed]
    show (entityStep L _).fixed = _
    simp only [entityStep_fixed, spawnStep_fixed, mainGameHand_fixed]; rfl
  · simp only [entityStep_fixed, spawnStep_fixed, mainGameHand_fixed]; rfl

@[simp] theorem sceneScoreResult_fixed (L : Lib) (dat : GameData) (w : World) :
    (sceneScoreResult L dat w).fixed = w.fixed := by
  unfold sceneScoreResult
  dsimp only
  split_ifs <;> rfl

/-- The scene code of `proc_main` leaves the `Fixed` globals as the
smoothing loop set them. -/
theorem proc_main_fixed (L : Lib) (w : World) (dat : GameData) :
    (proc_main L w dat).fixed = (smoothHand L dat (smoothHand L dat (stageStep w dat) 0) 1).fixed := by
  unfold proc_main
  dsimp only
  have hp : (preScene L w dat).fixed
      = (smoothHand L dat (smoothHand L dat (stageStep w dat) 0) 1).fixed := by
    unfold preScene
    simp only [gunFeedback_fixed, listenerStep_fixed]
  split <;> simp only [sceneTitle_fixed, sceneMainGame_fixed, sceneScoreResult_fixed, hp]

/-- A tick of an initialised world runs `proc_main` and then the update of the
one-shot audio manager. -/
theorem proc_of_initialized (L : Lib) (w : World) (dat : GameData)
    (hinit : w.initialized = true) :
    proc L w dat = { proc_main L (w.begin dat) dat with
      seManager := (proc_main L (w.begin dat) dat).seManager.update dat.dt } := by
  unfold proc
  dsimp only
  rw [if_pos (show (w.begin dat).initialized = true from hinit)]

/-! ## The smoothing loop -/

/-- The loop body `smoothHand` computes, for hand `i`, what `smoothCore` computes
from that hand's entries. -/
theorem smoothHand_same (L : Lib) (dat : GameData) (w : World) (i : Fin 2) :
    ((smoothHand L dat w i).handPoseBuf i, (smoothHand L dat w i).handPoseBufIndex i,
      (smoothHand L dat w i).handPose i)
      = smoothCore L (w.handPoseBuf i) (w.handPoseBufIndex i) (dat.handPoses i) := by
  unfold smoothHand smoothCore
  cases hr : dat.handPoses i with
  | none =>
    dsimp only
    split <;> rename_i h0 h1 h2
    · simp only [h0, h1, h2, Function.update_same]
    · simp only [Function.update_same]
  | some p =>
    dsimp only
    split <;> rename_i h0 h1 h2
    · simp only [Function.update_same] at h0 h1 h2
      simp only [h0, h1, h2, Function.update_same]
    · simp only [Function.update_same] at h2 ⊢
      split
      · rename_i e0 e1 e2
        exact absurd e2 (fun e2 => h2 _ _ _ e0 e1 e2)
      · rfl

/-- The loop body `smoothHand` for hand `i` leaves the entries of the other
hand alone. -/
theorem smoothHand_other (L : Lib) (dat : GameData) (w : World) (i j : Fin 2) (h : j ≠ i) :
    (smoothHand L dat w i).handPoseBuf j = w.handPoseBuf j ∧
    (smoothHand L dat w i).handPoseBufIndex j = w.handPoseBufIndex j ∧
    (smoothHand L dat w i).handPose j = w.handPose j := by
  unfold smoothHand
  cases hr : dat.handPoses i <;> dsimp only <;> split <;>
    simp only [Function.update_noteq h, and_self]

/-- The loop body `smoothHand` does not touch `initialized`. -/
theorem smoothHand_initialized (L : Lib) (dat : GameData) (w : World) (i : Fin 2) :
    (smoothHand L dat w i).initialized = w.initialized := by
  unfold smoothHand
  cases hr : dat.handPoses i <;> dsimp only <;> split <;> rfl

/-- One initialised tick, seen from hand `i`: its ring buffer, write cursor
and smoothed pose after the tick are those computed by `smoothCore` from
its buffer and cursor before the tick and the raw sample of the input. -/
theorem proc_hand (L : Lib) (w : World) (dat : GameData) (i : Fin 2)
    (hinit : w.initialized = true) :
    ((proc L w dat).handPoseBuf i, (proc L w dat).handPoseBufIndex i, (proc L w dat).handPose i)
      = smoothCore L (w.handPoseBuf i) (w.handPoseBufIndex i) (dat.handPoses i) := by
  have hfix : (proc L w dat).fixed
      = (smoothHand L dat (smoothHand L dat
          (stageStep (w.begin dat) dat)
          0) 1).fixed := by
    rw [proc_of_initialized L w dat hinit]
    exact proc_main_fixed L _ dat
  have hb := congrArg Fixed.handPoseBuf hfix
  have hi := congrArg Fixed.handPoseBufIndex hfix
  have hp := congrArg Fixed.handPose hfix
  simp only [World.fixed] at hb hi hp
  rw [hb, hi, hp]
  fin_cases i
  · have h1 := smoothHand_other L dat (smoothHand L dat
      (stageStep (w.begin dat) dat)
      0) 1 0 (by decide)
    simp only [Fin.zero_eta]
    rw [h1.1, h1.2.1, h1.2.2, smoothHand_same]
    rfl
  · simp only [Fin.mk_one]
    have h0 := smoothHand_other L dat
      (stageStep (w.begin dat) dat)
      0 1 (by decide)
    rw [smoothHand_same, h0.1, h0.2.1]
    rfl

/-- An initialised world stays initialised. -/
theorem proc_initialized (L : Lib) (w : World) (dat : GameData)
    (hinit : w.initialized = true) : (proc L w dat).initialized = true := by
  have hfix : (proc L w dat).fixed
      = (smoothHand L dat (smoothHand L dat
          (stageStep (w.begin dat) dat)
          0) 1).fixed := by
    rw [proc_of_initialized L w dat hinit]
    exact proc_main_fixed L _ dat
  have h := congrArg Fixed.initialized hfix
  simp only [World.fixed, smoothHand_initialized] at h
  rw [h]
  exact hinit

/-- The smoothed pose computed by `smoothCore` is present exactly when every
slot of the buffer it returns is filled. -/
theorem smoothCore_isSome (L : Lib) (buf : Fin 3 → Option Pose) (idx : Fin 3)
    (raw : Option Pose) :
    (smoothCore L buf idx raw).2.2.isSome = true ↔
      ∀ j : Fin 3, ((smoothCore L buf idx raw).1 j).isSome = true := by
  unfold smoothCore
  dsimp only
  split
  · rename_i e0 e1 e2
    simp only [Option.isSome_some, true_iff]
    intro j
    fin_cases j
    · simp only [Fin.zero_eta, e0, Option.isSome_some]
    · simp only [Fin.mk_one, e1, Option.isSome_some]
    · simp only [Fin.reduceFinMk, e2, Option.isSome_some]
  · rename_i hno
    simp only [Option.isSome_none, Bool.false_eq_true, false_iff, not_forall]
    by_contra hall
    push_neg at hall
    obtain ⟨b0, e0⟩ := Option.isSome_iff_exists.1 (hall 0)
    obtain ⟨b1, e1⟩ := Option.isSome_iff_exists.1 (hall 1)
    obtain ⟨b2, e2⟩ := Option.isSome_iff_exists.1 (hall 2)
    exact hno b0 b1 b2 e0 e1 e2

/-- The buffer and cursor returned by `smoothCore` without a raw sample are the
ones it was given. -/
theorem smoothCore_none (L : Lib) (buf : Fin 3 → Option Pose) (idx : Fin 3) :
    (smoothCore L buf idx none).1 = buf ∧ (smoothCore L buf idx none).2.1 = idx := by
  unfold smoothCore
  dsimp only
  split <;> exact ⟨rfl, rfl⟩

/-- The buffer and cursor returned by `smoothCore` with a raw sample: the slot at
the cursor is overwritten and the cursor advances cyclically. -/
theorem smoothCore_some (L : Lib) (buf : Fin 3 → Option Pose) (idx : Fin 3) (p : Pose) :
    (smoothCore L buf idx (some p)).1 = Function.update buf idx (some p) ∧
    (smoothCore L buf idx (some p)).2.1 = idx + 1 := by
  unfold smoothCore
  dsimp only
  split <;> exact ⟨rfl, rfl⟩

/-- One insertion takes the buffer state after `k` insertions to the state
after `k + 1`. -/
theorem BufInv.insert (buf : Fin 3 → Option Pose) (idx : Fin 3) (k : Nat) (p : Pose)
    (h : BufInv buf idx k) : BufInv (Function.update buf idx (some p)) (idx + 1) (k + 1) := by
  obtain ⟨hlt, hge⟩ := h
  constructor
  · intro hk
    obtain ⟨hidx, hslots⟩ := hlt (by omega)
    have hk2 : k = 0 ∨ k = 1 := by omega
    constructor
    · rcases hk2 with rfl | rfl
      · have : idx = 0 := Fin.ext hidx
        subst this; rfl
      · have : idx = 1 := Fin.ext hidx
        subst this; rfl
    · intro j
      by_cases hj : j = idx
      · subst hj
        simp only [Function.update_same, Option.isSome_some]
        symm; simp only [decide_eq_true_eq]; omega
      · rw [Function.update_noteq hj, hslots j]
        have : j.val ≠ k := fun e => hj (Fin.ext (e.trans hidx.symm))
        by_cases hjk : j.val < k
        · simp only [hjk, decide_True, true_eq_decide_iff]; omega
        · simp only [hjk, decide_False, false_eq_decide_iff]; omega
  · intro hk
    intro j
    by_cases hj : j = idx
    · subst hj; simp only [Function.update_same, Option.isSome_some]
    · rw [Function.update_noteq hj]
      by_cases hk3 : 3 ≤ k
      · exact hge hk3 j
      · obtain ⟨hidx, hslots⟩ := hlt (by omega)
        rw [hslots j]
        have : j.val ≠ k := fun e => hj (Fin.ext (e.trans hidx.symm))
        have := j.isLt
        simp only [decide_eq_true_eq]; omega

/-- The empty buffer with the cursor at slot 0 is the state after no
insertion. -/
theorem BufInv.empty (buf : Fin 3 → Option Pose) (idx : Fin 3)
    (hempty : ∀ j, buf j = none) (hidx : idx = 0) : BufInv buf idx 0 := by
  subst hidx
  constructor
  · intro _
    refine ⟨rfl, ?_⟩
    intro j
    simp [hempty j]
  · intro h; omega

/-- In the state after `k` insertions every slot is filled exactly when
`k >= 3`. -/
theorem BufInv.full_iff (buf : Fin 3 → Option Pose) (idx : Fin 3) (k : Nat)
    (h : BufInv buf idx k) : (∀ j : Fin 3, (buf j).isSome = true) ↔ 3 ≤ k := by
  constructor
  · intro hall
    by_contra hk
    obtain ⟨hidx, hslots⟩ := h.1 (by omega)
    have h2 := hall 2
    rw [hslots 2] at h2
    simp only [decide_eq_true_eq] at h2
    have : ((2 : Fin 3) : Nat) = 2 := rfl
    omega
  · exact h.2

/-- The buffer state of hand `i` along a run of initialised ticks: after the
run it is the state after `k` plus the number of supplied samples
insertions, the world is still initialised, and after a non-empty run the
smoothed pose is present exactly when that number is at least 3. -/
theorem run_bufInv (L : Lib) (i : Fin 2) (ds : List GameData) :
    ∀ (w : World) (k : Nat), w.initialized = true →
      BufInv (w.handPoseBuf i) (w.handPoseBufIndex i) k →
      BufInv ((run L w ds).handPoseBuf i) ((run L w ds).handPoseBufIndex i) (k + samples i ds) ∧
      (ds ≠ [] → (((run L w ds).handPose i).isSome = true ↔ 3 ≤ k + samples i ds)) := by
  induction ds with
  | nil =>
    intro w k _ h
    exact ⟨h, fun hne => absurd rfl hne⟩
  | cons d ds ih =>
    intro w k hinit h
    have hstep := proc_hand L w d i hinit
    have hinit1 := proc_initialized L w d hinit
    have hb : (proc L w d).handPoseBuf i
        = (smoothCore L (w.handPoseBuf i) (w.handPoseBufIndex i) (d.handPoses i)).1 :=
      congrArg Prod.fst hstep
    have hi : (proc L w d).handPoseBufIndex i
        = (smoothCore L (w.handPoseBuf i) (w.handPoseBufIndex i) (d.handPoses i)).2.1 :=
      congrArg (fun x => x.2.1) hstep
    have hp : (proc L w d).handPose i
        = (smoothCore L (w.handPoseBuf i) (w.handPoseBufIndex i) (d.handPoses i)).2.2 :=
      congrArg (fun x => x.2.2) hstep
    have hinv1 : BufInv ((proc L w d).handPoseBuf i) ((proc L w d).handPoseBufIndex i)
        (k + samples i [d]) := by
      rw [hb, hi]
      cases hr : d.handPoses i with
      | none =>
        rw [(smoothCore_none L _ _).1, (smoothCore_none L _ _).2]
        simpa [samples, hr] using h
      | some p =>
        rw [(smoothCore_some L _ _ p).1, (smoothCore_some L _ _ p).2]
        simpa [samples, hr] using h.insert _ _ _ p
    have hcount : k + samples i (d :: ds) = k + samples i [d] + samples i ds := by
      unfold samples
      by_cases hd : (d.handPoses i).isSome = true
      · simp only [List.filter_cons, hd, if_true, List.length_cons, List.filter_nil,
          List.length_nil]
        omega
      · simp only [List.filter_cons, hd, List.filter_nil, List.length_nil]
        simp
    have hrun : run L w (d :: ds) = run L (proc L w d) ds := rfl
    rw [hrun, hcount]
    obtain ⟨ih1, ih2⟩ := ih (proc L w d) (k + samples i [d]) hinit1 hinv1
    refine ⟨ih1, fun _ => ?_⟩
    by_cases hds : ds = []
    · subst hds
      have hrun0 : run L (proc L w d) [] = proc L w d := rfl
      have hs0 : samples i [] = 0 := rfl
      rw [hrun0, hs0, Nat.add_zero, hp, smoothCore_isSome, ← hb]
      exact hinv1.full_iff
    · exact ih2 hds

/-- C10.  Smoothing availability: for each hand `i`, starting from an
initialised world whose ring buffer for that hand is empty with the cursor at
slot 0, after any non-empty run of ticks the smoothed pose `handPose[i]`
computed by the last tick is present if and only if at least 3 of the inputs
of the run supplied a raw pose sample for that hand. -/
theorem smoothing_available_iff (L : Lib) (w : World) (i : Fin 2) (ds : List GameData)
    (hinit : w.initialized = true) (hempty : ∀ j, w.handPoseBuf i j = none)
    (hidx : w.handPoseBufIndex i = 0) (hne : ds ≠ []) :
    ((run L w ds).handPose i).isSome = true ↔ 3 ≤ samples i ds := by
  have h := (run_bufInv L i ds w 0 hinit (BufInv.empty _ _ hempty hidx)).2 hne
  rw [Nat.zero_add] at h
  exact h

/-- A use of `smoothing_available_iff`: from the initialised start-up world,
three ticks that each supply a sample for hand 0 make its smoothed pose
present. -/
theorem smoothing_available_iff_witness :
    World.ready.initialized = true ∧
    ((run Lib.sample World.ready
      [GameData.sample 1 (fun _ => false) (fun _ => some Pose.sample),
       GameData.sample 1 (fun _ => false) (fun _ => some Pose.sample),
       GameData.sample 1 (fun _ => false) (fun _ => some Pose.sample)]).handPose 0).isSome
      = true :=
  ⟨rfl, (smoothing_available_iff Lib.sample World.ready 0
      [GameData.sample 1 (fun _ => false) (fun _ => some Pose.sample),
       GameData.sample 1 (fun _ => false) (fun _ => some Pose.sample),
       GameData.sample 1 (fun _ => false) (fun _ => some Pose.sample)]
      rfl (fun _ => rfl) rfl (List.cons_ne_nil _ _)).2 (by decide)⟩

/-! ## Scene, timer and buzzer requests through the parts of `proc_main` -/

theorem emit_clock (w : World) (e : Event) (h : e.isBuzzer = false) :
    (w.emit e).clock = w.clock := by
  simp [World.emit, World.clock, List.countP_append, h]

theorem sePlay_clock (w : World) (se : Sound) (p : Vec3) (h : se ≠ Sound.buzzerSe) :
    (w.sePlay se p).clock = w.clock := by
  have : (Event.sePlay se p w.seManager.play.2).isBuzzer = false := by
    cases se <;> first | rfl | exact absurd rfl h
  simp [World.sePlay, World.clock, List.countP_append, this]

@[simp] theorem addBoom_clock (L : Lib) (p : Vec3) (w : World) :
    (addBoom L p w).clock = w.clock := rfl

@[simp] theorem stageStep_clock (w : World) (dat : GameData) :
    (stageStep w dat).clock = w.clock := rfl

@[simp] theorem smoothHand_clock (L : Lib) (dat : GameData) (w : World) (i : Fin 2) :
    (smoothHand L dat w i).clock = w.clock := by
  unfold smoothHand
  cases hr : dat.handPoses i <;> dsimp only <;> split <;> rfl

@[simp] theorem listenerStep_clock (w : World) (dat : GameData) :
    (listenerStep w dat).clock = w.clock := by
  unfold listenerStep; split
  · exact emit_clock _ _ rfl
  · rfl

@[simp] theorem gunFeedback_clock (dat : GameData) (w : World) (i : Fin 2) :
    (gunFeedback dat w i).clock = w.clock := by
  unfold gunFeedback
  dsimp only
  have h1 : (match w.handPose i with
      | some hp => w.emit (Event.gunSetPos i hp.pos)
      | none => w).clock = w.clock := by
    split
    · exact emit_clock _ _ rfl
    · rfl
  split_ifs
  · split
    · rw [emit_clock _ (Event.vibrate _ _ _) rfl, emit_clock _ (Event.gunPlay _ _) rfl, h1]
    · rw [emit_clock _ (Event.gunPlay _ _) rfl, h1]
  · exact h1

@[simp] theorem preScene_clock (L : Lib) (w : World) (dat : GameData) :
    (preScene L w dat).clock = w.clock := by
  unfold preScene
  simp only [gunFeedback_clock, listenerStep_clock, smoothHand_clock, stageStep_clock]

@[simp] theorem addBooms_clock (L : Lib) (p : Vec3) (w : World) :
    (addBooms L p w).clock = w.clock :=
  foldl_preserves (fun v (_ : Nat) => addBoom L p v) World.clock
    (fun a _ => addBoom_clock L p a) _ w

@[simp] theorem applyHit_clock (L : Lib) (w : World) (i : Fin 2) (s : LockState) :
    (applyHit L w i s).clock = w.clock := by
  unfold applyHit
  split
  · split_ifs
    · have h : ∀ (v : World) (se : List scoreEffect) (sc : Int),
          ({ v with scoreEffects := se, score := sc } : World).clock = v.clock :=
        fun _ _ _ => rfl
      dsimp only
      rw [h, addBooms_clock, sePlay_clock _ Sound.tgtSe _ (by decide)]
      rfl
    · rfl
  · rfl

@[simp] theorem mainGameHand_clock (L : Lib) (w : World) (i : Fin 2) :
    (mainGameHand L w i).clock = w.clock := by
  unfold mainGameHand
  split
  · rfl
  · dsimp only; rw [applyHit_clock]; rfl

@[simp] theorem spawnStep_clock (L : Lib) (w : World) : (spawnStep L w).clock = w.clock := by
  unfold spawnStep; dsimp only; split_ifs <;> rfl

@[simp] theorem entityStep_clock (L : Lib) (w : World) : (entityStep L w).clock = w.clock := rfl

@[simp] theorem cueStep_clock (dat : GameData) (w : World) (i : Nat) :
    (cueStep dat w i).clock = w.clock := by
  unfold cueStep; split_ifs
  · exact sePlay_clock _ _ _ (by decide)
  · rfl

/-- A tick of `case Scene::MainGame`: with `T` the timer before, the scene is
`ScoreResult`, the timer 8 and one more buzzer request made if `T - dt <= 0`;
otherwise scene and buzzer requests are unchanged and the timer is `T - dt`. -/
theorem sceneMainGame_clock (L : Lib) (dat : GameData) (w : World) :
    (sceneMainGame L dat w).clock =
      if w.gameTimer - dat.dt ≤ 0 then
        { scene := Scene.ScoreResult, gameTimer := 8, buzzers := w.clock.buzzers + 1 }
      else { scene := w.scene, gameTimer := w.gameTimer - dat.dt, buzzers := w.clock.buzzers } := by
  unfold sceneMainGame
  dsimp only
  rw [foldl_preserves (cueStep dat) World.clock (fun a b => cueStep_clock dat a b)]
  have h4 : (entityStep L (spawnStep L (mainGameHand L
      (mainGameHand L { w with gameTimer := w.gameTimer - dat.dt } 0) 1))).clock
      = { scene := w.scene, gameTimer := w.gameTimer - dat.dt, buzzers := w.clock.buzzers } := by
    simp only [entityStep_clock, spawnStep_clock, mainGameHand_clock]
    rfl
  have hT := congrArg Clock.gameTimer h4
  have hB := congrArg Clock.buzzers h4
  simp only [World.clock] at hT hB
  by_cases hle : w.gameTimer - dat.dt ≤ 0
  · rw [if_pos hle, if_pos (by rw [hT]; exact hle)]
    simp only [World.sePlay, World.clock, List.countP_append, hB]
    simp [Event.isBuzzer]
  · rw [if_neg hle, if_neg (by rw [hT]; exact hle)]
    exact h4

/-- A tick of `case Scene::ScoreResult`: with `T` the timer before, the timer
is `T - dt`, and the scene is `Title` if `T - dt <= 0` and unchanged otherwise. -/
theorem sceneScoreResult_clock (L : Lib) (dat : GameData) (w : World) :
    (sceneScoreResult L dat w).scene = (if w.gameTimer - dat.dt ≤ 0 then Scene.Title else w.scene) ∧
    (sceneScoreResult L dat w).gameTimer = w.gameTimer - dat.dt := by
  unfold sceneScoreResult
  dsimp only
  have key : ∀ v : World, v.gameTimer = w.gameTimer - dat.dt → v.scene = w.scene →
      (if v.gameTimer ≤ 0 then ({ v with scene := Scene.Title } : World) else v).scene
        = (if w.gameTimer - dat.dt ≤ 0 then Scene.Title else w.scene) ∧
      (if v.gameTimer ≤ 0 then ({ v with scene := Scene.Title } : World) else v).gameTimer
        = w.gameTimer - dat.dt := by
    intro v hT hS
    by_cases h : v.gameTimer ≤ 0
    · rw [if_pos h, if_pos (hT ▸ h)]
      exact ⟨rfl, hT⟩
    · rw [if_neg h, if_neg (hT ▸ h)]
      exact ⟨hS, hT⟩
  apply key
  · split_ifs <;> rfl
  · split_ifs <;> rfl

/-- An initialised tick in the `MainGame` scene, with `T` the timer before:
if `T - dt <= 0` the scene becomes `ScoreResult`, the timer 8 and the tick makes
one buzzer request; otherwise the scene stays `MainGame`, the timer is `T - dt`
and the tick makes no buzzer request. -/
theorem proc_mainGame (L : Lib) (w : World) (dat : GameData)
    (hinit : w.initialized = true) (hscene : w.scene = Scene.MainGame) :
    (proc L w dat).clock =
      if w.gameTimer - dat.dt ≤ 0 then
        { scene := Scene.ScoreResult, gameTimer := 8, buzzers := 1 }
      else { scene := Scene.MainGame, gameTimer := w.gameTimer - dat.dt, buzzers := 0 } := by
  have hpre := preScene_clock L
    (w.begin dat) dat
  have hs : (preScene L
      (w.begin dat) dat).scene
      = Scene.MainGame := (congrArg Clock.scene hpre).trans hscene
  have hT : (preScene L
      (w.begin dat) dat).gameTimer
      = w.gameTimer := congrArg Clock.gameTimer hpre
  have hB : (preScene L
      (w.begin dat) dat).clock.buzzers
      = 0 := congrArg Clock.buzzers hpre
  have hm : (proc L w dat).clock = (sceneMainGame L dat (preScene L
      (w.begin dat) dat)).clock := by
    rw [proc_of_initialized L w dat hinit]
    unfold proc_main
    dsimp only
    rw [hs]
    rfl
  rw [hm, sceneMainGame_clock, hT, hB, hs]

/-- An initialised tick in the `ScoreResult` scene, with `T` the timer before:
the timer becomes `T - dt`, and the scene becomes `Title` if `T - dt <= 0` and
stays `ScoreResult` otherwise. -/
theorem proc_scoreResult (L : Lib) (w : World) (dat : GameData)
    (hinit : w.initialized = true) (hscene : w.scene = Scene.ScoreResult) :
    (proc L w dat).scene = (if w.gameTimer - dat.dt ≤ 0 then Scene.Title else Scene.ScoreResult) ∧
    (proc L w dat).gameTimer = w.gameTimer - dat.dt := by
  have hpre := preScene_clock L
    (w.begin dat) dat
  have hs : (preScene L
      (w.begin dat) dat).scene
      = Scene.ScoreResult := (congrArg Clock.scene hpre).trans hscene
  have hT : (preScene L
      (w.begin dat) dat).gameTimer
      = w.gameTimer := congrArg Clock.gameTimer hpre
  have hm : (proc L w dat).clock = (sceneScoreResult L dat (preScene L
      (w.begin dat) dat)).clock := by
    rw [proc_of_initialized L w dat hinit]
    unfold proc_main
    dsimp only
    rw [hs]
    rfl
  have h := sceneScoreResult_clock L dat (preScene L
      (w.begin dat) dat)
  rw [hT, hs] at h
  exact ⟨(congrArg Clock.scene hm).trans h.1, (congrArg Clock.gameTimer hm).trans h.2⟩

/-- C3.  MainGame -> ScoreResult: for every initialised tick processed in the
`MainGame` scene with old timer `T = gameTimer` and step `dt`, the scene after
the tick is `ScoreResult` if and only if `T - dt <= 0`; in that case the timer
is 8 after the tick and the tick makes exactly one buzzer request to the
one-shot audio manager; otherwise the scene stays `MainGame`, the timer is
`T - dt` and the tick makes no buzzer request. -/
theorem mainGame_to_scoreResult (L : Lib) (w : World) (dat : GameData)
    (hinit : w.initialized = true) (hscene : w.scene = Scene.MainGame) :
    ((proc L w dat).scene = Scene.ScoreResult ↔ w.gameTimer - dat.dt ≤ 0) ∧
    (w.gameTimer - dat.dt ≤ 0 →
      (proc L w dat).gameTimer = 8 ∧ (proc L w dat).calls.countP Event.isBuzzer = 1) ∧
    (¬ w.gameTimer - dat.dt ≤ 0 →
      (proc L w dat).scene = Scene.MainGame ∧
      (proc L w dat).gameTimer = w.gameTimer - dat.dt ∧
      (proc L w dat).calls.countP Event.isBuzzer = 0) := by
  have h := proc_mainGame L w dat hinit hscene
  by_cases hle : w.gameTimer - dat.dt ≤ 0
  · rw [if_pos hle] at h
    have h1 : (proc L w dat).scene = Scene.ScoreResult := congrArg Clock.scene h
    have h2 : (proc L w dat).gameTimer = 8 := congrArg Clock.gameTimer h
    have h3 : (proc L w dat).calls.countP Event.isBuzzer = 1 := congrArg Clock.buzzers h
    exact ⟨⟨fun _ => hle, fun _ => h1⟩, fun _ => ⟨h2, h3⟩, fun hn => absurd hle hn⟩
  · rw [if_neg hle] at h
    have h1 : (proc L w dat).scene = Scene.MainGame := congrArg Clock.scene h
    have h2 : (proc L w dat).gameTimer = w.gameTimer - dat.dt := congrArg Clock.gameTimer h
    have h3 : (proc L w dat).calls.countP Event.isBuzzer = 0 := congrArg Clock.buzzers h
    refine ⟨⟨fun hs => ?_, fun hl => absurd hl hle⟩, fun hl => absurd hl hle, fun _ => ⟨h1, h2, h3⟩⟩
    rw [h1] at hs
    cases hs

/-! ## The part of `proc_main` before the scene switch -/

@[simp] theorem smoothHand_rest (L : Lib) (dat : GameData) (w : World) (i : Fin 2) :
    (smoothHand L dat w i).rest = w.rest := by
  unfold smoothHand
  cases hr : dat.handPoses i <;> dsimp only <;> split <;> rfl

@[simp] theorem listenerStep_rest (w : World) (dat : GameData) :
    (listenerStep w dat).rest = w.rest := by
  unfold listenerStep; split <;> rfl

@[simp] theorem gunFeedback_rest (dat : GameData) (w : World) (i : Fin 2) :
    (gunFeedback dat w i).rest = w.rest := by
  unfold gunFeedback
  dsimp only
  have h1 : (match w.handPose i with
      | some hp => w.emit (Event.gunSetPos i hp.pos)
      | none => w).rest = w.rest := by split <;> rfl
  split_ifs
  · split
    · exact h1
    · exact h1
  · exact h1

/-- The part of `proc_main` before the scene switch leaves the `Rest` globals
unchanged. -/
theorem preScene_rest (L : Lib) (w : World) (dat : GameData) :
    (preScene L w dat).rest = w.rest := by
  unfold preScene
  simp only [gunFeedback_rest, listenerStep_rest, smoothHand_rest]
  rfl

/-! ## The Title scene -/

/-- The test `startsGame` reads only globals that the scene code does not
write. -/
theorem startsGame_congr (a b : World) (i : Fin 2) (h : a.fixed = b.fixed) :
    startsGame a i = startsGame b i := by
  have h1 : a.handPose = b.handPose := congrArg Fixed.handPose h
  have h2 : a.gameStartStrPose = b.gameStartStrPose := congrArg Fixed.gameStartStrPose h
  have h3 : a.gameDat = b.gameDat := congrArg Fixed.gameDat h
  unfold startsGame startRect
  rw [h1, h2, h3]

/-- The hand loop body of the Title scene sets `gameStart` exactly when the
test `startsGame` holds for its hand, and otherwise leaves it. -/
theorem titleHand_gameStart (dat : GameData) (st : World × Bool) (i : Fin 2) :
    (titleHand dat st i).2 = (st.2 || startsGame st.1 i) := by
  unfold titleHand startsGame
  dsimp only
  cases hp : st.1.handPose i with
  | none => simp
  | some p =>
    dsimp only
    have hr : startRect { st.1 with
        gsSelectedHands := Function.update st.1.gsSelectedHands i false } = startRect st.1 := rfl
    rw [hr]
    cases hc : (startRect st.1).RayCast p.pos p.ray with
    | none => simp
    | some col =>
      dsimp only
      cases ht : st.1.gameDat.trigger i <;> simp

/-- The scene, score and timer after the Title scene code: the game starts
(`MainGame`, score 0, timer 30) exactly when `startsGame` holds for a hand. -/
theorem sceneTitle_result (dat : GameData) (w : World) :
    (sceneTitle dat w).scene
      = (if (startsGame w 0 || startsGame w 1) = true then Scene.MainGame else w.scene) ∧
    (sceneTitle dat w).score = (if (startsGame w 0 || startsGame w 1) = true then 0 else w.score) ∧
    (sceneTitle dat w).gameTimer
      = (if (startsGame w 0 || startsGame w 1) = true then 30 else w.gameTimer) := by
  have hfix0 : (titleHand dat ({ w with gsSelected := false }, false) 0).1.fixed = w.fixed := by
    rw [titleHand_fixed]; rfl
  have hgs : (titleHand dat (titleHand dat ({ w with gsSelected := false }, false) 0) 1).2
      = (startsGame w 0 || startsGame w 1) := by
    rw [titleHand_gameStart, titleHand_gameStart, startsGame_congr _ w 1 hfix0]
    have : startsGame { w with gsSelected := false } 0 = startsGame w 0 :=
      startsGame_congr _ w 0 rfl
    rw [this]
    simp
  have hframe : ∀ (st : World × Bool) (i : Fin 2),
      (titleHand dat st i).1.scene = st.1.scene ∧ (titleHand dat st i).1.score = st.1.score ∧
      (titleHand dat st i).1.gameTimer = st.1.gameTimer := by
    intro st i
    unfold titleHand
    dsimp only
    split_ifs <;> (repeat' split) <;> exact ⟨rfl, rfl, rfl⟩
  have h1 := hframe (titleHand dat ({ w with gsSelected := false }, false) 0) 1
  have h0 := hframe ({ w with gsSelected := false }, false) 0
  unfold sceneTitle
  dsimp only
  rw [hgs]
  by_cases hg : (startsGame w 0 || startsGame w 1) = true
  · rw [if_pos hg, if_pos hg, if_pos hg, if_pos hg]
    exact ⟨rfl, rfl, rfl⟩
  · rw [if_neg hg, if_neg hg, if_neg hg, if_neg hg]
    exact ⟨h1.1.trans h0.1, h1.2.1.trans h0.2.1, h1.2.2.trans h0.2.2⟩

/-- An initialised tick in the `Title` scene: the scene becomes `MainGame`, with
score 0 and timer 30, exactly when after the tick `startsGame` holds for a
hand (smoothed pose of this tick, trigger of this tick's input); otherwise
scene, score and timer are unchanged. -/
theorem proc_title (L : Lib) (w : World) (dat : GameData)
    (hinit : w.initialized = true) (hscene : w.scene = Scene.Title) :
    (proc L w dat).scene
      = (if (startsGame (proc L w dat) 0 || startsGame (proc L w dat) 1) = true
          then Scene.MainGame else Scene.Title) ∧
    (proc L w dat).score
      = (if (startsGame (proc L w dat) 0 || startsGame (proc L w dat) 1) = true
          then 0 else w.score) ∧
    (proc L w dat).gameTimer
      = (if (startsGame (proc L w dat) 0 || startsGame (proc L w dat) 1) = true
          then 30 else w.gameTimer) := by
  have hpre := preScene_clock L (w.begin dat) dat
  have hs : (preScene L (w.begin dat) dat).scene = Scene.Title :=
    (congrArg Clock.scene hpre).trans hscene
  have hT : (preScene L (w.begin dat) dat).gameTimer = w.gameTimer :=
    congrArg Clock.gameTimer hpre
  have hsc : (preScene L (w.begin dat) dat).score = w.score :=
    congrArg Rest.score (preScene_rest L (w.begin dat) dat)
  have hm : proc_main L (w.begin dat) dat = sceneTitle dat (preScene L (w.begin dat) dat) := by
    unfold proc_main
    dsimp only
    rw [hs]
  have hfix : (proc L w dat).fixed = (preScene L (w.begin dat) dat).fixed := by
    rw [proc_of_initialized L w dat hinit, hm]
    exact sceneTitle_fixed dat _
  rw [startsGame_congr _ _ 0 hfix, startsGame_congr _ _ 1 hfix]
  have h := sceneTitle_result dat (preScene L (w.begin dat) dat)
  rw [hs, hT, hsc] at h
  rw [proc_of_initialized L w dat hinit, hm]
  exact h

/-- What an initialised tick stores: the input, the previous triggers; the
start rectangle pose is not touched. -/
theorem proc_stored (L : Lib) (w : World) (dat : GameData) (hinit : w.initialized = true) :
    (proc L w dat).gameDat = dat ∧ (proc L w dat).trigger_old = w.gameDat.trigger ∧
    (proc L w dat).gameStartStrPose = w.gameStartStrPose := by
  have hfix : (proc L w dat).fixed
      = (smoothHand L dat (smoothHand L dat (stageStep (w.begin dat) dat) 0) 1).fixed := by
    rw [proc_of_initialized L w dat hinit]
    exact proc_main_fixed L _ dat
  have hrest : (smoothHand L dat (smoothHand L dat (stageStep (w.begin dat) dat) 0) 1).rest
      = (w.begin dat).rest := by
    simp only [smoothHand_rest]; rfl
  exact ⟨(congrArg Fixed.gameDat hfix).trans (congrArg Rest.gameDat hrest),
    (congrArg Fixed.trigger_old hfix).trans (congrArg Rest.trigger_old hrest),
    (congrArg Fixed.gameStartStrPose hfix).trans (congrArg Rest.gameStartStrPose hrest)⟩

/-- The Title test after an initialised tick, spelled out: hand `i` has a
smoothed pose `hp` computed by this tick, the forward ray of `hp` hits the
start rectangle, and `trigger[i]` is set in this tick's input. -/
theorem startsGame_proc (L : Lib) (w : World) (dat : GameData) (i : Fin 2)
    (hinit : w.initialized = true) :
    startsGame (proc L w dat) i = true ↔
      ∃ hp : Pose, (proc L w dat).handPose i = some hp ∧
        ((startRect w).RayCast hp.pos hp.ray).isSome = true ∧ dat.trigger i = true := by
  obtain ⟨hg, _, hr⟩ := proc_stored L w dat hinit
  have hrect : startRect (proc L w dat) = startRect w := by
    unfold startRect; rw [hr]
  unfold startsGame
  rw [hrect, hg]
  cases hp : (proc L w dat).handPose i with
  | none => simp
  | some p => simp

/-- C2, as the code has it.  Title -> MainGame is level-triggered: an
initialised tick processed in the `Title` scene changes the scene to `MainGame`
if and only if, for some hand `i`, the smoothed hand pose of this tick is
present, its forward ray (origin `pos`, direction `ori * (0,0,-1)`) hits the
start rectangle, and `trigger[i]` is pressed in this tick's input - whether or
not it was pressed in the previous tick's input. -/
theorem title_to_mainGame_iff (L : Lib) (w : World) (dat : GameData)
    (hinit : w.initialized = true) (hscene : w.scene = Scene.Title) :
    (proc L w dat).scene = Scene.MainGame ↔
      ∃ i : Fin 2, ∃ hp : Pose, (proc L w dat).handPose i = some hp ∧
        ((startRect w).RayCast hp.pos hp.ray).isSome = true ∧ dat.trigger i = true := by
  have h := (proc_title L w dat hinit hscene).1
  constructor
  · intro hs
    by_cases hg : (startsGame (proc L w dat) 0 || startsGame (proc L w dat) 1) = true
    · rcases Bool.or_eq_true_iff.1 hg with h0 | h1
      · exact ⟨0, (startsGame_proc L w dat 0 hinit).1 h0⟩
      · exact ⟨1, (startsGame_proc L w dat 1 hinit).1 h1⟩
    · rw [if_neg hg] at h
      rw [h] at hs
      cases hs
  · rintro ⟨i, hi⟩
    have hsi := (startsGame_proc L w dat i hinit).2 hi
    have hg : (startsGame (proc L w dat) 0 || startsGame (proc L w dat) 1) = true := by
      fin_cases i
      · exact Bool.or_eq_true_iff.2 (Or.inl hsi)
      · exact Bool.or_eq_true_iff.2 (Or.inr hsi)
    rw [if_pos hg] at h
    exact h

/-! ## Runs from start-up with both hands aimed at the start rectangle -/

theorem Quat.mul_def (p q : Quat) :
    p * q = ⟨p.w * q.w - p.x * q.x - p.y * q.y - p.z * q.z,
      p.w * q.x + p.x * q.w + p.y * q.z - p.z * q.y,
      p.w * q.y + p.y * q.w + p.z * q.x - p.x * q.z,
      p.w * q.z + p.z * q.w + p.x * q.y - p.y * q.x⟩ := rfl

/-- The start rectangle of `World.ready` is centred at `(0, 1.2, -3)` and turned
by half a turn about the vertical axis. -/
theorem ready_rect : World.ready.gameStartStrPose = ⟨⟨0, 1.2, -3⟩, ⟨0, 0, 1, 0⟩⟩ := by
  simp only [World.ready, proc, World.begin, World.start, proc_init, GameData.sample, Lib.sample]
  norm_num [Quat.rotate, Quat.identity, cross, Vec3.smul, Vec3.add_def, Vec3.zero, pi,
    Quat.mul_def]

/-- The forward ray of `Pose.sample` hits the start rectangle of `World.ready`. -/
theorem sample_hits_ready :
    ((startRect World.ready).RayCast Pose.sample.pos Pose.sample.ray).isSome = true := by
  unfold startRect
  rw [ready_rect]
  norm_num [Rect.RayCast, intersectRayPlane, dot, Quat.rotate, Quat.identity, cross,
    Vec3.smul, Vec3.add_def, Vec3.sub_def, Pose.sample, Pose.ray]

/-- With every filled slot holding `Pose.sample` and `Pose.sample` as the raw
sample, the smoothing returns such a buffer again, and a smoothed pose, if
any, equal to `Pose.sample`. -/
theorem smoothCore_sample (buf : Fin 3 → Option Pose) (idx : Fin 3)
    (h : ∀ j, buf j = none ∨ buf j = some Pose.sample) :
    (∀ j, (smoothCore Lib.sample buf idx (some Pose.sample)).1 j = none ∨
      (smoothCore Lib.sample buf idx (some Pose.sample)).1 j = some Pose.sample) ∧
    ((smoothCore Lib.sample buf idx (some Pose.sample)).2.2 = none ∨
      (smoothCore Lib.sample buf idx (some Pose.sample)).2.2 = some Pose.sample) := by
  have h1 : ∀ j, Function.update buf idx (some Pose.sample) j = none ∨
      Function.update buf idx (some Pose.sample) j = some Pose.sample := by
    intro j
    by_cases hj : j = idx
    · subst hj; right; simp
    · rw [Function.update_noteq hj]; exact h j
  constructor
  · rw [(smoothCore_some Lib.sample buf idx Pose.sample).1]
    exact h1
  · unfold smoothCore
    dsimp only
    split
    · rename_i b0 b1 b2 e0 e1 e2
      right
      have f0 : b0 = Pose.sample := by
        rcases h1 0 with h | h <;> rw [h] at e0 <;> cases e0; rfl
      have f1 : b1 = Pose.sample := by
        rcases h1 1 with h | h <;> rw [h] at e1 <;> cases e1; rfl
      have f2 : b2 = Pose.sample := by
        rcases h1 2 with h | h <;> rw [h] at e2 <;> cases e2; rfl
      subst f0 f1 f2
      simp only [ite_self]
      norm_num [Pose.sample, Lib.sample, Quat.identity, Vec3.sdiv, Vec3.add_def, Vec3.zero]
    · left; rfl

/-- One tick with `Pose.sample` as the raw sample of hand `i` keeps every filled
slot of that hand equal to `Pose.sample`, and its smoothed pose, if any, is
`Pose.sample`. -/
theorem aim_step (w : World) (d : GameData) (i : Fin 2) (hinit : w.initialized = true)
    (hd : d.handPoses i = some Pose.sample)
    (h : ∀ j, w.handPoseBuf i j = none ∨ w.handPoseBuf i j = some Pose.sample) :
    (∀ j, (proc Lib.sample w d).handPoseBuf i j = none ∨
      (proc Lib.sample w d).handPoseBuf i j = some Pose.sample) ∧
    ((proc Lib.sample w d).handPose i = none ∨
      (proc Lib.sample w d).handPose i = some Pose.sample) := by
  have hstep := proc_hand Lib.sample w d i hinit
  have hb := congrArg Prod.fst hstep
  have hp := congrArg (fun x => x.2.2) hstep
  dsimp only at hb hp
  rw [hb, hp, hd]
  exact smoothCore_sample _ _ h

/-- If no hand has a smoothed pose after an initialised Title tick, the scene
is still `Title`. -/
theorem proc_title_stay (L : Lib) (w : World) (dat : GameData)
    (hinit : w.initialized = true) (hscene : w.scene = Scene.Title)
    (hno : ∀ i, (proc L w dat).handPose i = none) : (proc L w dat).scene = Scene.Title := by
  have h := (proc_title L w dat hinit hscene).1
  have h0 : startsGame (proc L w dat) 0 = false := by
    unfold startsGame; rw [hno 0]
  have h1 : startsGame (proc L w dat) 1 = false := by
    unfold startsGame; rw [hno 1]
  rw [h0, h1] at h
  exact h

/-- A run of three ticks from `World.ready` whose inputs all supply
`Pose.sample` for both hands: after two ticks the scene is still `Title`, no
hand has a smoothed pose yet, the stored input is the second one; the third
tick gives hand 0 the smoothed pose `Pose.sample`. -/
theorem aim_run (d1 d2 d3 : GameData)
    (h1 : ∀ i, d1.handPoses i = some Pose.sample) (h2 : ∀ i, d2.handPoses i = some Pose.sample)
    (h3 : ∀ i, d3.handPoses i = some Pose.sample) :
    (run Lib.sample World.ready [d1, d2]).initialized = true ∧
    (run Lib.sample World.ready [d1, d2]).scene = Scene.Title ∧
    (run Lib.sample World.ready [d1, d2]).gameDat = d2 ∧
    (run Lib.sample World.ready [d1, d2]).gameStartStrPose = World.ready.gameStartStrPose ∧
    (run Lib.sample World.ready [d1, d2, d3]).handPose 0 = some Pose.sample := by
  have hs1 : ∀ i, samples i [d1] = 1 := by
    intro i; simp [samples, h1 i]
  have hs2 : ∀ i, samples i [d1, d2] = 2 := by
    intro i; simp [samples, h1 i, h2 i]
  have hs3 : ∀ i, samples i [d1, d2, d3] = 3 := by
    intro i; simp [samples, h1 i, h2 i, h3 i]
  have hinv : ∀ i, BufInv (World.ready.handPoseBuf i) (World.ready.handPoseBufIndex i) 0 :=
    fun i => BufInv.empty _ _ (fun _ => rfl) rfl
  have hi0 : World.ready.initialized = true := rfl
  have hi1 := proc_initialized Lib.sample World.ready d1 hi0
  have hi2 := proc_initialized Lib.sample _ d2 hi1
  have hno1 : ∀ i, (proc Lib.sample World.ready d1).handPose i = none := by
    intro i
    have h := (run_bufInv Lib.sample i [d1] World.ready 0 hi0 (hinv i)).2
      (List.cons_ne_nil _ _)
    rw [hs1 i] at h
    cases hp : (proc Lib.sample World.ready d1).handPose i with
    | none => rfl
    | some p =>
      have : ((run Lib.sample World.ready [d1]).handPose i).isSome = true := by
        show ((proc Lib.sample World.ready d1).handPose i).isSome = true
        rw [hp]; rfl
      have := h.1 this
      omega
  have hno2 : ∀ i, (proc Lib.sample (proc Lib.sample World.ready d1) d2).handPose i = none := by
    intro i
    have h := (run_bufInv Lib.sample i [d1, d2] World.ready 0 hi0 (hinv i)).2
      (List.cons_ne_nil _ _)
    rw [hs2 i] at h
    cases hp : (proc Lib.sample (proc Lib.sample World.ready d1) d2).handPose i with
    | none => rfl
    | some p =>
      have : ((run Lib.sample World.ready [d1, d2]).handPose i).isSome = true := by
        show ((proc Lib.sample (proc Lib.sample World.ready d1) d2).handPose i).isSome = true
        rw [hp]; rfl
      have := h.1 this
      omega
  have hsc1 := proc_title_stay Lib.sample World.ready d1 hi0 rfl hno1
  have hsc2 := proc_title_stay Lib.sample _ d2 hi1 hsc1 hno2
  have hst1 := proc_stored Lib.sample World.ready d1 hi0
  have hst2 := proc_stored Lib.sample _ d2 hi1
  have hb0 : ∀ j, World.ready.handPoseBuf 0 j = none ∨
      World.ready.handPoseBuf 0 j = some Pose.sample := fun _ => Or.inl rfl
  have hb1 := (aim_step World.ready d1 0 hi0 (h1 0) hb0).1
  have hb2 := (aim_step _ d2 0 hi1 (h2 0) hb1).1
  have hp3 := (aim_step _ d3 0 hi2 (h3 0) hb2).2
  have hsome3 := ((run_bufInv Lib.sample 0 [d1, d2, d3]
    World.ready 0 hi0 (hinv 0)).2 (List.cons_ne_nil _ _)).2 (by rw [hs3 0])
  refine ⟨hi2, hsc2, hst2.1, hst2.2.2.trans hst1.2.2, ?_⟩
  rcases hp3 with h | h
  · have h' : (run Lib.sample World.ready [d1, d2, d3]).handPose 0 = none := h
    rw [h'] at hsome3
    cases hsome3
  · exact h

/-- The run `aim_run` with the trigger of hand 0 held down in every input. -/
theorem held_run :
    (run Lib.sample World.ready [GameData.held, GameData.held]).initialized = true ∧
    (run Lib.sample World.ready [GameData.held, GameData.held]).scene = Scene.Title ∧
    (run Lib.sample World.ready [GameData.held, GameData.held]).gameDat = GameData.held ∧
    (run Lib.sample World.ready [GameData.held, GameData.held]).gameStartStrPose
      = World.ready.gameStartStrPose ∧
    (run Lib.sample World.ready [GameData.held, GameData.held, GameData.held]).handPose 0
      = some Pose.sample :=
  aim_run GameData.held GameData.held GameData.held (fun _ => rfl) (fun _ => rfl) (fun _ => rfl)

/-- The third tick of the held-trigger run starts the game: the world is in
`MainGame` with score 0 and timer 30. -/
theorem held_run_starts :
    (run Lib.sample World.ready [GameData.held, GameData.held, GameData.held]).initialized
      = true ∧
    (run Lib.sample World.ready [GameData.held, GameData.held, GameData.held]).scene
      = Scene.MainGame ∧
    (run Lib.sample World.ready [GameData.held, GameData.held, GameData.held]).score = 0 ∧
    (run Lib.sample World.ready [GameData.held, GameData.held, GameData.held]).gameTimer
      = 30 := by
  obtain ⟨hi2, hsc2, hg2, hr2, hp3⟩ := held_run
  have h := proc_title Lib.sample _ GameData.held hi2 hsc2
  have hst : startsGame (proc Lib.sample
      (run Lib.sample World.ready [GameData.held, GameData.held]) GameData.held) 0 = true := by
    refine (startsGame_proc Lib.sample _ GameData.held 0 hi2).2 ⟨Pose.sample, hp3, ?_, rfl⟩
    have : startRect (run Lib.sample World.ready [GameData.held, GameData.held])
        = startRect World.ready := by
      unfold startRect; rw [hr2]
    rw [this]
    exact sample_hits_ready
  rw [hst, Bool.true_or, if_pos rfl, if_pos rfl, if_pos rfl] at h
  exact ⟨proc_initialized Lib.sample _ GameData.held hi2, h.1, h.2.1, h.2.2⟩

/-- C2, the claim as written fails.  From start-up, three ticks with the
input `GameData.held` (both hands tracked in front of the start rectangle,
trigger of hand 0 pressed, trigger of hand 1 released): the third tick is
processed in the `Title` scene and changes it to `MainGame`, although the
trigger of hand 0 was already pressed in the previous tick's input and the
trigger of hand 1 is not pressed, so no hand has a fresh press. -/
theorem title_held_trigger_starts :
    (run Lib.sample World.ready [GameData.held, GameData.held]).scene = Scene.Title ∧
    (run Lib.sample World.ready [GameData.held, GameData.held]).gameDat.trigger 0 = true ∧
    GameData.held.trigger 1 = false ∧
    (run Lib.sample World.ready [GameData.held, GameData.held, GameData.held]).scene
      = Scene.MainGame :=
  ⟨held_run.2.1, by rw [held_run.2.2.1]; rfl, rfl, held_run_starts.2.1⟩

/-- A use of `title_to_mainGame_iff`: in the held-trigger run the third tick,
processed in the `Title` scene, starts the game. -/
theorem title_to_mainGame_iff_witness :
    (run Lib.sample World.ready [GameData.held, GameData.held]).scene = Scene.Title ∧
    (proc Lib.sample (run Lib.sample World.ready [GameData.held, GameData.held])
      GameData.held).scene = Scene.MainGame :=
  ⟨held_run.2.1,
   (title_to_mainGame_iff Lib.sample _ GameData.held held_run.1 held_run.2.1).2
     ⟨0, Pose.sample, held_run.2.2.2.2,
      (by
        have : startRect (run Lib.sample World.ready [GameData.held, GameData.held])
            = startRect World.ready := by
          unfold startRect; rw [held_run.2.2.2.1]
        rw [this]
        exact sample_hits_ready), rfl⟩⟩

/-- A use of `mainGame_to_scoreResult`: the held-trigger run is in `MainGame` with
timer 30 after its third tick; a further tick with `dt = 30` ends the game. -/
theorem mainGame_to_scoreResult_witness :
    (run Lib.sample World.ready [GameData.held, GameData.held, GameData.held]).scene
      = Scene.MainGame ∧
    (proc Lib.sample (run Lib.sample World.ready [GameData.held, GameData.held, GameData.held])
      (GameData.sample 30 (fun _ => false) (fun _ => none))).scene = Scene.ScoreResult :=
  ⟨held_run_starts.2.1,
   (mainGame_to_scoreResult Lib.sample _ (GameData.sample 30 (fun _ => false) (fun _ => none))
      held_run_starts.1 held_run_starts.2.1).1.2
      (by rw [held_run_starts.2.2.2]; norm_num [GameData.sample])⟩

/-! ## Runs of ticks through `MainGame` and `ScoreResult` -/

theorem dtSum_cons (d : GameData) (ds : List GameData) : dtSum (d :: ds) = d.dt + dtSum ds := by
  simp [dtSum]

theorem dtSum_nonneg (ds : List GameData) (hpos : ∀ d ∈ ds, 0 < d.dt) : 0 ≤ dtSum ds := by
  induction ds with
  | nil => simp [dtSum]
  | cons d ds ih =>
    rw [dtSum_cons]
    have h1 := hpos d (List.mem_cons_self _ _)
    have h2 := ih (fun e he => hpos e (List.mem_cons_of_mem _ he))
    linarith

theorem dtSum_take_le (ds : List GameData) (hpos : ∀ d ∈ ds, 0 < d.dt) (k : Nat) :
    dtSum (ds.take k) ≤ dtSum ds := by
  induction ds generalizing k with
  | nil => simp
  | cons d ds ih =>
    cases k with
    | zero =>
      simp only [List.take_zero]
      exact dtSum_nonneg _ hpos
    | succ k =>
      rw [List.take_succ_cons, dtSum_cons, dtSum_cons]
      have := ih (fun e he => hpos e (List.mem_cons_of_mem _ he)) k
      linarith

theorem run_append (L : Lib) (w : World) (as bs : List GameData) :
    run L w (as ++ bs) = run L (run L w as) bs := by
  simp [run, List.foldl_append]

/-- A run of positive steps that starts in `MainGame` with more time on the
timer than the run covers stays in `MainGame`, and the timer has gone down by
the time covered. -/
theorem run_mainGame (L : Lib) (ds : List GameData) :
    ∀ w : World, w.initialized = true → w.scene = Scene.MainGame →
      (∀ d ∈ ds, 0 < d.dt) → dtSum ds < w.gameTimer →
      (run L w ds).initialized = true ∧ (run L w ds).scene = Scene.MainGame ∧
      (run L w ds).gameTimer = w.gameTimer - dtSum ds := by
  induction ds with
  | nil =>
    intro w hi hs _ _
    exact ⟨hi, hs, by simp [run, dtSum]⟩
  | cons d ds ih =>
    intro w hi hs hpos hlt
    rw [dtSum_cons] at hlt
    have hrest := dtSum_nonneg ds (fun e he => hpos e (List.mem_cons_of_mem _ he))
    have hstep := proc_mainGame L w d hi hs
    rw [if_neg (by linarith)] at hstep
    have h1 : (proc L w d).scene = Scene.MainGame := congrArg Clock.scene hstep
    have h2 : (proc L w d).gameTimer = w.gameTimer - d.dt := congrArg Clock.gameTimer hstep
    have h := ih (proc L w d) (proc_initialized L w d hi) h1
      (fun e he => hpos e (List.mem_cons_of_mem _ he)) (by rw [h2]; linarith)
    have hrun : run L w (d :: ds) = run L (proc L w d) ds := rfl
    rw [hrun, dtSum_cons]
    refine ⟨h.1, h.2.1, ?_⟩
    rw [h.2.2, h2]
    ring

/-- A run of positive steps that starts in `ScoreResult` with more time on the
timer than the run covers stays in `ScoreResult`, and the timer has gone down
by the time covered. -/
theorem run_scoreResult (L : Lib) (ds : List GameData) :
    ∀ w : World, w.initialized = true → w.scene = Scene.ScoreResult →
      (∀ d ∈ ds, 0 < d.dt) → dtSum ds < w.gameTimer →
      (run L w ds).initialized = true ∧ (run L w ds).scene = Scene.ScoreResult ∧
      (run L w ds).gameTimer = w.gameTimer - dtSum ds := by
  induction ds with
  | nil =>
    intro w hi hs _ _
    exact ⟨hi, hs, by simp [run, dtSum]⟩
  | cons d ds ih =>
    intro w hi hs hpos hlt
    rw [dtSum_cons] at hlt
    have hrest := dtSum_nonneg ds (fun e he => hpos e (List.mem_cons_of_mem _ he))
    have hstep := proc_scoreResult L w d hi hs
    rw [if_neg (by linarith)] at hstep
    have h := ih (proc L w d) (proc_initialized L w d hi) hstep.1
      (fun e he => hpos e (List.mem_cons_of_mem _ he)) (by rw [hstep.2]; linarith)
    have hrun : run L w (d :: ds) = run L (proc L w d) ds := rfl
    rw [hrun, dtSum_cons]
    refine ⟨h.1, h.2.1, ?_⟩
    rw [h.2.2, hstep.2]
    ring

/-- The whole course of a game from the world `w1` in which it has just
started (`MainGame`, timer 30): through the ticks `as` covering less than 30
seconds the scene is `MainGame`; the tick `a` that brings the time covered to
30 or more gives `ScoreResult` with timer 8; through the further ticks `bs`
covering less than 8 seconds the scene is `ScoreResult`; the tick `b` that
brings their time to 8 or more gives `Title`. -/
theorem run_game (L : Lib) (w1 : World) (as bs : List GameData) (a b : GameData)
    (hi : w1.initialized = true) (hs : w1.scene = Scene.MainGame) (hT : w1.gameTimer = 30)
    (hpa : ∀ d ∈ as, 0 < d.dt) (hpb : ∀ d ∈ bs, 0 < d.dt)
    (hn1 : dtSum as < 30) (hn2 : 30 ≤ dtSum as + a.dt)
    (hm1 : dtSum bs < 8) (hm2 : 8 ≤ dtSum bs + b.dt) :
    (∀ k, (run L w1 (as.take k)).scene = Scene.MainGame) ∧
    ((run L w1 (as ++ [a])).scene = Scene.ScoreResult ∧
      (run L w1 (as ++ [a])).gameTimer = 8) ∧
    (∀ k, (run L w1 (as ++ a :: bs.take k)).scene = Scene.ScoreResult) ∧
    (run L w1 (as ++ a :: (bs ++ [b]))).scene = Scene.Title := by
  have hmain : ∀ k, (run L w1 (as.take k)).scene = Scene.MainGame := by
    intro k
    have hle := dtSum_take_le as hpa k
    exact (run_mainGame L (as.take k) w1 hi hs
      (fun d hd => hpa d (List.mem_of_mem_take hd)) (by rw [hT]; linarith)).2.1
  obtain ⟨hia, hsa, hTa⟩ := run_mainGame L as w1 hi hs hpa (by rw [hT]; exact hn1)
  have hstep := proc_mainGame L (run L w1 as) a hia hsa
  rw [if_pos (by rw [hTa, hT]; linarith)] at hstep
  have hrun_a : run L w1 (as ++ [a]) = proc L (run L w1 as) a := by
    rw [run_append]; rfl
  have hsn : (run L w1 (as ++ [a])).scene = Scene.ScoreResult := by
    rw [hrun_a]; exact congrArg Clock.scene hstep
  have hTn : (run L w1 (as ++ [a])).gameTimer = 8 := by
    rw [hrun_a]; exact congrArg Clock.gameTimer hstep
  have hin : (run L w1 (as ++ [a])).initialized = true := by
    rw [hrun_a]; exact proc_initialized L _ a hia
  have hsplit : ∀ cs : List GameData,
      run L w1 (as ++ a :: cs) = run L (run L w1 (as ++ [a])) cs := by
    intro cs
    rw [← run_append, List.append_assoc]
    rfl
  refine ⟨hmain, ⟨hsn, hTn⟩, ?_, ?_⟩
  · intro k
    rw [hsplit]
    have hle := dtSum_take_le bs hpb k
    exact (run_scoreResult L (bs.take k) _ hin hsn
      (fun d hd => hpb d (List.mem_of_mem_take hd)) (by rw [hTn]; linarith)).2.1
  · rw [hsplit, run_append]
    obtain ⟨hib, hsb, hTb⟩ := run_scoreResult L bs _ hin hsn hpb (by rw [hTn]; exact hm1)
    have hlast := proc_scoreResult L _ b hib hsb
    rw [if_pos (by rw [hTb, hTn]; linarith)] at hlast
    exact hlast.1

/-- C1.  End-to-end scene timing.  From an initialised world in `Title`, a
tick `d0` in which hand `i` has a smoothed pose whose forward ray hits the
start rectangle, with a fresh press of its trigger (released in the previous
input, pressed in this one), leaves scene `MainGame`, score 0 and timer 30.
Then, for every sequence of further ticks with positive `dt`: through the
ticks `as`, whose `dt` sum to less than 30, the scene stays `MainGame`; the tick
`a` at which the sum first reaches 30 or more gives `ScoreResult` with timer 8;
through the ticks `bs` after it, whose `dt` sum to less than 8, the scene stays
`ScoreResult`; and the tick `b` at which that sum first reaches 8 or more
returns the scene to `Title`. -/
theorem scene_timing (L : Lib) (w0 : World) (d0 : GameData) (i : Fin 2) (hp : Pose)
    (as bs : List GameData) (a b : GameData)
    (hinit : w0.initialized = true) (hscene : w0.scene = Scene.Title)
    (hpose : (proc L w0 d0).handPose i = some hp)
    (hray : ((startRect w0).RayCast hp.pos hp.ray).isSome = true)
    (hold : w0.gameDat.trigger i = false) (hnew : d0.trigger i = true)
    (hpa : ∀ d ∈ as, 0 < d.dt) (ha : 0 < a.dt) (hpb : ∀ d ∈ bs, 0 < d.dt) (hb : 0 < b.dt)
    (hn1 : dtSum as < 30) (hn2 : 30 ≤ dtSum as + a.dt)
    (hm1 : dtSum bs < 8) (hm2 : 8 ≤ dtSum bs + b.dt) :
    ((proc L w0 d0).scene = Scene.MainGame ∧ (proc L w0 d0).score = 0 ∧
      (proc L w0 d0).gameTimer = 30) ∧
    (∀ k, (run L (proc L w0 d0) (as.take k)).scene = Scene.MainGame) ∧
    ((run L (proc L w0 d0) (as ++ [a])).scene = Scene.ScoreResult ∧
      (run L (proc L w0 d0) (as ++ [a])).gameTimer = 8) ∧
    (∀ k, (run L (proc L w0 d0) (as ++ a :: bs.take k)).scene = Scene.ScoreResult) ∧
    (run L (proc L w0 d0) (as ++ a :: (bs ++ [b]))).scene = Scene.Title := by
  have _ := hold
  have _ := ha
  have _ := hb
  have hst : startsGame (proc L w0 d0) i = true :=
    (startsGame_proc L w0 d0 i hinit).2 ⟨hp, hpose, hray, hnew⟩
  have hg : (startsGame (proc L w0 d0) 0 || startsGame (proc L w0 d0) 1) = true := by
    fin_cases i
    · exact Bool.or_eq_true_iff.2 (Or.inl hst)
    · exact Bool.or_eq_true_iff.2 (Or.inr hst)
  have h := proc_title L w0 d0 hinit hscene
  rw [if_pos hg, if_pos hg, if_pos hg] at h
  exact ⟨h, run_game L (proc L w0 d0) as bs a b (proc_initialized L w0 d0 hinit) h.1 h.2.2
    hpa hpb hn1 hn2 hm1 hm2⟩

/-- A use of `scene_timing`: from start-up, two ticks aiming at the start
rectangle with the trigger released and a third with the trigger of hand 0
pressed start the game; three ticks of 10 seconds end it, and two ticks of 4
seconds return to the title. -/
theorem scene_timing_witness :
    (run Lib.sample World.ready [GameData.idle, GameData.idle]).scene = Scene.Title ∧
    (proc Lib.sample (run Lib.sample World.ready [GameData.idle, GameData.idle])
      GameData.held).scene = Scene.MainGame ∧
    (run Lib.sample
      (proc Lib.sample (run Lib.sample World.ready [GameData.idle, GameData.idle]) GameData.held)
      ([GameData.sample 10 (fun _ => false) (fun _ => none),
        GameData.sample 10 (fun _ => false) (fun _ => none)]
        ++ GameData.sample 10 (fun _ => false) (fun _ => none)
          :: ([GameData.sample 4 (fun _ => false) (fun _ => none)]
            ++ [GameData.sample 4 (fun _ => false) (fun _ => none)]))).scene = Scene.Title :=
  have hr := aim_run GameData.idle GameData.idle GameData.held
    (fun _ => rfl) (fun _ => rfl) (fun _ => rfl)
  have h := scene_timing Lib.sample
    (run Lib.sample World.ready [GameData.idle, GameData.idle]) GameData.held 0 Pose.sample
    [GameData.sample 10 (fun _ => false) (fun _ => none),
      GameData.sample 10 (fun _ => false) (fun _ => none)]
    [GameData.sample 4 (fun _ => false) (fun _ => none)]
    (GameData.sample 10 (fun _ => false) (fun _ => none))
    (GameData.sample 4 (fun _ => false) (fun _ => none))
    hr.1 hr.2.1 hr.2.2.2.2
    (by
      have : startRect (run Lib.sample World.ready [GameData.idle, GameData.idle])
          = startRect World.ready := by
        unfold startRect; rw [hr.2.2.2.1]
      rw [this]
      exact sample_hits_ready)
    (by rw [hr.2.2.1]; rfl) rfl
    (by simp [GameData.sample]) (by norm_num [GameData.sample])
    (by simp [GameData.sample]) (by norm_num [GameData.sample])
    (by norm_num [dtSum, GameData.sample]) (by norm_num [dtSum, GameData.sample])
    (by norm_num [dtSum, GameData.sample]) (by norm_num [dtSum, GameData.sample])
  ⟨hr.2.1, h.1.1, h.2.2.2.2⟩

/-! ## The target loop of the MainGame scene -/

/-- The loop body `lockStep` on a target the ray does not hit. -/
theorem lockStep_miss (hp : Pose) (s : LockState) (k : Nat) (t : Target)
    (h : t.RayCast hp.pos hp.ray = none) : lockStep hp s k t = s := by
  unfold lockStep
  dsimp only
  rw [h]

/-- The loop body `lockStep` on a target hit nearer than the recorded distance
(or when none is recorded): the distance and `colPos` are replaced, and the
target becomes the lock-on if the hit is front-facing. -/
theorem lockStep_nearer (hp : Pose) (s : LockState) (k : Nat) (t : Target) (res : Hit)
    (h : t.RayCast hp.pos hp.ray = some res)
    (hn : ∀ r, s.rayD = some r → res.rayLen < r) :
    lockStep hp s k t =
      { rayD := some res.rayLen, colPos := hp.pos + Vec3.smul res.rayLen hp.ray,
        lockedon := if res.enable then some (k, res) else s.lockedon } := by
  unfold lockStep
  dsimp only
  rw [h]
  dsimp only
  cases hr : s.rayD with
  | none => simp
  | some r => simp [hn r hr]

/-- The loop body `lockStep` on a target hit no nearer than the recorded
distance: nothing changes. -/
theorem lockStep_farther (hp : Pose) (s : LockState) (k : Nat) (t : Target) (res : Hit)
    (r : ℚ) (h : t.RayCast hp.pos hp.ray = some res) (hr : s.rayD = some r)
    (hn : r ≤ res.rayLen) : lockStep hp s k t = s := by
  unfold lockStep
  dsimp only
  rw [h]
  dsimp only
  rw [hr]
  simp [not_lt.2 hn]

theorem lockLoop_append (hp : Pose) (as bs : List Target) (k : Nat) (s : LockState) :
    lockLoop hp (as ++ bs) k s = lockLoop hp bs (k + as.length) (lockLoop hp as k s) := by
  induction as generalizing k s with
  | nil => rfl
  | cons a as ih =>
    show lockLoop hp (as ++ bs) (k + 1) (lockStep hp s k a) = _
    rw [ih]
    simp only [List.length_cons]
    rw [show k + 1 + as.length = k + (as.length + 1) by omega]
    rfl

/-- Targets all hit farther than `d` (or missed) leave a recorded distance, if
any, greater than `d`. -/
theorem lockLoop_bound (hp : Pose) (d : ℚ) (ts : List Target) :
    ∀ (k : Nat) (s : LockState),
      (∀ t ∈ ts, ∀ h, t.RayCast hp.pos hp.ray = some h → d < h.rayLen) →
      (∀ r, s.rayD = some r → d < r) →
      ∀ r, (lockLoop hp ts k s).rayD = some r → d < r := by
  induction ts with
  | nil => intro k s _ hs; exact hs
  | cons t ts ih =>
    intro k s hts hs
    apply ih (k + 1) (lockStep hp s k t) (fun t' ht' => hts t' (List.mem_cons_of_mem _ ht'))
    intro r hr
    cases hc : t.RayCast hp.pos hp.ray with
    | none =>
      rw [lockStep_miss hp s k t hc] at hr
      exact hs r hr
    | some res =>
      have hd := hts t (List.mem_cons_self _ _) res hc
      unfold lockStep at hr
      dsimp only at hr
      rw [hc] at hr
      dsimp only at hr
      split_ifs at hr <;> first | exact hs r hr | (cases hr; exact hd)

/-- Targets all hit no nearer than the recorded distance (or missed) change
nothing. -/
theorem lockLoop_stable (hp : Pose) (r : ℚ) (ts : List Target) :
    ∀ (k : Nat) (s : LockState), s.rayD = some r →
      (∀ t ∈ ts, ∀ h, t.RayCast hp.pos hp.ray = some h → r ≤ h.rayLen) →
      lockLoop hp ts k s = s := by
  induction ts with
  | nil => intro k s _ _; rfl
  | cons t ts ih =>
    intro k s hr hts
    have hstep : lockStep hp s k t = s := by
      cases hc : t.RayCast hp.pos hp.ray with
      | none => exact lockStep_miss hp s k t hc
      | some res =>
        exact lockStep_farther hp s k t res r hc hr (hts t (List.mem_cons_self _ _) res hc)
    show lockLoop hp ts (k + 1) (lockStep hp s k t) = s
    rw [hstep]
    exact ih (k + 1) s hr (fun t' ht' => hts t' (List.mem_cons_of_mem _ ht'))

/-- Every lock-on recorded by the loop is a front-facing hit of the target at
the recorded index. -/
theorem lockLoop_lockedon (hp : Pose) (ts : List Target) :
    ∀ (k0 : Nat) (s : LockState) (P : Nat → Hit → Prop),
      (∀ k hit, s.lockedon = some (k, hit) → P k hit) →
      (∀ j t hit, ts.get? j = some t → t.RayCast hp.pos hp.ray = some hit →
        hit.enable = true → P (k0 + j) hit) →
      ∀ k hit, (lockLoop hp ts k0 s).lockedon = some (k, hit) → P k hit := by
  induction ts with
  | nil => intro k0 s P hs _; exact hs
  | cons t ts ih =>
    intro k0 s P hs hts
    apply ih (k0 + 1) (lockStep hp s k0 t) P
    · intro k hit hl
      cases hc : t.RayCast hp.pos hp.ray with
      | none =>
        rw [lockStep_miss hp s k0 t hc] at hl
        exact hs k hit hl
      | some res =>
        unfold lockStep at hl
        dsimp only at hl
        rw [hc] at hl
        dsimp only at hl
        split_ifs at hl with h1 h2
        · simp only [Option.some.injEq, Prod.mk.injEq] at hl
          obtain ⟨hk, hh⟩ := hl
          subst hk hh
          exact hts 0 t _ rfl hc h2
        · exact hs k hit hl
        · exact hs k hit hl
    · intro j t' hit hj hc he
      have := hts (j + 1) t' hit hj hc he
      rw [show k0 + 1 + j = k0 + (j + 1) by omega]
      exact this

/-- If the nearest disc intersection of any facing - strictly nearer than the
hits of the targets before it, and no farther than those after it - is
front-facing, the loop ends with that target locked on and its distance
recorded. -/
theorem lockLoop_nearest (hp : Pose) (pre post : List Target) (t : Target) (hit : Hit)
    (hc : t.RayCast hp.pos hp.ray = some hit) (he : hit.enable = true)
    (hpre : ∀ t' ∈ pre, ∀ h', t'.RayCast hp.pos hp.ray = some h' → hit.rayLen < h'.rayLen)
    (hpost : ∀ t' ∈ post, ∀ h', t'.RayCast hp.pos hp.ray = some h' → hit.rayLen ≤ h'.rayLen) :
    (lockLoop hp (pre ++ t :: post) 0 LockState.start).lockedon = some (pre.length, hit) ∧
    (lockLoop hp (pre ++ t :: post) 0 LockState.start).rayD = some hit.rayLen := by
  rw [lockLoop_append]
  have hb := lockLoop_bound hp hit.rayLen pre 0 LockState.start hpre
    (fun r hr => by cases hr)
  have hstep := lockStep_nearer hp (lockLoop hp pre 0 LockState.start) (0 + pre.length) t hit
    hc hb
  rw [he, if_pos rfl] at hstep
  have hst : lockLoop hp (t :: post) (0 + pre.length) (lockLoop hp pre 0 LockState.start)
      = { rayD := some hit.rayLen, colPos := hp.pos + Vec3.smul hit.rayLen hp.ray,
          lockedon := some (0 + pre.length, hit) } := by
    show lockLoop hp post (0 + pre.length + 1)
      (lockStep hp (lockLoop hp pre 0 LockState.start) (0 + pre.length) t) = _
    rw [hstep]
    exact lockLoop_stable hp hit.rayLen post _ _ rfl hpost
  rw [hst, Nat.zero_add]
  exact ⟨rfl, rfl⟩

/-- C6, as the code has it.  Lock-on selection in the target loop of a hand
with smoothed pose `hp`, started with `rayD[i]` reset: a locked-on target always
returned a front-facing hit (flag `dot(rayDir, normal) >= 0`) and is the
target at the recorded index; there is no locked-on target when no target
returns a front-facing hit; and when the nearest disc intersection of any
facing (strictly nearer than the hits before it in the collection, no
farther than those after it) is front-facing, that target is the locked-on
target, wherever it stands in the collection. -/
theorem lockon_selection (hp : Pose) (ts : List Target) :
    (∀ k hit, (lockLoop hp ts 0 LockState.start).lockedon = some (k, hit) →
      ∃ t, ts.get? k = some t ∧ t.RayCast hp.pos hp.ray = some hit ∧ hit.enable = true) ∧
    ((∀ t ∈ ts, ∀ h, t.RayCast hp.pos hp.ray = some h → h.enable = false) →
      (lockLoop hp ts 0 LockState.start).lockedon = none) ∧
    (∀ (pre post : List Target) (t : Target) (hit : Hit), ts = pre ++ t :: post →
      t.RayCast hp.pos hp.ray = some hit → hit.enable = true →
      (∀ t' ∈ pre, ∀ h', t'.RayCast hp.pos hp.ray = some h' → hit.rayLen < h'.rayLen) →
      (∀ t' ∈ post, ∀ h', t'.RayCast hp.pos hp.ray = some h' → hit.rayLen ≤ h'.rayLen) →
      (lockLoop hp ts 0 LockState.start).lockedon = some (pre.length, hit)) := by
  have ha : ∀ k hit, (lockLoop hp ts 0 LockState.start).lockedon = some (k, hit) →
      ∃ t, ts.get? k = some t ∧ t.RayCast hp.pos hp.ray = some hit ∧ hit.enable = true := by
    apply lockLoop_lockedon hp ts 0 LockState.start
      (fun k hit => ∃ t, ts.get? k = some t ∧ t.RayCast hp.pos hp.ray = some hit ∧
        hit.enable = true)
    · intro k hit h; cases h
    · intro j t hit hj hc he
      rw [Nat.zero_add]
      exact ⟨t, hj, hc, he⟩
  refine ⟨ha, ?_, ?_⟩
  · intro hno
    cases hl : (lockLoop hp ts 0 LockState.start).lockedon with
    | none => rfl
    | some kh =>
      obtain ⟨t, hj, hc, he⟩ := ha kh.1 kh.2 hl
      have := hno t (List.get?_mem hj) kh.2 hc
      rw [this] at he
      cases he
  · intro pre post t hit hts hc he hpre hpost
    rw [hts]
    exact (lockLoop_nearest hp pre post t hit hc he hpre hpost).1

/-- The result of `Target::RayCast` from the plane intersection and the radius
test. -/
theorem Target.rayCast_of_intersect (t : Target) (rayfrom rayDir : Vec3) (d : ℚ)
    (hi : intersectRayPlane rayfrom rayDir t.pose.pos (t.pose.ori.rotate ⟨0, 0, 1⟩) = some d)
    (hl : (length (rayfrom + Vec3.smul d rayDir - t.pose.pos)).le 0.2 = true) :
    t.RayCast rayfrom rayDir =
      some ⟨decide (dot rayDir (t.pose.ori.rotate ⟨0, 0, 1⟩) ≥ 0),
        rayfrom + Vec3.smul d rayDir, d,
        length (rayfrom + Vec3.smul d rayDir - t.pose.pos)⟩ := by
  unfold Target.RayCast
  dsimp only
  rw [hi]
  dsimp only
  rw [if_pos hl]

/-- The hits of the two example targets for a hand at the origin looking along
`-z`: `Target.farFront` front-facing at distance 2, `Target.nearBack` back-facing
at distance 1, both at the centre of the disc. -/
theorem example_hits :
    Target.farFront.RayCast Pose.origin.pos Pose.origin.ray
      = some ⟨true, ⟨0, 0, -2⟩, 2, ⟨0⟩⟩ ∧
    Target.nearBack.RayCast Pose.origin.pos Pose.origin.ray
      = some ⟨false, ⟨0, 0, -1⟩, 1, ⟨0⟩⟩ := by
  have hray : Pose.origin.ray = ⟨0, 0, -1⟩ := by
    norm_num [Pose.origin, Pose.ray, Quat.rotate, Quat.identity, cross, Vec3.smul,
      Vec3.add_def]
  have hnF : Target.farFront.pose.ori.rotate ⟨0, 0, 1⟩ = ⟨0, 0, -1⟩ := by
    norm_num [Target.farFront, Target.resting, Quat.rotate, cross, Vec3.smul, Vec3.add_def]
  have hnB : Target.nearBack.pose.ori.rotate ⟨0, 0, 1⟩ = ⟨0, 0, 1⟩ := by
    norm_num [Target.nearBack, Target.resting, Quat.rotate, Quat.identity, cross, Vec3.smul,
      Vec3.add_def]
  have hpF : Target.farFront.pose.pos = ⟨0, 0, -2⟩ := rfl
  have hpB : Target.nearBack.pose.pos = ⟨0, 0, -1⟩ := rfl
  have hpo : Pose.origin.pos = ⟨0, 0, 0⟩ := rfl
  constructor
  · have hi : intersectRayPlane Pose.origin.pos Pose.origin.ray Target.farFront.pose.pos
        (Target.farFront.pose.ori.rotate ⟨0, 0, 1⟩) = some 2 := by
      rw [hray, hnF, hpF, hpo]
      norm_num [intersectRayPlane, dot, Vec3.sub_def]
    have hl : (length (Pose.origin.pos + Vec3.smul 2 Pose.origin.ray
        - Target.farFront.pose.pos)).le 0.2 = true := by
      rw [hray, hpF, hpo]
      norm_num [length, Radical.le, dot, Vec3.smul, Vec3.add_def, Vec3.sub_def]
    rw [Target.rayCast_of_intersect _ _ _ 2 hi hl, hray, hnF, hpF, hpo]
    norm_num [length, dot, Vec3.smul, Vec3.add_def, Vec3.sub_def]
  · have hi : intersectRayPlane Pose.origin.pos Pose.origin.ray Target.nearBack.pose.pos
        (Target.nearBack.pose.ori.rotate ⟨0, 0, 1⟩) = some 1 := by
      rw [hray, hnB, hpB, hpo]
      norm_num [intersectRayPlane, dot, Vec3.sub_def]
    have hl : (length (Pose.origin.pos + Vec3.smul 1 Pose.origin.ray
        - Target.nearBack.pose.pos)).le 0.2 = true := by
      rw [hray, hpB, hpo]
      norm_num [length, Radical.le, dot, Vec3.smul, Vec3.add_def, Vec3.sub_def]
    rw [Target.rayCast_of_intersect _ _ _ 1 hi hl, hray, hnB, hpB, hpo]
    norm_num [length, dot, Vec3.smul, Vec3.add_def, Vec3.sub_def]

/-- C6, the claim as written fails.  For a hand at the origin looking along
`-z`, the target `Target.farFront` returns a front-facing hit at distance 2 and
`Target.nearBack` a back-facing hit at distance 1.  With the collection
`[nearBack, farFront]` nothing is locked on although a target returns a
front-facing hit; with the same targets in the order `[farFront, nearBack]`
the front-facing target is locked on. -/
theorem lockon_depends_on_order :
    Target.farFront.RayCast Pose.origin.pos Pose.origin.ray
      = some ⟨true, ⟨0, 0, -2⟩, 2, ⟨0⟩⟩ ∧
    Target.nearBack.RayCast Pose.origin.pos Pose.origin.ray
      = some ⟨false, ⟨0, 0, -1⟩, 1, ⟨0⟩⟩ ∧
    (lockLoop Pose.origin [Target.nearBack, Target.farFront] 0 LockState.start).lockedon
      = none ∧
    (lockLoop Pose.origin [Target.farFront, Target.nearBack] 0 LockState.start).lockedon
      = some (0, ⟨true, ⟨0, 0, -2⟩, 2, ⟨0⟩⟩) := by
  obtain ⟨hF, hB⟩ := example_hits
  refine ⟨hF, hB, ?_, ?_⟩
  · simp only [lockLoop]
    rw [lockStep_nearer _ LockState.start 0 Target.nearBack _ hB (fun r hr => by cases hr)]
    rw [lockStep_farther _ _ (0 + 1) Target.farFront _ 1 hF rfl (by norm_num)]
    simp [LockState.start]
  · simp only [lockLoop]
    rw [lockStep_nearer _ LockState.start 0 Target.farFront _ hF (fun r hr => by cases hr)]
    rw [lockStep_nearer _ _ (0 + 1) Target.nearBack _ hB
      (fun r hr => by
        simp only [Option.some.injEq] at hr
        rw [← hr]; norm_num)]
    simp [LockState.start]

/-! ## Scoring in the MainGame scene -/

/-- The ten boom effects leave score, score effects, targets, the stage pose
and the stored input unchanged. -/
theorem addBooms_keeps (L : Lib) (p : Vec3) (w : World) :
    (addBooms L p w).score = w.score ∧ (addBooms L p w).scoreEffects = w.scoreEffects ∧
    (addBooms L p w).targets = w.targets ∧ (addBooms L p w).stagePose = w.stagePose ∧
    (addBooms L p w).rayD = w.rayD := by
  have h := foldl_preserves (fun v (_ : Nat) => addBoom L p v)
    (fun v : World => (v.score, v.scoreEffects, v.targets, v.stagePose, v.rayD))
    (fun _ _ => rfl) (List.range 10) w
  simp only [Prod.mk.injEq] at h
  exact h

/-- A scoring hit: with a lock-on `(k, hit)` and `gameDat.trigger[i]` set, the
target at index `k` is marked dead, one score effect of the tier of
`hit.dCenter` is appended at `colPos`, and the score grows by the points of
that tier. -/
theorem applyHit_scores (L : Lib) (w : World) (i : Fin 2) (s : LockState) (k : Nat) (hit : Hit)
    (hl : s.lockedon = some (k, hit)) (ht : w.gameDat.trigger i = true) :
    (applyHit L w i s).score = w.score + (scoreBand hit.dCenter).2 ∧
    (applyHit L w i s).scoreEffects = w.scoreEffects ++
      [scoreEffect.new L w.stagePose s.colPos (scoreBand hit.dCenter).1] ∧
    (applyHit L w i s).targets = setDead w.targets k ∧
    (applyHit L w i s).rayD = w.rayD := by
  unfold applyHit
  rw [hl]
  dsimp only
  rw [if_pos ht]
  obtain ⟨h1, h2, h3, h4, h5⟩ := addBooms_keeps L hit.colPos
    (World.sePlay { w with targets := setDead w.targets k } Sound.tgtSe hit.colPos)
  dsimp only
  rw [h1, h2, h4]
  exact ⟨rfl, rfl, h3, h5⟩

/-- No scoring hit: without a lock-on, or with `gameDat.trigger[i]` not set,
nothing changes. -/
theorem applyHit_idle (L : Lib) (w : World) (i : Fin 2) (s : LockState)
    (h : s.lockedon = none ∨ w.gameDat.trigger i = false) : applyHit L w i s = w := by
  unfold applyHit
  rcases h with h | h
  · rw [h]
  · cases hl : s.lockedon with
    | none => rfl
    | some kh =>
      dsimp only
      rw [if_neg (by rw [h]; decide)]

/-- The hand loop body for a hand with smoothed pose `hp`: its target loop, the
recorded `rayD[i]`, then the scoring. -/
theorem mainGameHand_of_pose (L : Lib) (w : World) (i : Fin 2) (hp : Pose)
    (hpose : w.handPose i = some hp) :
    mainGameHand L w i =
      applyHit L { w with rayD := Function.update w.rayD i (lockOf w i hp).rayD } i
        (lockOf w i hp) := by
  unfold mainGameHand
  rw [hpose]
  rfl

/-- The hand loop body for a hand without a smoothed pose does nothing. -/
theorem mainGameHand_no_pose (L : Lib) (w : World) (i : Fin 2) (hpose : w.handPose i = none) :
    mainGameHand L w i = w := by
  unfold mainGameHand
  rw [hpose]

@[simp] theorem sePlay_tally (w : World) (se : Sound) (p : Vec3) :
    (w.sePlay se p).tally = w.tally := rfl

@[simp] theorem spawnStep_tally (L : Lib) (w : World) : (spawnStep L w).tally = w.tally := by
  unfold spawnStep; dsimp only; split_ifs <;> rfl

@[simp] theorem entityStep_tally (L : Lib) (w : World) : (entityStep L w).tally = w.tally := rfl

@[simp] theorem cueStep_tally (dat : GameData) (w : World) (i : Nat) :
    (cueStep dat w i).tally = w.tally := by
  unfold cueStep; split_ifs <;> rfl

/-- After the hand loop, the MainGame scene code leaves score and `rayD` as
the two hands set them. -/
theorem sceneMainGame_tally (L : Lib) (dat : GameData) (w : World) :
    (sceneMainGame L dat w).tally
      = (mainGameHand L (mainGameHand L { w with gameTimer := w.gameTimer - dat.dt } 0) 1).tally := by
  unfold sceneMainGame
  dsimp only
  rw [foldl_preserves (cueStep dat) World.tally (fun a b => cueStep_tally dat a b)]
  split_ifs
  · rw [sePlay_tally]
    show (entityStep L _).tally = _
    simp only [entityStep_tally, spawnStep_tally]
  · simp only [entityStep_tally, spawnStep_tally]

/-- Score and `rayD` after an initialised MainGame tick are those left by the
hand loop run from `handsWorld`. -/
theorem proc_mainGame_tally (L : Lib) (w : World) (dat : GameData)
    (hinit : w.initialized = true) (hscene : w.scene = Scene.MainGame) :
    (proc L w dat).tally
      = (mainGameHand L (mainGameHand L (handsWorld L w dat) 0) 1).tally := by
  have hs : (preScene L (w.begin dat) dat).scene = Scene.MainGame :=
    (congrArg Clock.scene (preScene_clock L (w.begin dat) dat)).trans hscene
  have hm : proc_main L (w.begin dat) dat
      = sceneMainGame L dat (preScene L (w.begin dat) dat) := by
    unfold proc_main
    dsimp only
    rw [hs]
  rw [proc_of_initialized L w dat hinit, hm]
  exact sceneMainGame_tally L dat _

/-- The world in which the hand loop starts: `rayD` is reset, the stored input
is this tick's, `trigger_old` is the previous input's triggers, targets and
score are those before the tick, and the smoothed poses are this tick's. -/
theorem handsWorld_fields (L : Lib) (w : World) (dat : GameData)
    (hinit : w.initialized = true) :
    (handsWorld L w dat).rayD = (fun _ => none) ∧
    (handsWorld L w dat).gameDat = dat ∧
    (handsWorld L w dat).trigger_old = w.gameDat.trigger ∧
    (handsWorld L w dat).targets = w.targets ∧
    (handsWorld L w dat).score = w.score ∧
    (handsWorld L w dat).handPose = (proc L w dat).handPose := by
  have hrest := preScene_rest L (w.begin dat) dat
  have hray : (preScene L (w.begin dat) dat).rayD = (fun _ => none) := by
    have h1 : ∀ (v : World) (i : Fin 2), (smoothHand L dat v i).rayD = v.rayD := by
      intro v i
      unfold smoothHand
      cases hr : dat.handPoses i <;> dsimp only <;> split <;> rfl
    have h2 : ∀ v : World, (listenerStep v dat).rayD = v.rayD := by
      intro v; unfold listenerStep; split <;> rfl
    have h3 : ∀ (v : World) (i : Fin 2), (gunFeedback dat v i).rayD = v.rayD := by
      intro v i
      unfold gunFeedback
      dsimp only
      have h : (match v.handPose i with
          | some hp => v.emit (Event.gunSetPos i hp.pos)
          | none => v).rayD = v.rayD := by split <;> rfl
      split_ifs
      · split <;> exact h
      · exact h
    unfold preScene
    dsimp only
    rw [h3, h3, h2, h1, h1]
    rfl
  have hfix : (proc L w dat).fixed = (preScene L (w.begin dat) dat).fixed := by
    have h1 : (proc L w dat).fixed
        = (smoothHand L dat (smoothHand L dat (stageStep (w.begin dat) dat) 0) 1).fixed := by
      rw [proc_of_initialized L w dat hinit]
      exact proc_main_fixed L _ dat
    have h2 : (preScene L (w.begin dat) dat).fixed
        = (smoothHand L dat (smoothHand L dat (stageStep (w.begin dat) dat) 0) 1).fixed := by
      unfold preScene
      simp only [gunFeedback_fixed, listenerStep_fixed]
    rw [h1, h2]
  exact ⟨hray, congrArg Rest.gameDat hrest, congrArg Rest.trigger_old hrest,
    congrArg Rest.targets hrest, congrArg Rest.score hrest,
    (congrArg Fixed.handPose hfix).symm⟩

/-- When `Target::RayCast` returns a hit, the plane intersection succeeded with
the returned distance, the hit point is within the radius, and the fields of
the hit are the ones computed from that distance. -/
theorem Target.rayCast_eq_some (t : Target) (rayfrom rayDir : Vec3) (hit : Hit)
    (h : t.RayCast rayfrom rayDir = some hit) :
    intersectRayPlane rayfrom rayDir t.pose.pos (t.pose.ori.rotate ⟨0, 0, 1⟩) = some hit.rayLen ∧
    (length (rayfrom + Vec3.smul hit.rayLen rayDir - t.pose.pos)).le 0.2 = true ∧
    hit.colPos = rayfrom + Vec3.smul hit.rayLen rayDir ∧
    hit.dCenter = length (rayfrom + Vec3.smul hit.rayLen rayDir - t.pose.pos) ∧
    hit.enable = decide (dot rayDir (t.pose.ori.rotate ⟨0, 0, 1⟩) ≥ 0) := by
  unfold Target.RayCast at h
  dsimp only at h
  cases hi : intersectRayPlane rayfrom rayDir t.pose.pos (t.pose.ori.rotate ⟨0, 0, 1⟩) with
  | none => rw [hi] at h; cases h
  | some d =>
    rw [hi] at h
    dsimp only at h
    by_cases hl : (length (rayfrom + Vec3.smul d rayDir - t.pose.pos)).le 0.2 = true
    · rw [if_pos hl] at h
      cases h
      exact ⟨rfl, hl, rfl, rfl, rfl⟩
    · rw [if_neg hl] at h
      cases h

/-- A ray whose point on the target plane lies farther than 0.2 from the
target centre is not a hit. -/
theorem Target.rayCast_far (t : Target) (rayfrom rayDir : Vec3) (x : ℚ) (far : ℝ)
    (hon : dot (rayfrom + Vec3.smul x rayDir - t.pose.pos) (t.pose.ori.rotate ⟨0, 0, 1⟩) = 0)
    (hd : Real.sqrt ((dot (rayfrom + Vec3.smul x rayDir - t.pose.pos)
      (rayfrom + Vec3.smul x rayDir - t.pose.pos) : ℚ) : ℝ) = far)
    (hfar : (0.2 : ℝ) < far) : t.RayCast rayfrom rayDir = none := by
  cases hr : t.RayCast rayfrom rayDir with
  | none => rfl
  | some hit =>
    exfalso
    obtain ⟨hi, hl, _⟩ := Target.rayCast_eq_some t rayfrom rayDir hit hr
    obtain ⟨hne, _, hon2⟩ := (intersectRayPlane_meets _ _ _ _ _).1 hi
    rw [dot_ray_point] at hon hon2
    have hx : x = hit.rayLen := by
      have : (x - hit.rayLen) * dot rayDir (t.pose.ori.rotate ⟨0, 0, 1⟩) = 0 := by linarith
      rcases mul_eq_zero.1 this with h | h
      · linarith
      · exact absurd h hne
    rw [hx] at hd
    have hle := (Radical.le_iff_sqrt _ _).1 hl
    have hc : ((0.2 : ℚ) : ℝ) = (0.2 : ℝ) := by norm_num
    rw [hc] at hle
    have : Real.sqrt (((length (rayfrom + Vec3.smul hit.rayLen rayDir - t.pose.pos)).sq : ℚ) : ℝ)
        = far := hd
    linarith

/-- A target loop over targets the ray misses changes nothing. -/
theorem lockLoop_all_miss (hp : Pose) (ts : List Target) :
    ∀ (k : Nat) (s : LockState), (∀ t ∈ ts, t.RayCast hp.pos hp.ray = none) →
      lockLoop hp ts k s = s := by
  induction ts with
  | nil => intro k s _; rfl
  | cons t ts ih =>
    intro k s h
    show lockLoop hp ts (k + 1) (lockStep hp s k t) = s
    rw [lockStep_miss hp s k t (h t (List.mem_cons_self _ _))]
    exact ih (k + 1) s (fun t' ht' => h t' (List.mem_cons_of_mem _ ht'))

/-- The score banding in terms of the distance `√sq` of the hit from the
target centre. -/
theorem scoreBand_spec (r : Radical) :
    (Real.sqrt (r.sq : ℝ) < 0.04 → scoreBand r = (0, 100)) ∧
    (0.04 ≤ Real.sqrt (r.sq : ℝ) → Real.sqrt (r.sq : ℝ) < 0.07 → scoreBand r = (1, 50)) ∧
    (0.07 ≤ Real.sqrt (r.sq : ℝ) → Real.sqrt (r.sq : ℝ) < 0.13 → scoreBand r = (2, 30)) ∧
    (0.13 ≤ Real.sqrt (r.sq : ℝ) → scoreBand r = (3, 10)) := by
  have c1 : ((0.04 : ℚ) : ℝ) = (0.04 : ℝ) := by norm_num
  have c2 : ((0.07 : ℚ) : ℝ) = (0.07 : ℝ) := by norm_num
  have c3 : ((0.13 : ℚ) : ℝ) = (0.13 : ℝ) := by norm_num
  have h1 := Radical.lt_iff_sqrt r 0.04
  have h2 := Radical.lt_iff_sqrt r 0.07
  have h3 := Radical.lt_iff_sqrt r 0.13
  rw [c1] at h1
  rw [c2] at h2
  rw [c3] at h3
  unfold scoreBand
  refine ⟨?_, ?_, ?_, ?_⟩
  · intro h
    rw [if_pos (h1.2 h)]
  · intro ha hb
    rw [if_neg (fun hc => absurd (h1.1 hc) (not_lt.2 ha)), if_pos (h2.2 hb)]
  · intro ha hb
    rw [if_neg (fun hc => absurd (h1.1 hc) (not_lt.2 (by linarith))),
      if_neg (fun hc => absurd (h2.1 hc) (not_lt.2 ha)), if_pos (h3.2 hb)]
  · intro ha
    rw [if_neg (fun hc => absurd (h1.1 hc) (not_lt.2 (by linarith))),
      if_neg (fun hc => absurd (h2.1 hc) (not_lt.2 (by linarith))),
      if_neg (fun hc => absurd (h3.1 hc) (not_lt.2 ha))]

/-- The effect of the hand loop body on score, score effects and targets for a
hand with a lock-on `(k, hit)` and `gameDat.trigger[i]` set. -/
theorem mainGameHand_scores (L : Lib) (w : World) (i : Fin 2) (hp : Pose) (k : Nat) (hit : Hit)
    (hpose : w.handPose i = some hp) (hlock : (lockOf w i hp).lockedon = some (k, hit))
    (htrig : w.gameDat.trigger i = true) :
    (mainGameHand L w i).score = w.score + (scoreBand hit.dCenter).2 ∧
    (mainGameHand L w i).scoreEffects = w.scoreEffects ++
      [scoreEffect.new L w.stagePose (lockOf w i hp).colPos (scoreBand hit.dCenter).1] ∧
    (mainGameHand L w i).targets = setDead w.targets k := by
  rw [mainGameHand_of_pose L w i hp hpose]
  obtain ⟨h1, h2, h3, _⟩ := applyHit_scores L
    { w with rayD := Function.update w.rayD i (lockOf w i hp).rayD } i (lockOf w i hp) k hit
    hlock htrig
  exact ⟨h1, h2, h3⟩

/-- The hand loop body leaves score and targets alone for a hand without a
lock-on or with `gameDat.trigger[i]` not set. -/
theorem mainGameHand_idle (L : Lib) (w : World) (i : Fin 2) (hp : Pose)
    (hpose : w.handPose i = some hp)
    (h : (lockOf w i hp).lockedon = none ∨ w.gameDat.trigger i = false) :
    (mainGameHand L w i).score = w.score ∧ (mainGameHand L w i).targets = w.targets ∧
    (mainGameHand L w i).scoreEffects = w.scoreEffects := by
  rw [mainGameHand_of_pose L w i hp hpose,
    applyHit_idle L { w with rayD := Function.update w.rayD i (lockOf w i hp).rayD } i _ h]
  exact ⟨rfl, rfl, rfl⟩

/-- C4.  Scoring bands, for a hand `i` with smoothed pose `hp` in the world in
which the hand loop body runs.  Whenever the hand registers a scoring hit
(lock-on `(k, hit)`, trigger set) whose distance from the target centre is
`d`, the score grows by exactly 100 if `d < 0.04`, by 50 if `0.04 <= d < 0.07`,
by 30 if `0.07 <= d < 0.13` and by 10 otherwise, and the one score effect
created carries tier 0, 1, 2 or 3 respectively; so `d = 0.039` gives 100,
`d = 0.04` gives 50 and `d = 0.13` gives 10.  A ray whose point on a target
plane is 0.3 from the target centre is no hit, and a hand whose ray hits no
target leaves the score unchanged. -/
theorem scoring_bands (L : Lib) (w : World) (i : Fin 2) (hp : Pose)
    (hpose : w.handPose i = some hp) :
    (∀ (k : Nat) (hit : Hit) (d : ℝ), (lockOf w i hp).lockedon = some (k, hit) →
      w.gameDat.trigger i = true → Real.sqrt (hit.dCenter.sq : ℝ) = d →
      ∃ pts tier : Int,
        (mainGameHand L w i).score = w.score + pts ∧
        (∃ e, (mainGameHand L w i).scoreEffects = w.scoreEffects ++ [e] ∧ e.type = tier) ∧
        (d < 0.04 → pts = 100 ∧ tier = 0) ∧
        (0.04 ≤ d → d < 0.07 → pts = 50 ∧ tier = 1) ∧
        (0.07 ≤ d → d < 0.13 → pts = 30 ∧ tier = 2) ∧
        (0.13 ≤ d → pts = 10 ∧ tier = 3)) ∧
    (scoreBand (Radical.ofRat 0.039) = (0, 100) ∧ scoreBand (Radical.ofRat 0.04) = (1, 50) ∧
      scoreBand (Radical.ofRat 0.13) = (3, 10)) ∧
    (∀ (t : Target) (x : ℚ),
      dot (hp.pos + Vec3.smul x hp.ray - t.pose.pos) (t.pose.ori.rotate ⟨0, 0, 1⟩) = 0 →
      Real.sqrt ((dot (hp.pos + Vec3.smul x hp.ray - t.pose.pos)
        (hp.pos + Vec3.smul x hp.ray - t.pose.pos) : ℚ) : ℝ) = 0.3 →
      t.RayCast hp.pos hp.ray = none) ∧
    ((∀ t ∈ w.targets, t.RayCast hp.pos hp.ray = none) →
      (mainGameHand L w i).score = w.score) := by
  refine ⟨?_, ?_, ?_, ?_⟩
  · intro k hit d hlock htrig hd
    obtain ⟨h1, h2, _⟩ := mainGameHand_scores L w i hp k hit hpose hlock htrig
    obtain ⟨b1, b2, b3, b4⟩ := scoreBand_spec hit.dCenter
    rw [hd] at b1 b2 b3 b4
    refine ⟨(scoreBand hit.dCenter).2, (scoreBand hit.dCenter).1, h1, ⟨_, h2, rfl⟩, ?_, ?_, ?_, ?_⟩
    · intro h; rw [b1 h]; exact ⟨rfl, rfl⟩
    · intro ha hb; rw [b2 ha hb]; exact ⟨rfl, rfl⟩
    · intro ha hb; rw [b3 ha hb]; exact ⟨rfl, rfl⟩
    · intro ha; rw [b4 ha]; exact ⟨rfl, rfl⟩
  · refine ⟨?_, ?_, ?_⟩ <;> norm_num [scoreBand, Radical.lt, Radical.ofRat]
  · intro t x hon hd
    exact Target.rayCast_far t hp.pos hp.ray x 0.3 hon hd (by norm_num)
  · intro hmiss
    have hl : lockOf w i hp = { rayD := w.rayD i, lockedon := none, colPos := Vec3.zero } :=
      lockLoop_all_miss hp w.targets 0 _ hmiss
    exact (mainGameHand_idle L w i hp hpose (Or.inl (by rw [hl]))).1

/-! ## A MainGame tick with the trigger held and a target in the line of fire -/

/-- The ring buffers after the three ticks of the held-trigger run: three
insertions for each hand, every slot holding `Pose.sample`. -/
theorem held_buffers (i : Fin 2) :
    BufInv
      ((run Lib.sample World.ready [GameData.held, GameData.held, GameData.held]).handPoseBuf i)
      ((run Lib.sample World.ready
        [GameData.held, GameData.held, GameData.held]).handPoseBufIndex i) 3 ∧
    ∀ j, (run Lib.sample World.ready
        [GameData.held, GameData.held, GameData.held]).handPoseBuf i j = none ∨
      (run Lib.sample World.ready
        [GameData.held, GameData.held, GameData.held]).handPoseBuf i j = some Pose.sample := by
  have hi0 : World.ready.initialized = true := rfl
  have hi1 := proc_initialized Lib.sample World.ready GameData.held hi0
  have hi2 := proc_initialized Lib.sample _ GameData.held hi1
  have hs3 : samples i [GameData.held, GameData.held, GameData.held] = 3 := by
    simp [samples, GameData.held, GameData.sample]
  have hinv := (run_bufInv Lib.sample i [GameData.held, GameData.held, GameData.held]
    World.ready 0 hi0 (BufInv.empty _ _ (fun _ => rfl) rfl)).1
  rw [hs3] at hinv
  have hb0 : ∀ j, World.ready.handPoseBuf i j = none ∨
      World.ready.handPoseBuf i j = some Pose.sample := fun _ => Or.inl rfl
  have hb1 := (aim_step World.ready GameData.held i hi0 rfl hb0).1
  have hb2 := (aim_step _ GameData.held i hi1 rfl hb1).1
  have hb3 := (aim_step _ GameData.held i hi2 rfl hb2).1
  exact ⟨hinv, hb3⟩

/-- The world `World.shot` is initialised, in `MainGame`, with score 0 and the
trigger of hand 0 pressed in the stored (previous) input. -/
theorem shot_facts :
    World.shot.initialized = true ∧ World.shot.scene = Scene.MainGame ∧
    World.shot.score = 0 ∧ World.shot.gameDat = GameData.held ∧
    World.shot.targets = [Target.sample] := by
  obtain ⟨h1, h2, h3, _⟩ := held_run_starts
  have hg := (proc_stored Lib.sample _ GameData.held held_run.1).1
  exact ⟨h1, h2, h3, hg, rfl⟩

/-- The world in which the hand loop starts in the tick
`proc Lib.sample World.shot GameData.held`: both hands have the smoothed pose
`Pose.sample`, `rayD` is reset, the trigger of hand 0 is pressed in this input
and was pressed in the previous one, the trigger of hand 1 is released. -/
theorem shot_hands :
    (∀ i, (handsWorld Lib.sample World.shot GameData.held).handPose i = some Pose.sample) ∧
    (handsWorld Lib.sample World.shot GameData.held).rayD = (fun _ => none) ∧
    (handsWorld Lib.sample World.shot GameData.held).gameDat = GameData.held ∧
    (handsWorld Lib.sample World.shot GameData.held).trigger_old 0 = true ∧
    (handsWorld Lib.sample World.shot GameData.held).targets = [Target.sample] ∧
    (handsWorld Lib.sample World.shot GameData.held).score = 0 := by
  obtain ⟨hi, hsc, hscore, hg, ht⟩ := shot_facts
  obtain ⟨f1, f2, f3, f4, f5, f6⟩ := handsWorld_fields Lib.sample World.shot GameData.held hi
  refine ⟨?_, f1, f2, by rw [f3, hg]; rfl, by rw [f4, ht], by rw [f5, hscore]⟩
  intro i
  rw [f6]
  obtain ⟨hinv, hslots⟩ := held_buffers i
  have hs1 : samples i [GameData.held] = 1 := by
    simp [samples, GameData.held, GameData.sample]
  have hsome := ((run_bufInv Lib.sample i [GameData.held] World.shot 3 hi hinv).2
    (List.cons_ne_nil _ _)).2 (by rw [hs1]; omega)
  rcases (aim_step World.shot GameData.held i hi rfl hslots).2 with h | h
  · have h' : (run Lib.sample World.shot [GameData.held]).handPose i = none := h
    rw [h'] at hsome
    cases hsome
  · exact h

/-- The forward ray of `Pose.sample` hits `Target.sample` on its front, 2 away,
at 0.039 from its centre. -/
theorem sample_hit :
    Target.sample.RayCast Pose.sample.pos Pose.sample.ray
      = some ⟨true, ⟨0, 1.2, -1⟩, 2, Radical.ofRat 0.039⟩ := by
  have hray : Pose.sample.ray = ⟨0, 0, -1⟩ := by
    norm_num [Pose.sample, Pose.ray, Quat.rotate, Quat.identity, cross, Vec3.smul,
      Vec3.add_def]
  have hn : Target.sample.pose.ori.rotate ⟨0, 0, 1⟩ = ⟨0, 0, -1⟩ := by
    norm_num [Target.sample, Target.resting, Quat.rotate, cross, Vec3.smul, Vec3.add_def]
  have hpt : Target.sample.pose.pos = ⟨0.039, 1.2, -1⟩ := rfl
  have hpo : Pose.sample.pos = ⟨0, 1.2, 1⟩ := rfl
  have hi : intersectRayPlane Pose.sample.pos Pose.sample.ray Target.sample.pose.pos
      (Target.sample.pose.ori.rotate ⟨0, 0, 1⟩) = some 2 := by
    rw [hray, hn, hpt, hpo]
    norm_num [intersectRayPlane, dot, Vec3.sub_def]
  have hl : (length (Pose.sample.pos + Vec3.smul 2 Pose.sample.ray
      - Target.sample.pose.pos)).le 0.2 = true := by
    rw [hray, hpt, hpo]
    norm_num [length, Radical.le, dot, Vec3.smul, Vec3.add_def, Vec3.sub_def]
  rw [Target.rayCast_of_intersect _ _ _ 2 hi hl, hray, hn, hpt, hpo]
  norm_num [length, dot, Vec3.smul, Vec3.add_def, Vec3.sub_def, Radical.ofRat]

/-- In the tick `proc Lib.sample World.shot GameData.held` the target loop of
hand 0 ends with `Target.sample` locked on. -/
theorem shot_lock :
    (lockOf (handsWorld Lib.sample World.shot GameData.held) 0 Pose.sample).lockedon
      = some (0, ⟨true, ⟨0, 1.2, -1⟩, 2, Radical.ofRat 0.039⟩) := by
  obtain ⟨_, hray, _, _, ht, _⟩ := shot_hands
  unfold lockOf
  rw [ht, hray]
  exact (lockLoop_nearest Pose.sample [] [] Target.sample _ sample_hit rfl
    (fun _ h => absurd h (List.not_mem_nil _)) (fun _ h => absurd h (List.not_mem_nil _))).1

/-- Every band awards a positive number of points. -/
theorem scoreBand_pos (r : Radical) : 0 < (scoreBand r).2 := by
  unfold scoreBand
  split_ifs <;> decide

/-- The score after the tick `proc Lib.sample World.shot GameData.held`: hand 0,
whose trigger is held, shoots `Target.sample` for 100 points; hand 1, whose
trigger is released, scores nothing. -/
theorem shot_score : (proc Lib.sample World.shot GameData.held).score = 100 := by
  obtain ⟨hi, hsc, _⟩ := shot_facts
  obtain ⟨hpose, _, hg, _, _, hscore⟩ := shot_hands
  have htally := proc_mainGame_tally Lib.sample World.shot GameData.held hi hsc
  have hs : (proc Lib.sample World.shot GameData.held).score
      = (mainGameHand Lib.sample
          (mainGameHand Lib.sample (handsWorld Lib.sample World.shot GameData.held) 0) 1).score :=
    congrArg Prod.fst htally
  have h0 := (mainGameHand_scores Lib.sample _ 0 Pose.sample 0 _ (hpose 0) shot_lock
    (by rw [hg]; rfl)).1
  have hfix := mainGameHand_fixed Lib.sample (handsWorld Lib.sample World.shot GameData.held) 0
  have hp1 : (mainGameHand Lib.sample (handsWorld Lib.sample World.shot GameData.held) 0).handPose 1
      = some Pose.sample := (congrFun (congrArg Fixed.handPose hfix) 1).trans (hpose 1)
  have hg1 : (mainGameHand Lib.sample
      (handsWorld Lib.sample World.shot GameData.held) 0).gameDat = GameData.held :=
    (congrArg Fixed.gameDat hfix).trans hg
  have h1 := (mainGameHand_idle Lib.sample _ 1 Pose.sample hp1
    (Or.inr (by rw [hg1]; rfl))).1
  rw [hs, h1, h0, hscore]
  norm_num [scoreBand, Radical.lt, Radical.ofRat]

/-- A use of `scoring_bands`: in the tick `proc Lib.sample World.shot GameData.held`
hand 0 hits `Target.sample` at 0.039 from its centre and the hand loop body
takes the score from 0 to 100. -/
theorem scoring_bands_witness :
    (handsWorld Lib.sample World.shot GameData.held).score = 0 ∧
    (mainGameHand Lib.sample (handsWorld Lib.sample World.shot GameData.held) 0).score = 100 := by
  obtain ⟨hpose, _, hg, _, _, hscore⟩ := shot_hands
  have hsqrt : Real.sqrt (((Radical.ofRat 0.039).sq : ℚ) : ℝ) = 0.039 := by
    have : (((Radical.ofRat 0.039).sq : ℚ) : ℝ) = (0.039 : ℝ) * 0.039 := by
      norm_num [Radical.ofRat]
    rw [this]
    exact Real.sqrt_mul_self (by norm_num)
  obtain ⟨pts, tier, h1, _, h3, _⟩ :=
    (scoring_bands Lib.sample (handsWorld Lib.sample World.shot GameData.held) 0 Pose.sample
      (hpose 0)).1 0 ⟨true, ⟨0, 1.2, -1⟩, 2, Radical.ofRat 0.039⟩ 0.039 shot_lock
      (by rw [hg]; rfl) hsqrt
  refine ⟨hscore, ?_⟩
  rw [h1, (h3 (by norm_num)).1, hscore]
  rfl

/-- The world in which the loop body of hand `i` runs holds this tick's input
and this tick's smoothed poses. -/
theorem handWorld_fields (L : Lib) (w : World) (dat : GameData) (i : Fin 2)
    (hinit : w.initialized = true) :
    (handWorld L w dat i).gameDat = dat ∧
    (handWorld L w dat i).trigger_old = w.gameDat.trigger ∧
    (handWorld L w dat i).handPose = (proc L w dat).handPose := by
  obtain ⟨_, f2, f3, _, _, f6⟩ := handsWorld_fields L w dat hinit
  unfold handWorld
  split_ifs
  · exact ⟨f2, f3, f6⟩
  · have hfix := mainGameHand_fixed L (handsWorld L w dat) 0
    exact ⟨(congrArg Fixed.gameDat hfix).trans f2, (congrArg Fixed.trigger_old hfix).trans f3,
      (congrArg Fixed.handPose hfix).trans f6⟩

/-- C5, as the code has it.  Scoring is level-triggered.  In an initialised
MainGame tick `proc L w dat`, let `v` be the world in which the hand loop body
runs for hand `i`, and `hp` the smoothed pose of that hand.  The hand kills its
locked-on target and is awarded points if and only if it has a locked-on
target and `trigger[i]` is pressed in this tick's input `dat`, whether or not it
was pressed in the previous tick's input: with a lock-on `(k, hit)` and the
trigger pressed, the target at index `k` is marked dead and the score grows by
a positive number of points; without a lock-on, or with the trigger not
pressed, the loop body leaves targets and score unchanged. -/
theorem scoring_level_triggered (L : Lib) (w : World) (dat : GameData) (i : Fin 2) (hp : Pose)
    (hinit : w.initialized = true) (hscene : w.scene = Scene.MainGame)
    (hpose : (proc L w dat).handPose i = some hp) :
    (∀ k hit, (lockOf (handWorld L w dat i) i hp).lockedon = some (k, hit) →
      dat.trigger i = true →
      (mainGameHand L (handWorld L w dat i) i).targets = setDead (handWorld L w dat i).targets k ∧
      ∃ pts : Int, 0 < pts ∧
        (mainGameHand L (handWorld L w dat i) i).score = (handWorld L w dat i).score + pts) ∧
    (((lockOf (handWorld L w dat i) i hp).lockedon = none ∨ dat.trigger i = false) →
      (mainGameHand L (handWorld L w dat i) i).targets = (handWorld L w dat i).targets ∧
      (mainGameHand L (handWorld L w dat i) i).score = (handWorld L w dat i).score) := by
  have _ := hscene
  obtain ⟨hg, _, hh⟩ := handWorld_fields L w dat i hinit
  have hpv : (handWorld L w dat i).handPose i = some hp := by rw [hh]; exact hpose
  constructor
  · intro k hit hlock htrig
    obtain ⟨h1, _, h3⟩ := mainGameHand_scores L _ i hp k hit hpv hlock (by rw [hg]; exact htrig)
    exact ⟨h3, (scoreBand hit.dCenter).2, scoreBand_pos _, h1⟩
  · intro h
    have h' : (lockOf (handWorld L w dat i) i hp).lockedon = none ∨
        (handWorld L w dat i).gameDat.trigger i = false := by
      rw [hg]; exact h
    obtain ⟨h1, h2, _⟩ := mainGameHand_idle L _ i hp hpv h'
    exact ⟨h2, h1⟩

/-- C5, the claim as written fails.  In the world `World.shot` the stored
input of the previous tick has the trigger of hand 0 pressed; the tick with
the input `GameData.held`, in which that trigger is still pressed, is processed
in `MainGame` and takes the score from 0 to 100: hand 0 is awarded points
without a fresh press. -/
theorem held_trigger_scores :
    World.shot.scene = Scene.MainGame ∧ World.shot.gameDat.trigger 0 = true ∧
    GameData.held.trigger 0 = true ∧ World.shot.score = 0 ∧
    (proc Lib.sample World.shot GameData.held).score = 100 :=
  ⟨shot_facts.2.1, by rw [shot_facts.2.2.2.1]; rfl, rfl, shot_facts.2.2.1, shot_score⟩

/-- A use of `scoring_level_triggered`: in the tick
`proc Lib.sample World.shot GameData.held` the trigger of hand 0 was already
pressed in the previous input, and the loop body of hand 0 marks the target
at index 0 dead. -/
theorem scoring_level_triggered_witness :
    World.shot.gameDat.trigger 0 = true ∧
    (mainGameHand Lib.sample (handWorld Lib.sample World.shot GameData.held 0) 0).targets
      = setDead (handWorld Lib.sample World.shot GameData.held 0).targets 0 :=
  ⟨by rw [shot_facts.2.2.2.1]; rfl,
   ((scoring_level_triggered Lib.sample World.shot GameData.held 0 Pose.sample
      shot_facts.1 shot_facts.2.1
      ((congrFun (handsWorld_fields Lib.sample World.shot GameData.held
        shot_facts.1).2.2.2.2.2 0).symm.trans (shot_hands.1 0))).1 0 _ shot_lock rfl).1⟩

/-- A use of `lockon_selection`: for a hand at the origin looking along `-z` and
two copies of `Target.farFront`, the first is the nearest intersection, it is
front-facing, and it is locked on. -/
theorem lockon_selection_witness :
    (lockLoop Pose.origin [Target.farFront, Target.farFront] 0 LockState.start).lockedon
      = some (0, ⟨true, ⟨0, 0, -2⟩, 2, ⟨0⟩⟩) :=
  (lockon_selection Pose.origin [Target.farFront, Target.farFront]).2.2
    [] [Target.farFront] Target.farFront _ rfl example_hits.1 rfl
    (fun _ h => absurd h (List.not_mem_nil _))
    (fun t' ht' h' hc => by
      rw [List.mem_singleton] at ht'
      subst ht'
      rw [example_hits.1] at hc
      cases hc
      exact le_refl _)

/-! ## The life of a target: `Target::Target` and `Target::proc` -/

/-- The method `Target::proc` advances the timer by `dt`. -/
theorem Target.proc_timer (L : Lib) (t : Target) (dt : ℚ) :
    (t.proc L dt).timer = t.timer + dt := by
  unfold Target.proc
  dsimp only
  split_ifs <;> rfl

/-- The method `Target::proc` keeps `alive` when called with `timer < 7` and
clears it otherwise. -/
theorem Target.proc_alive (L : Lib) (t : Target) (dt : ℚ) :
    (t.proc L dt).alive = (if t.timer < 7 then t.alive else false) := by
  unfold Target.proc
  dsimp only
  by_cases h7 : t.timer < 7
  · rw [if_pos h7]
    split_ifs <;> rfl
  · rw [if_neg h7]
    have h2 : ¬ t.timer < 2 := fun h => h7 (by linarith)
    have h4 : ¬ t.timer < 4 := fun h => h7 (by linarith)
    have h5 : ¬ t.timer < 5 := fun h => h7 (by linarith)
    rw [if_neg h2, if_neg h4, if_neg h5, if_neg h7]

/-- The method `Target::proc` never writes the target, end and hidden poses. -/
theorem Target.proc_poses (L : Lib) (t : Target) (dt : ℚ) :
    (t.proc L dt).tgtPose = t.tgtPose ∧ (t.proc L dt).endPose = t.endPose ∧
    (t.proc L dt).hidPose = t.hidPose := by
  unfold Target.proc
  dsimp only
  split_ifs <;> exact ⟨rfl, rfl, rfl⟩

/-- The method `Target::proc` called with `2 <= timer < 4` sets the pose to the
target pose. -/
theorem Target.proc_hold (L : Lib) (t : Target) (dt : ℚ) (h2 : 2 ≤ t.timer)
    (h4 : t.timer < 4) : (t.proc L dt).pose = t.tgtPose := by
  unfold Target.proc
  dsimp only
  rw [if_neg (not_lt.2 h2), if_pos h4]

/-- The method `Target::proc` called with `timer = 0` puts the position at the
hidden position. -/
theorem Target.proc_start (L : Lib) (t : Target) (dt : ℚ) (h0 : t.timer = 0) :
    (t.proc L dt).pose.pos = t.hidPose.pos := by
  unfold Target.proc
  dsimp only
  rw [if_pos (by rw [h0]; norm_num), h0]
  simp [vLerp, Vec3.smul, Vec3.add_def]

/-- C13.  Target lifecycle poses: a freshly constructed `Target` has
`alive = true`, `timer = 0` and `pose = hidPose`; `Target::proc` called at
`timer = 0` leaves `pose.pos` equal to `hidPose.pos`; `Target::proc` called at
`timer = 2` sets `pose` equal to `tgtPose` (position and orientation), and so
does every `proc` call made with `2 <= timer < 4`, `tgtPose` itself never being
written by `proc`. -/
theorem target_lifecycle (L : Lib) (sightBase stagePose : Pose)
    (upperVec rightVec fwdVec : Vec3) (r0 r1 r2 : Nat) :
    ((Target.new L sightBase stagePose upperVec rightVec fwdVec r0 r1 r2).alive = true ∧
      (Target.new L sightBase stagePose upperVec rightVec fwdVec r0 r1 r2).timer = 0 ∧
      (Target.new L sightBase stagePose upperVec rightVec fwdVec r0 r1 r2).pose
        = (Target.new L sightBase stagePose upperVec rightVec fwdVec r0 r1 r2).hidPose) ∧
    (∀ (t : Target) (dt : ℚ), t.timer = 0 → (t.proc L dt).pose.pos = t.hidPose.pos) ∧
    (∀ (t : Target) (dt : ℚ), t.timer = 2 → (t.proc L dt).pose = t.tgtPose) ∧
    (∀ (t : Target) (dt : ℚ), 2 ≤ t.timer → t.timer < 4 → (t.proc L dt).pose = t.tgtPose) ∧
    (∀ (t : Target) (dt : ℚ), (t.proc L dt).tgtPose = t.tgtPose) := by
  refine ⟨⟨rfl, rfl, rfl⟩, ?_, ?_, ?_, ?_⟩
  · intro t dt h0
    exact Target.proc_start L t dt h0
  · intro t dt h2
    exact Target.proc_hold L t dt (le_of_eq h2.symm) (by rw [h2]; norm_num)
  · intro t dt h2 h4
    exact Target.proc_hold L t dt h2 h4
  · intro t dt
    exact (Target.proc_poses L t dt).1

/-- A use of `target_lifecycle`: the target constructed with the sample library
from the stage of `World.ready`, processed at `timer = 0`, stays at its hidden
position; `Target.sample`, processed at `timer = 3`, is at its target pose. -/
theorem target_lifecycle_witness :
    ((Target.new Lib.sample World.ready.sightBase World.ready.stagePose World.ready.upperVec
      World.ready.rightVec World.ready.fwdVec 0 0 0).proc Lib.sample 1).pose.pos
      = (Target.new Lib.sample World.ready.sightBase World.ready.stagePose
          World.ready.upperVec World.ready.rightVec World.ready.fwdVec 0 0 0).hidPose.pos ∧
    (Target.sample.proc Lib.sample 1).pose = Target.sample.tgtPose :=
  ⟨(target_lifecycle Lib.sample World.ready.sightBase World.ready.stagePose
      World.ready.upperVec World.ready.rightVec World.ready.fwdVec 0 0 0).2.1 _ 1 rfl,
   (target_lifecycle Lib.sample World.ready.sightBase World.ready.stagePose
      World.ready.upperVec World.ready.rightVec World.ready.fwdVec 0 0 0).2.2.2.1
      Target.sample 1 (by norm_num [Target.sample, Target.resting])
      (by norm_num [Target.sample, Target.resting])⟩

/-! ## The one-shot audio manager -/

theorem mem_setInsert (i j : Nat) (l : List Nat) : j ∈ setInsert i l ↔ j = i ∨ j ∈ l := by
  induction l with
  | nil => simp [setInsert]
  | cons a l ih =>
    unfold setInsert
    split_ifs with h1 h2
    · simp
    · subst h2; simp
    · simp only [List.mem_cons, ih]
      tauto

theorem setInsert_sorted (i : Nat) (l : List Nat) (h : l.Sorted (· < ·)) :
    (setInsert i l).Sorted (· < ·) := by
  induction l with
  | nil => simp [setInsert]
  | cons a l ih =>
    obtain ⟨ha, hl⟩ := List.sorted_cons.1 h
    unfold setInsert
    split_ifs with h1 h2
    · refine List.sorted_cons.2 ⟨?_, h⟩
      intro b hb
      rcases List.mem_cons.1 hb with rfl | hb
      · exact h1
      · exact lt_trans h1 (ha b hb)
    · exact h
    · refine List.sorted_cons.2 ⟨?_, ih hl⟩
      intro b hb
      rcases (mem_setInsert i b l).1 hb with rfl | hb
      · omega
      · exact ha b hb

/-- A freshly constructed manager satisfies the representation invariant. -/
theorem OneShotAudioManager.new_wf (n : Nat) : (OneShotAudioManager.new n).WF := by
  refine ⟨List.sorted_lt_range n, ?_⟩
  intro j hj
  simpa [OneShotAudioManager.new] using hj

/-- The method `play` with no available slot: nothing is started and the
manager is unchanged. -/
theorem OneShotAudioManager.play_nil (m : OneShotAudioManager) (h : m.available = []) :
    m.play = (m, none) := by
  unfold OneShotAudioManager.play
  rw [h]

/-- The method `play` with the available slots `a :: rest`: slot `a` is claimed,
its countdown set to 2, and `rest` stays available. -/
theorem OneShotAudioManager.play_cons (m : OneShotAudioManager) (a : Nat) (rest : List Nat)
    (h : m.available = a :: rest) :
    m.play = ({ container := m.container.set a 2, available := rest }, some a) := by
  unfold OneShotAudioManager.play
  rw [h]
  simp

/-- The method `play` keeps the representation invariant. -/
theorem OneShotAudioManager.play_wf (m : OneShotAudioManager) (h : m.WF) : m.play.1.WF := by
  cases ha : m.available with
  | nil => rw [OneShotAudioManager.play_nil m ha]; exact h
  | cons a rest =>
    rw [OneShotAudioManager.play_cons m a rest ha]
    obtain ⟨hs, hb⟩ := h
    rw [ha] at hs hb
    refine ⟨(List.sorted_cons.1 hs).2, ?_⟩
    intro j hj
    simpa using hb j (List.mem_cons_of_mem _ hj)

/-- The loop body `updateSlot` keeps the number of slots. -/
theorem OneShotAudioManager.updateSlot_length (dt : ℚ) (m : OneShotAudioManager) (j : Nat) :
    (OneShotAudioManager.updateSlot dt m j).container.length = m.container.length := by
  unfold OneShotAudioManager.updateSlot
  split
  · split_ifs <;> simp
  · rfl

/-- The loop body `updateSlot` for slot `j` leaves the countdown and the
availability of every other slot unchanged. -/
theorem OneShotAudioManager.updateSlot_other (dt : ℚ) (m : OneShotAudioManager) (i j : Nat)
    (hij : j ≠ i) :
    (OneShotAudioManager.updateSlot dt m j).container.get? i = m.container.get? i ∧
    (i ∈ (OneShotAudioManager.updateSlot dt m j).available ↔ i ∈ m.available) := by
  unfold OneShotAudioManager.updateSlot
  split
  · split_ifs
    · simp only [List.get?_eq_getElem?, List.getElem?_set_ne hij, mem_setInsert, true_and]
      constructor
      · rintro (h | h)
        · exact absurd h.symm hij
        · exact h
      · intro h; exact Or.inr h
    · simp only [List.get?_eq_getElem?, List.getElem?_set_ne hij, and_self]
    · exact ⟨rfl, Iff.rfl⟩
  · exact ⟨rfl, Iff.rfl⟩

/-- The loop body `updateSlot` on its own slot, with countdown `ttl`: a positive
countdown goes down by `dt` and the slot becomes available when the result is
`<= 0`; a countdown `<= 0` is left alone. -/
theorem OneShotAudioManager.updateSlot_self (dt : ℚ) (m : OneShotAudioManager) (i : Nat)
    (ttl : ℚ) (h : m.container.get? i = some ttl) :
    (0 < ttl →
      (OneShotAudioManager.updateSlot dt m i).container.get? i = some (ttl - dt) ∧
      (i ∈ (OneShotAudioManager.updateSlot dt m i).available ↔
        (ttl - dt ≤ 0 ∨ i ∈ m.available))) ∧
    (ttl ≤ 0 → OneShotAudioManager.updateSlot dt m i = m) := by
  have hlt : i < m.container.length := by
    rw [List.get?_eq_getElem?] at h
    exact (List.getElem?_eq_some.1 h).1
  unfold OneShotAudioManager.updateSlot
  rw [h]
  dsimp only
  constructor
  · intro hpos
    rw [if_pos hpos]
    by_cases hle : ttl - dt ≤ 0
    · rw [if_pos hle]
      refine ⟨by simp [hlt], ?_⟩
      simp only [mem_setInsert, hle, true_or, iff_true]
    · rw [if_neg hle]
      refine ⟨by simp [hlt], ?_⟩
      simp only [hle, false_or]
  · intro hle
    rw [if_neg (not_lt.2 hle)]

/-- The loop of `update` over the slots below `n`: slot `i` is as `updateSlot`
for `i` leaves it if `i < n`, and untouched otherwise. -/
theorem OneShotAudioManager.update_loop (dt : ℚ) (m : OneShotAudioManager) (i : Nat) (n : Nat) :
    ((List.range n).foldl (OneShotAudioManager.updateSlot dt) m).container.get? i
      = (if i < n then (OneShotAudioManager.updateSlot dt m i).container.get? i
          else m.container.get? i) ∧
    (i ∈ ((List.range n).foldl (OneShotAudioManager.updateSlot dt) m).available ↔
      (if i < n then i ∈ (OneShotAudioManager.updateSlot dt m i).available
        else i ∈ m.available)) := by
  induction n with
  | zero => simp
  | succ n ih =>
    rw [List.range_succ, List.foldl_append]
    simp only [List.foldl_cons, List.foldl_nil]
    by_cases hin : i < n
    · have hne : n ≠ i := by omega
      obtain ⟨h1, h2⟩ := OneShotAudioManager.updateSlot_other dt
        ((List.range n).foldl (OneShotAudioManager.updateSlot dt) m) i n hne
      rw [h1, h2, ih.1, ih.2, if_pos hin, if_pos hin, if_pos (by omega), if_pos (by omega)]
      exact ⟨rfl, Iff.rfl⟩
    · rw [if_neg hin, if_neg hin] at ih
      by_cases heq : n = i
      · subst heq
        rw [if_pos (by omega), if_pos (by omega)]
        -- the state of slot `n` before its own step is the original one
        have key : ∀ a b : OneShotAudioManager, a.container.get? n = b.container.get? n →
            (n ∈ a.available ↔ n ∈ b.available) →
            (OneShotAudioManager.updateSlot dt a n).container.get? n
              = (OneShotAudioManager.updateSlot dt b n).container.get? n ∧
            (n ∈ (OneShotAudioManager.updateSlot dt a n).available ↔
              n ∈ (OneShotAudioManager.updateSlot dt b n).available) := by
          intro a b hc hav
          cases hb : b.container.get? n with
          | none =>
            have ha : a.container.get? n = none := hc.trans hb
            unfold OneShotAudioManager.updateSlot
            rw [ha, hb]
            exact ⟨hc, hav⟩
          | some ttl =>
            have ha : a.container.get? n = some ttl := hc.trans hb
            obtain ⟨a1, a2⟩ := OneShotAudioManager.updateSlot_self dt a n ttl ha
            obtain ⟨b1, b2⟩ := OneShotAudioManager.updateSlot_self dt b n ttl hb
            by_cases hpos : 0 < ttl
            · rw [(a1 hpos).1, (b1 hpos).1, (a1 hpos).2, (b1 hpos).2, hav]
              exact ⟨rfl, Iff.rfl⟩
            · rw [a2 (not_lt.1 hpos), b2 (not_lt.1 hpos)]
              exact ⟨hc, hav⟩
        exact key _ m ih.1 ih.2
      · have hne : n ≠ i := heq
        obtain ⟨h1, h2⟩ := OneShotAudioManager.updateSlot_other dt
          ((List.range n).foldl (OneShotAudioManager.updateSlot dt) m) i n hne
        rw [h1, h2, ih.1, ih.2, if_neg (by omega), if_neg (by omega)]
        exact ⟨rfl, Iff.rfl⟩

/-- The method `update` on slot `i`: its countdown and availability afterwards
are those left by the loop body for `i`. -/
theorem OneShotAudioManager.update_slot (dt : ℚ) (m : OneShotAudioManager) (i : Nat)
    (hi : i < m.container.length) :
    (m.update dt).container.get? i = (OneShotAudioManager.updateSlot dt m i).container.get? i ∧
    (i ∈ (m.update dt).available ↔ i ∈ (OneShotAudioManager.updateSlot dt m i).available) := by
  have h := OneShotAudioManager.update_loop dt m i m.container.length
  rw [if_pos hi, if_pos hi] at h
  exact h

/-- The method `update` keeps the number of slots and the representation
invariant. -/
theorem OneShotAudioManager.update_wf (dt : ℚ) (m : OneShotAudioManager) (h : m.WF) :
    (m.update dt).container.length = m.container.length ∧ (m.update dt).WF := by
  have step : ∀ (a : OneShotAudioManager) (j : Nat), a.WF →
      (OneShotAudioManager.updateSlot dt a j).WF := by
    intro a j ha
    obtain ⟨hs, hb⟩ := ha
    have hlen := OneShotAudioManager.updateSlot_length dt a j
    refine ⟨?_, ?_⟩
    · unfold OneShotAudioManager.updateSlot
      split
      · split_ifs
        · exact setInsert_sorted j _ hs
        · exact hs
        · exact hs
      · exact hs
    · intro k hk
      rw [hlen]
      by_cases hkj : j = k
      · subst hkj
        by_contra hge
        have hnone : a.container.get? j = none := by
          rw [List.get?_eq_getElem?]
          exact List.getElem?_eq_none (by omega)
        have : OneShotAudioManager.updateSlot dt a j = a := by
          unfold OneShotAudioManager.updateSlot
          rw [hnone]
        rw [this] at hk
        exact hge (hb j hk)
      · exact hb k (((OneShotAudioManager.updateSlot_other dt a k j hkj).2).1 hk)
  have fold : ∀ (l : List Nat) (a : OneShotAudioManager), a.WF →
      (l.foldl (OneShotAudioManager.updateSlot dt) a).container.length = a.container.length ∧
      (l.foldl (OneShotAudioManager.updateSlot dt) a).WF := by
    intro l
    induction l with
    | nil => intro a ha; exact ⟨rfl, ha⟩
    | cons j l ih =>
      intro a ha
      obtain ⟨h1, h2⟩ := ih (OneShotAudioManager.updateSlot dt a j) (step a j ha)
      exact ⟨h1.trans (OneShotAudioManager.updateSlot_length dt a j), h2⟩
  exact fold _ m h

/-- The state of a claimed slot `i` when the `update` calls since the claim
cover the time `S`: before 2 seconds its countdown is `2 - S` and it is not
available; from 2 seconds on its countdown is `<= 0` and it is available. -/
theorem OneShotAudioManager.slot_run (i : Nat) (ops : List AudioOp) :
    ∀ (m : OneShotAudioManager) (S : ℚ), i < m.container.length →
      (S < 2 → m.container.get? i = some (2 - S) ∧ i ∉ m.available) →
      (2 ≤ S → (∃ ttl, m.container.get? i = some ttl ∧ ttl ≤ 0) ∧ i ∈ m.available) →
      opPositive ops → notClaimed i m ops →
      (i ∈ (m.exec ops).available ↔ 2 ≤ S + opTime ops) := by
  induction ops with
  | nil =>
    intro m S _ hlt hge _ _
    simp only [OneShotAudioManager.exec, List.foldl_nil, opTime, add_zero]
    constructor
    · intro hmem
      by_contra hS
      exact (hlt (not_le.1 hS)).2 hmem
    · intro hS
      exact (hge hS).2
  | cons op ops ih =>
    intro m S hi hlt hge hpos hnot
    cases op with
    | update dt =>
      obtain ⟨hdt, hpos'⟩ := hpos
      have hexec : m.exec (AudioOp.update dt :: ops) = (m.update dt).exec ops := rfl
      have htime : S + opTime (AudioOp.update dt :: ops) = (S + dt) + opTime ops := by
        simp only [opTime]; ring
      rw [hexec, htime]
      obtain ⟨u1, u2⟩ := OneShotAudioManager.update_slot dt m i hi
      have hlen : i < (m.update dt).container.length := by
        have : (m.update dt).container.length = m.container.length := by
          unfold OneShotAudioManager.update
          exact foldl_preserves (OneShotAudioManager.updateSlot dt)
            (fun a => a.container.length)
            (fun a b => OneShotAudioManager.updateSlot_length dt a b) _ m
        rw [this]; exact hi
      apply ih (m.update dt) (S + dt) hlen
      · intro hS
        obtain ⟨hc, hav⟩ := hlt (by linarith)
        obtain ⟨s1, _⟩ := OneShotAudioManager.updateSlot_self dt m i (2 - S) hc
        obtain ⟨s1a, s1b⟩ := s1 (by linarith)
        rw [u1, u2, s1a, s1b]
        refine ⟨by congr 1; ring, ?_⟩
        rintro (h | h)
        · linarith
        · exact hav h
      · intro hS
        by_cases hS0 : S < 2
        · obtain ⟨hc, hav⟩ := hlt hS0
          obtain ⟨s1, _⟩ := OneShotAudioManager.updateSlot_self dt m i (2 - S) hc
          obtain ⟨s1a, s1b⟩ := s1 (by linarith)
          rw [u1, u2, s1a, s1b]
          exact ⟨⟨2 - S - dt, rfl, by linarith⟩, Or.inl (by linarith)⟩
        · obtain ⟨⟨ttl, hc, hle⟩, hav⟩ := hge (not_lt.1 hS0)
          obtain ⟨_, s2⟩ := OneShotAudioManager.updateSlot_self dt m i ttl hc
          rw [u1, u2, s2 hle]
          exact ⟨⟨ttl, hc, hle⟩, hav⟩
      · exact hpos'
      · exact hnot
    | play =>
      have hexec : m.exec (AudioOp.play :: ops) = m.play.1.exec ops := rfl
      have htime : S + opTime (AudioOp.play :: ops) = S + opTime ops := rfl
      rw [hexec, htime]
      obtain ⟨hne, hnot'⟩ := hnot
      cases ha : m.available with
      | nil =>
        rw [OneShotAudioManager.play_nil m ha] at hnot' ⊢
        exact ih m S hi hlt hge hpos hnot'
      | cons a rest =>
        rw [OneShotAudioManager.play_cons m a rest ha] at hne hnot' ⊢
        have hai : a ≠ i := fun h => hne (by rw [h])
        have hget : (m.container.set a 2).get? i = m.container.get? i := by
          simp only [List.get?_eq_getElem?, List.getElem?_set_ne hai]
        have hmem : i ∈ rest ↔ i ∈ m.available := by
          rw [ha, List.mem_cons]
          constructor
          · intro h; exact Or.inr h
          · rintro (h | h)
            · exact absurd h.symm hai
            · exact h
        apply ih _ S (by simpa using hi) _ _ hpos hnot'
        · intro hS
          obtain ⟨hc, hav⟩ := hlt hS
          exact ⟨hget.trans hc, fun h => hav (hmem.1 h)⟩
        · intro hS
          obtain ⟨⟨ttl, hc, hle⟩, hav⟩ := hge hS
          exact ⟨⟨ttl, hget.trans hc, hle⟩, hmem.2 hav⟩

/-- What `play` does when a slot is available, under the representation
invariant: the lowest available slot `i` is claimed. -/
theorem OneShotAudioManager.play_claims (m : OneShotAudioManager) (hw : m.WF)
    (hne : m.available ≠ []) :
    ∃ i, m.play.2 = some i ∧ i ∈ m.available ∧ (∀ j ∈ m.available, i ≤ j) ∧
      i < m.container.length ∧
      (∀ j, j ∈ m.play.1.available ↔ (j ∈ m.available ∧ j ≠ i)) ∧
      m.play.1.container.get? i = some 2 ∧
      (∀ j, j ≠ i → m.play.1.container.get? j = m.container.get? j) := by
  cases ha : m.available with
  | nil => exact absurd ha hne
  | cons a rest =>
    obtain ⟨hs, hb⟩ := hw
    rw [ha] at hs hb
    obtain ⟨hlt, _⟩ := List.sorted_cons.1 hs
    have hlen := hb a (List.mem_cons_self _ _)
    rw [OneShotAudioManager.play_cons m a rest ha]
    refine ⟨a, rfl, List.mem_cons_self _ _, ?_, hlen, ?_, ?_, ?_⟩
    · intro j hj
      rcases List.mem_cons.1 hj with rfl | hj
      · exact le_refl _
      · exact le_of_lt (hlt j hj)
    · intro j
      simp only [List.mem_cons]
      constructor
      · intro hj
        exact ⟨Or.inr hj, fun h => by
          have := hlt j hj
          omega⟩
      · rintro ⟨h | h, hn⟩
        · exact absurd h hn
        · exact h
    · simp [hlen]
    · intro j hj
      simp only [List.get?_eq_getElem?, List.getElem?_set_ne (Ne.symm hj)]

/-- C16.  Audio slot exhaustion is a no-op: for every manager state in which no
slot is available, `play` returns without starting a playback (no slot is
returned; the call recorded for the game carries no slot) and leaves the
manager - every countdown and the available set - exactly as it was, so that
every later sequence of `update` and `play` calls gives the same states as if
the request had not been made. -/
theorem play_exhausted (m : OneShotAudioManager) (h : m.available = []) :
    m.play.2 = none ∧ m.play.1 = m ∧
    (∀ ops : List AudioOp, m.play.1.exec ops = m.exec ops) ∧
    (∀ (w : World) (se : Sound) (pos : Vec3), w.seManager = m →
      (w.sePlay se pos).seManager = m ∧
      (w.sePlay se pos).calls = w.calls ++ [Event.sePlay se pos none]) := by
  have hp := OneShotAudioManager.play_nil m h
  refine ⟨by rw [hp], by rw [hp], fun ops => by rw [hp], ?_⟩
  intro w se pos hw
  unfold World.sePlay
  rw [hw, hp]
  exact ⟨rfl, rfl⟩

/-- A use of `play_exhausted`: a manager with one slot, after that slot has been
claimed, drops the next request. -/
theorem play_exhausted_witness :
    (OneShotAudioManager.new 1).play.1.available = [] ∧
    (OneShotAudioManager.new 1).play.1.play.2 = none :=
  ⟨rfl, (play_exhausted (OneShotAudioManager.new 1).play.1 rfl).1⟩

/-- C17.  Audio slot claim: for every manager state (a set of valid slot
numbers being available) with at least one available slot, `play` claims the
lowest-numbered available slot `i`: `i` is removed from the available set, its
countdown is set to exactly 2, playback is started on it (the call recorded
for the game carries slot `i`, the sound and the position), and the countdown
and availability of every other slot are unchanged. -/
theorem play_claims_lowest (m : OneShotAudioManager) (hw : m.WF) (hne : m.available ≠ []) :
    ∃ i, m.play.2 = some i ∧ i ∈ m.available ∧ (∀ j ∈ m.available, i ≤ j) ∧
      i ∉ m.play.1.available ∧
      m.play.1.container.get? i = some 2 ∧
      (∀ j, j ≠ i → (j ∈ m.play.1.available ↔ j ∈ m.available) ∧
        m.play.1.container.get? j = m.container.get? j) ∧
      (∀ (w : World) (se : Sound) (pos : Vec3), w.seManager = m →
        (w.sePlay se pos).calls = w.calls ++ [Event.sePlay se pos (some i)]) := by
  obtain ⟨i, h1, h2, h3, _, h5, h6, h7⟩ := OneShotAudioManager.play_claims m hw hne
  refine ⟨i, h1, h2, h3, fun h => ((h5 i).1 h).2 rfl, h6, ?_, ?_⟩
  · intro j hj
    refine ⟨?_, h7 j hj⟩
    rw [h5 j]
    exact ⟨fun h => h.1, fun h => ⟨h, hj⟩⟩
  · intro w se pos hm
    unfold World.sePlay
    rw [hm, h1]

/-- A use of `play_claims_lowest`: in a fresh manager with two slots the claimed
slot is below every available slot, so it is slot 0. -/
theorem play_claims_lowest_witness :
    ∃ i, (OneShotAudioManager.new 2).play.2 = some i ∧ i ≤ 0 := by
  obtain ⟨i, h1, _, h3, _⟩ := play_claims_lowest (OneShotAudioManager.new 2)
    (OneShotAudioManager.new_wf 2) (by simp [OneShotAudioManager.new, List.range_succ])
  exact ⟨i, h1, h3 0 (by simp [OneShotAudioManager.new, List.range_succ])⟩

/-- C18.  Audio slot reclamation: after `play` claims slot `i`, for every
sequence of later calls - `update` calls with positive `dt`, and `play` calls
none of which claims slot `i` again - slot `i` is in the available set after
the sequence if and only if the `dt` of its `update` calls sum to at least 2. -/
theorem slot_reclaimed (m : OneShotAudioManager) (i : Nat) (ops : List AudioOp) (hw : m.WF)
    (hclaim : m.play.2 = some i) (hpos : opPositive ops) (hnot : notClaimed i m.play.1 ops) :
    i ∈ (m.play.1.exec ops).available ↔ 2 ≤ opTime ops := by
  have hne : m.available ≠ [] := by
    intro h
    rw [OneShotAudioManager.play_nil m h] at hclaim
    cases hclaim
  obtain ⟨k, h1, _, _, hlen, h5, h6, _⟩ := OneShotAudioManager.play_claims m hw hne
  have hk : k = i := by
    rw [h1] at hclaim
    exact Option.some.inj hclaim
  subst hk
  have hlen' : k < m.play.1.container.length := by
    cases ha : m.available with
    | nil => exact absurd ha hne
    | cons a rest =>
      rw [OneShotAudioManager.play_cons m a rest ha]
      simpa using hlen
  have h := OneShotAudioManager.slot_run k ops m.play.1 0 hlen'
    (fun _ => ⟨by rw [h6]; norm_num, fun hmem => ((h5 k).1 hmem).2 rfl⟩)
    (fun h2 => absurd h2 (by norm_num)) hpos hnot
  rw [zero_add] at h
  exact h

/-- A use of `slot_reclaimed`: slot 0 of a fresh manager with two slots, claimed
and then updated by 1.5 and 0.5 seconds, is available again. -/
theorem slot_reclaimed_witness :
    (OneShotAudioManager.new 2).play.2 = some 0 ∧
    0 ∈ ((OneShotAudioManager.new 2).play.1.exec
      [AudioOp.update 1.5, AudioOp.update 0.5]).available :=
  ⟨rfl,
   (slot_reclaimed (OneShotAudioManager.new 2) 0 [AudioOp.update 1.5, AudioOp.update 0.5]
      (OneShotAudioManager.new_wf 2) rfl
      ⟨by norm_num, by norm_num, trivial⟩ (by simp [notClaimed])).2
      (by norm_num [opTime])⟩

/-! ## The smoothed pose as a function of the newest samples -/

/-- The smoothed pose returned by `smoothCore` when the three slots of the
buffer it returns hold `b0`, `b1`, `b2`: the position is their sum over 3, the
orientation the two blends starting at the returned cursor. -/
theorem smoothCore_pose (L : Lib) (buf : Fin 3 → Option Pose) (idx : Fin 3) (raw : Option Pose)
    (b0 b1 b2 : Pose)
    (h0 : (smoothCore L buf idx raw).1 0 = some b0)
    (h1 : (smoothCore L buf idx raw).1 1 = some b1)
    (h2 : (smoothCore L buf idx raw).1 2 = some b2) :
    (smoothCore L buf idx raw).2.2 = some
      ⟨Vec3.sdiv (((Vec3.zero + b0.pos) + b1.pos) + b2.pos) 3,
       L.slerp
        (L.slerp
          ((fun j : Fin 3 => if j = 0 then b0 else if j = 1 then b1 else b2)
            (smoothCore L buf idx raw).2.1).ori
          ((fun j : Fin 3 => if j = 0 then b0 else if j = 1 then b1 else b2)
            ((smoothCore L buf idx raw).2.1 + 1)).ori (1 / 2))
        ((fun j : Fin 3 => if j = 0 then b0 else if j = 1 then b1 else b2)
          ((smoothCore L buf idx raw).2.1 + 2)).ori (1 / 3)⟩ := by
  cases raw with
  | none =>
    rw [(smoothCore_none L buf idx).1] at h0 h1 h2
    unfold smoothCore
    simp only [h0, h1, h2]
  | some p =>
    rw [(smoothCore_some L buf idx p).1] at h0 h1 h2
    unfold smoothCore
    simp only [h0, h1, h2]

/-- Every buffer holds the newest samples of the empty list of insertions. -/
theorem Recent.nil (buf : Fin 3 → Option Pose) (idx : Fin 3) : Recent buf idx [] := by
  refine ⟨?_, ?_, ?_⟩
  · intro qs c h; simp at h
  · intro qs b c h; simp at h
  · intro qs a b c h; simp at h

/-- One insertion at the cursor keeps the newest samples in the slots before
the advanced cursor. -/
theorem Recent.push (buf : Fin 3 → Option Pose) (idx : Fin 3) (ps : List Pose) (d : Pose)
    (h : Recent buf idx ps) :
    Recent (Function.update buf idx (some d)) (idx + 1) (ps ++ [d]) := by
  obtain ⟨h1, h2, h3⟩ := h
  have e1 : ∀ k : Fin 3, k + 1 + 2 = k := by decide
  have e2 : ∀ k : Fin 3, k + 1 + 1 = k + 2 := by decide
  have n1 : ∀ k : Fin 3, k + 1 ≠ k := by decide
  have n2 : ∀ k : Fin 3, k + 2 ≠ k := by decide
  refine ⟨?_, ?_, ?_⟩
  · intro qs c hc
    obtain ⟨_, hd⟩ := List.append_inj' hc rfl
    rw [e1, Function.update_same]
    simp only [List.cons.injEq, and_true] at hd
    rw [hd]
  · intro qs b c hc
    have hc' : ps ++ [d] = (qs ++ [b]) ++ [c] := by rw [hc]; simp
    obtain ⟨hps, _⟩ := List.append_inj' hc' rfl
    rw [e2, Function.update_noteq (n2 idx)]
    exact h1 qs b hps
  · intro qs a b c hc
    have hc' : ps ++ [d] = (qs ++ [a, b]) ++ [c] := by rw [hc]; simp
    obtain ⟨hps, _⟩ := List.append_inj' hc' rfl
    rw [Function.update_noteq (n1 idx)]
    exact h2 qs a b hps

/-- Along a run of initialised ticks the ring buffer of hand `i` holds the
newest of the samples inserted so far. -/
theorem run_recent (L : Lib) (i : Fin 2) (ds : List GameData) :
    ∀ (w : World) (ps : List Pose), w.initialized = true →
      Recent (w.handPoseBuf i) (w.handPoseBufIndex i) ps →
      (run L w ds).initialized = true ∧
      Recent ((run L w ds).handPoseBuf i) ((run L w ds).handPoseBufIndex i)
        (ps ++ rawSamples i ds) := by
  induction ds with
  | nil =>
    intro w ps hi h
    simp only [rawSamples, List.filterMap_nil, List.append_nil]
    exact ⟨hi, h⟩
  | cons d ds ih =>
    intro w ps hi h
    have hstep := proc_hand L w d i hi
    have hb : (proc L w d).handPoseBuf i
        = (smoothCore L (w.handPoseBuf i) (w.handPoseBufIndex i) (d.handPoses i)).1 :=
      congrArg Prod.fst hstep
    have hx : (proc L w d).handPoseBufIndex i
        = (smoothCore L (w.handPoseBuf i) (w.handPoseBufIndex i) (d.handPoses i)).2.1 :=
      congrArg (fun x => x.2.1) hstep
    have hrun : run L w (d :: ds) = run L (proc L w d) ds := rfl
    rw [hrun]
    cases hr : d.handPoses i with
    | none =>
      have hraw : rawSamples i (d :: ds) = rawSamples i ds := by
        simp [rawSamples, hr]
      rw [hraw]
      apply ih (proc L w d) ps (proc_initialized L w d hi)
      rw [hb, hx, hr, (smoothCore_none L _ _).1, (smoothCore_none L _ _).2]
      exact h
    | some p =>
      have hraw : ps ++ rawSamples i (d :: ds) = (ps ++ [p]) ++ rawSamples i ds := by
        simp [rawSamples, hr]
      rw [hraw]
      apply ih (proc L w d) (ps ++ [p]) (proc_initialized L w d hi)
      rw [hb, hx, hr, (smoothCore_some L _ _ p).1, (smoothCore_some L _ _ p).2]
      exact h.push _ _ _ p

/-- The smoothed pose after an initialised tick, when the three newest samples
in the ring buffer after the tick are `a`, `b`, `c` (oldest first): the
position is their mean and the orientation is the blend of `a` with `b` at
1/2, blended with `c` at 1/3. -/
theorem proc_pose_recent (L : Lib) (w : World) (dat : GameData) (i : Fin 2)
    (qs : List Pose) (a b c : Pose) (hinit : w.initialized = true)
    (h : Recent ((proc L w dat).handPoseBuf i) ((proc L w dat).handPoseBufIndex i)
      (qs ++ [a, b, c])) :
    (proc L w dat).handPose i = some
      ⟨Vec3.sdiv (a.pos + b.pos + c.pos) 3,
       L.slerp (L.slerp a.ori b.ori (1 / 2)) c.ori (1 / 3)⟩ := by
  have hstep := proc_hand L w dat i hinit
  have hb : (proc L w dat).handPoseBuf i
      = (smoothCore L (w.handPoseBuf i) (w.handPoseBufIndex i) (dat.handPoses i)).1 :=
    congrArg Prod.fst hstep
  have hx : (proc L w dat).handPoseBufIndex i
      = (smoothCore L (w.handPoseBuf i) (w.handPoseBufIndex i) (dat.handPoses i)).2.1 :=
    congrArg (fun x => x.2.1) hstep
  have hp : (proc L w dat).handPose i
      = (smoothCore L (w.handPoseBuf i) (w.handPoseBufIndex i) (dat.handPoses i)).2.2 :=
    congrArg (fun x => x.2.2) hstep
  obtain ⟨h1, h2, h3⟩ := h
  have hc := h1 (qs ++ [a, b]) c (by simp)
  have hbb := h2 (qs ++ [a]) b c (by simp)
  have ha := h3 qs a b c rfl
  rw [hb, hx] at hc hbb ha
  rw [hp]
  have hsum : ∀ x y z : Vec3,
      Vec3.sdiv (((Vec3.zero + x) + y) + z) 3 = Vec3.sdiv (x + y + z) 3 := by
    intro x y z
    simp [Vec3.sdiv, Vec3.add_def, Vec3.zero]
  have hperm1 : ∀ x y z : Vec3, Vec3.sdiv (z + x + y) 3 = Vec3.sdiv (x + y + z) 3 := by
    intro x y z
    simp only [Vec3.sdiv, Vec3.add_def, Vec3.mk.injEq]
    refine ⟨by ring, by ring, by ring⟩
  have hperm2 : ∀ x y z : Vec3, Vec3.sdiv (y + z + x) 3 = Vec3.sdiv (x + y + z) 3 := by
    intro x y z
    simp only [Vec3.sdiv, Vec3.add_def, Vec3.mk.injEq]
    refine ⟨by ring, by ring, by ring⟩
  generalize hk : (smoothCore L (w.handPoseBuf i) (w.handPoseBufIndex i)
    (dat.handPoses i)).2.1 = k at hc hbb ha
  have e0 : (0 : Fin 3) + 1 = 1 := rfl
  have e1 : (0 : Fin 3) + 2 = 2 := rfl
  have e2 : (1 : Fin 3) + 1 = 2 := rfl
  have e3 : (1 : Fin 3) + 2 = 0 := rfl
  have e4 : (2 : Fin 3) + 1 = 0 := rfl
  have e5 : (2 : Fin 3) + 2 = 1 := rfl
  fin_cases k
  · simp only [Fin.zero_eta, e0, e1] at hc hbb ha
    rw [smoothCore_pose L _ _ _ a b c ha hbb hc, hk, hsum]
    simp [e0, e1]
  · simp only [Fin.mk_one, e2, e3] at hc hbb ha
    rw [smoothCore_pose L _ _ _ c a b hc ha hbb, hk, hsum, hperm1]
    simp [e2, e3]
  · have h2' : (⟨2, by decide⟩ : Fin 3) = 2 := rfl
    simp only [h2', e4, e5] at hc hbb ha
    rw [smoothCore_pose L _ _ _ b c a hbb hc ha, hk, hsum, hperm2]
    simp [e4, e5]

/-- The smoothed pose after a non-empty run of initialised ticks whose inputs
supplied, for hand `i`, samples ending in `a`, `b`, `c`. -/
theorem run_pose_recent (L : Lib) (w : World) (i : Fin 2) (ds : List GameData)
    (qs : List Pose) (a b c : Pose) (hinit : w.initialized = true) (hne : ds ≠ [])
    (hs : rawSamples i ds = qs ++ [a, b, c]) :
    (run L w ds).handPose i = some
      ⟨Vec3.sdiv (a.pos + b.pos + c.pos) 3,
       L.slerp (L.slerp a.ori b.ori (1 / 2)) c.ori (1 / 3)⟩ := by
  obtain ⟨ds', d, rfl⟩ : ∃ ds' d, ds = ds' ++ [d] :=
    ⟨ds.dropLast, ds.getLast hne, (List.dropLast_append_getLast hne).symm⟩
  have hrun : run L w (ds' ++ [d]) = proc L (run L w ds') d := by
    rw [run_append]; rfl
  have hrec := (run_recent L i (ds' ++ [d]) w [] hinit (Recent.nil _ _)).2
  rw [List.nil_append, hs, hrun] at hrec
  rw [hrun]
  exact proc_pose_recent L _ d i qs a b c
    (run_recent L i ds' w [] hinit (Recent.nil _ _)).1 hrec

/-- C11.  Smoothed position is the mean of the newest three samples: for every
non-empty run of initialised ticks whose inputs supplied at least three raw
samples for hand `i`, the last three being `a`, `b`, `c` (each insertion
overwriting the oldest slot), the smoothed pose after the run is present and
its position is `(a.pos + b.pos + c.pos) / 3`, whatever the ring buffer held
before the run. -/
theorem smoothed_position_mean (L : Lib) (w : World) (i : Fin 2) (ds : List GameData)
    (qs : List Pose) (a b c : Pose) (hinit : w.initialized = true) (hne : ds ≠ [])
    (hs : rawSamples i ds = qs ++ [a, b, c]) :
    ∃ hp : Pose, (run L w ds).handPose i = some hp ∧
      hp.pos = Vec3.sdiv (a.pos + b.pos + c.pos) 3 :=
  ⟨_, run_pose_recent L w i ds qs a b c hinit hne hs, rfl⟩

/-- A use of `smoothed_position_mean`: from start-up, three ticks supplying the
positions `(0,0,0)`, `(3,0,0)`, `(0,6,0)` for hand 0 give the smoothed position
`(1,2,0)`. -/
theorem smoothed_position_mean_witness :
    ∃ hp : Pose,
      (run Lib.sample World.ready
        [GameData.sample 1 (fun _ => false) (fun _ => some ⟨⟨0, 0, 0⟩, Quat.identity⟩),
         GameData.sample 1 (fun _ => false) (fun _ => some ⟨⟨3, 0, 0⟩, Quat.identity⟩),
         GameData.sample 1 (fun _ => false)
          (fun _ => some ⟨⟨0, 6, 0⟩, Quat.identity⟩)]).handPose 0 = some hp ∧
      hp.pos = ⟨1, 2, 0⟩ := by
  obtain ⟨hp, h1, h2⟩ := smoothed_position_mean Lib.sample World.ready 0
    [GameData.sample 1 (fun _ => false) (fun _ => some ⟨⟨0, 0, 0⟩, Quat.identity⟩),
     GameData.sample 1 (fun _ => false) (fun _ => some ⟨⟨3, 0, 0⟩, Quat.identity⟩),
     GameData.sample 1 (fun _ => false) (fun _ => some ⟨⟨0, 6, 0⟩, Quat.identity⟩)]
    [] ⟨⟨0, 0, 0⟩, Quat.identity⟩ ⟨⟨3, 0, 0⟩, Quat.identity⟩ ⟨⟨0, 6, 0⟩, Quat.identity⟩
    rfl (List.cons_ne_nil _ _) rfl
  refine ⟨hp, h1, ?_⟩
  rw [h2]
  norm_num [Vec3.sdiv, Vec3.add_def]

/-- An initialised tick whose input has no raw pose for hand `i` leaves the
ring buffer and the write cursor of that hand as they were, and its smoothed
pose is present exactly when every slot of the buffer is filled. -/
theorem proc_absent (L : Lib) (w : World) (dat : GameData) (i : Fin 2)
    (hinit : w.initialized = true) (hraw : dat.handPoses i = none) :
    (proc L w dat).handPoseBuf i = w.handPoseBuf i ∧
    (proc L w dat).handPoseBufIndex i = w.handPoseBufIndex i ∧
    (((proc L w dat).handPose i).isSome = true ↔
      ∀ j : Fin 3, (w.handPoseBuf i j).isSome = true) := by
  have hstep := proc_hand L w dat i hinit
  rw [hraw] at hstep
  have hb : (proc L w dat).handPoseBuf i
      = (smoothCore L (w.handPoseBuf i) (w.handPoseBufIndex i) none).1 :=
    congrArg Prod.fst hstep
  have hx : (proc L w dat).handPoseBufIndex i
      = (smoothCore L (w.handPoseBuf i) (w.handPoseBufIndex i) none).2.1 :=
    congrArg (fun x => x.2.1) hstep
  have hp : (proc L w dat).handPose i
      = (smoothCore L (w.handPoseBuf i) (w.handPoseBufIndex i) none).2.2 :=
    congrArg (fun x => x.2.2) hstep
  obtain ⟨n1, n2⟩ := smoothCore_none L (w.handPoseBuf i) (w.handPoseBufIndex i)
  refine ⟨hb.trans n1, hx.trans n2, ?_⟩
  rw [hp, smoothCore_isSome, n1]

/-- C12, as the code has it.  For every initialised tick in which the raw pose
of hand `i` is absent from the input, the ring buffer of hand `i` is left
unchanged and the smoothed pose of hand `i` after the tick is absent if and only
if some slot of the ring buffer has never been written; when the ring buffer
had been completely filled by earlier ticks, the smoothed pose stays present. -/
theorem absent_raw_pose (L : Lib) (w : World) (dat : GameData) (i : Fin 2)
    (hinit : w.initialized = true) (hraw : dat.handPoses i = none) :
    (proc L w dat).handPoseBuf i = w.handPoseBuf i ∧
    ((proc L w dat).handPose i = none ↔ ∃ j : Fin 3, w.handPoseBuf i j = none) ∧
    ((∀ j : Fin 3, (w.handPoseBuf i j).isSome = true) →
      ((proc L w dat).handPose i).isSome = true) := by
  obtain ⟨h1, _, h3⟩ := proc_absent L w dat i hinit hraw
  refine ⟨h1, ?_, h3.2⟩
  constructor
  · intro hn
    by_contra hex
    push_neg at hex
    have hall : ∀ j : Fin 3, (w.handPoseBuf i j).isSome = true := by
      intro j
      cases hj : w.handPoseBuf i j with
      | none => exact absurd hj (hex j)
      | some p => rfl
    have := h3.2 hall
    rw [hn] at this
    cases this
  · rintro ⟨j, hj⟩
    cases hp : (proc L w dat).handPose i with
    | none => rfl
    | some p =>
      have := h3.1 (by rw [hp]; rfl) j
      rw [hj] at this
      cases this

/-- After the three ticks of the held-trigger run, a tick whose input has no
raw pose for hand 0 still reports a smoothed pose for it. -/
theorem held_then_absent :
    ((proc Lib.sample
      (run Lib.sample World.ready [GameData.held, GameData.held, GameData.held])
      (GameData.sample 1 (fun _ => false) (fun _ => none))).handPose 0).isSome = true := by
  have hfull := (BufInv.full_iff _ _ 3 (held_buffers 0).1).2 (le_refl 3)
  exact (proc_absent Lib.sample _ (GameData.sample 1 (fun _ => false) (fun _ => none)) 0
    held_run_starts.1 rfl).2.2.2 hfull

/-- C12, the claim as written fails.  After three ticks that each supplied a
raw pose for hand 0 (the ring buffer is full), a tick whose input has no raw
pose for hand 0 leaves the smoothed pose of hand 0 present. -/
theorem absence_does_not_propagate :
    (GameData.sample 1 (fun _ => false) (fun _ => none)).handPoses 0 = none ∧
    ((proc Lib.sample
      (run Lib.sample World.ready [GameData.held, GameData.held, GameData.held])
      (GameData.sample 1 (fun _ => false) (fun _ => none))).handPose 0).isSome = true :=
  ⟨rfl, held_then_absent⟩

/-- A use of `absent_raw_pose`: the first tick after start-up, with no raw pose,
reports no smoothed pose for hand 0, the ring buffer being empty. -/
theorem absent_raw_pose_witness :
    (proc Lib.sample World.ready
      (GameData.sample 1 (fun _ => false) (fun _ => none))).handPose 0 = none :=
  (absent_raw_pose Lib.sample World.ready
    (GameData.sample 1 (fun _ => false) (fun _ => none)) 0 rfl rfl).2.1.2 ⟨0, rfl⟩

/-! ## The entity collections -/

/-- The case of `proc_main` that an initialised tick runs, by the scene before
the tick. -/
theorem proc_main_case (L : Lib) (w : World) (dat : GameData) :
    (w.scene = Scene.Title →
      proc_main L (w.begin dat) dat = sceneTitle dat (preScene L (w.begin dat) dat)) ∧
    (w.scene = Scene.MainGame →
      proc_main L (w.begin dat) dat = sceneMainGame L dat (preScene L (w.begin dat) dat)) ∧
    (w.scene = Scene.ScoreResult →
      proc_main L (w.begin dat) dat
        = sceneScoreResult L dat (preScene L (w.begin dat) dat)) := by
  have hs : (preScene L (w.begin dat) dat).scene = w.scene :=
    congrArg Clock.scene (preScene_clock L (w.begin dat) dat)
  refine ⟨?_, ?_, ?_⟩ <;>
  · intro h
    unfold proc_main
    dsimp only
    rw [hs, h]

/-- The update of the audio manager at the end of a tick does not touch the
entity collections. -/
theorem proc_stock (L : Lib) (w : World) (dat : GameData) (hinit : w.initialized = true) :
    (proc L w dat).stock = (proc_main L (w.begin dat) dat).stock := by
  rw [proc_of_initialized L w dat hinit]
  rfl

/-- The part of `proc_main` before the scene switch leaves the entity
collections, the spawn timer, the stored input and `upperVec` unchanged. -/
theorem preScene_stock (L : Lib) (w : World) (dat : GameData) :
    (preScene L w dat).stock = w.stock ∧ (preScene L w dat).gameDat = w.gameDat ∧
    (preScene L w dat).upperVec = w.upperVec := by
  have h := preScene_rest L w dat
  refine ⟨?_, congrArg Rest.gameDat h, congrArg Rest.upperVec h⟩
  unfold World.stock
  rw [show (preScene L w dat).targets = w.targets from congrArg Rest.targets h,
    show (preScene L w dat).scoreEffects = w.scoreEffects from congrArg Rest.scoreEffects h,
    show (preScene L w dat).boomEffects = w.boomEffects from congrArg Rest.boomEffects h,
    show (preScene L w dat).tgtTimer = w.tgtTimer from congrArg Rest.tgtTimer h]

/-- The hand loop body of the Title scene does not touch the entity
collections. -/
theorem titleHand_stock (dat : GameData) (st : World × Bool) (i : Fin 2) :
    (titleHand dat st i).1.stock = st.1.stock := by
  unfold titleHand
  dsimp only
  split_ifs <;> (repeat' split) <;> rfl

/-- The Title scene code does not touch the entity collections. -/
theorem sceneTitle_stock (dat : GameData) (w : World) : (sceneTitle dat w).stock = w.stock := by
  have h : (titleHand dat (titleHand dat ({ w with gsSelected := false }, false) 0) 1).1.stock
      = w.stock := by
    rw [titleHand_stock, titleHand_stock]
    rfl
  unfold sceneTitle
  dsimp only
  split_ifs
  · exact h
  · exact h

/-- An initialised tick in the Title scene leaves the three entity collections
and the spawn timer as they were. -/
theorem proc_title_stock (L : Lib) (w : World) (dat : GameData)
    (hinit : w.initialized = true) (hscene : w.scene = Scene.Title) :
    (proc L w dat).stock = w.stock := by
  rw [proc_stock L w dat hinit, (proc_main_case L w dat).1 hscene, sceneTitle_stock,
    (preScene_stock L _ dat).1]
  rfl

/-- The entity collections after the update-and-erase step. -/
theorem entityStep_stock (L : Lib) (w : World) :
    (entityStep L w).stock =
      ((w.targets.map (fun t => t.proc L w.gameDat.dt)).filter (fun t => t.alive),
       (w.scoreEffects.map (fun e => e.proc w.upperVec w.gameDat.dt)).filter (fun e => e.alive),
       (w.boomEffects.map (fun e => e.proc w.gameDat.dt)).filter (fun e => e.alive),
       w.tgtTimer) := rfl

@[simp] theorem sePlay_stock (w : World) (se : Sound) (p : Vec3) :
    (w.sePlay se p).stock = w.stock := rfl

@[simp] theorem cueStep_stock (dat : GameData) (w : World) (i : Nat) :
    (cueStep dat w i).stock = w.stock := by
  unfold cueStep; split_ifs <;> rfl

/-- The entity collections after the ScoreResult scene code are those left by
its update-and-erase step. -/
theorem sceneScoreResult_stock (L : Lib) (dat : GameData) (w : World) :
    (sceneScoreResult L dat w).stock
      = (entityStep L { w with gameTimer := w.gameTimer - dat.dt }).stock := by
  unfold sceneScoreResult
  dsimp only
  split_ifs <;> rfl

/-- The entity collections after the MainGame scene code are those left by its
update-and-erase step, run after the hand loop and the spawn step. -/
theorem sceneMainGame_stock (L : Lib) (dat : GameData) (w : World) :
    (sceneMainGame L dat w).stock
      = (entityStep L (spawnStep L
          (mainGameHand L (mainGameHand L { w with gameTimer := w.gameTimer - dat.dt } 0) 1))).stock := by
  unfold sceneMainGame
  dsimp only
  rw [foldl_preserves (cueStep dat) World.stock (fun a b => cueStep_stock dat a b)]
  split_ifs
  · rfl
  · rfl

/-- The entity collections after an initialised ScoreResult tick: every target,
score effect and boom effect is advanced by `dat.dt`, then the dead ones are
erased. -/
theorem proc_scoreResult_stock (L : Lib) (w : World) (dat : GameData)
    (hinit : w.initialized = true) (hscene : w.scene = Scene.ScoreResult) :
    (proc L w dat).stock =
      ((w.targets.map (fun t => t.proc L dat.dt)).filter (fun t => t.alive),
       (w.scoreEffects.map (fun e => e.proc w.upperVec dat.dt)).filter (fun e => e.alive),
       (w.boomEffects.map (fun e => e.proc dat.dt)).filter (fun e => e.alive),
       w.tgtTimer) := by
  obtain ⟨h1, h2, h3⟩ := preScene_stock L (w.begin dat) dat
  have h1' : (preScene L (w.begin dat) dat).stock = w.stock := h1
  have h2' : (preScene L (w.begin dat) dat).gameDat = dat := h2
  have h3' : (preScene L (w.begin dat) dat).upperVec = w.upperVec := h3
  rw [proc_stock L w dat hinit, (proc_main_case L w dat).2.2 hscene, sceneScoreResult_stock,
    entityStep_stock]
  simp only [World.stock, Prod.mk.injEq] at h1'
  obtain ⟨a, b, c, d⟩ := h1'
  dsimp only
  rw [a, b, c, d, h2', h3']

/-- The entity collections after an initialised MainGame tick: every target,
score effect and boom effect left by the hand loop and the spawn step is
advanced by `dat.dt`, then the dead ones are erased. -/
theorem proc_mainGame_stock (L : Lib) (w : World) (dat : GameData)
    (hinit : w.initialized = true) (hscene : w.scene = Scene.MainGame) :
    (proc L w dat).stock =
      (((spawnStep L (shotWorld L w dat)).targets.map
          (fun t => t.proc L dat.dt)).filter (fun t => t.alive),
       ((spawnStep L (shotWorld L w dat)).scoreEffects.map
          (fun e => e.proc w.upperVec dat.dt)).filter (fun e => e.alive),
       ((spawnStep L (shotWorld L w dat)).boomEffects.map
          (fun e => e.proc dat.dt)).filter (fun e => e.alive),
       (spawnStep L (shotWorld L w dat)).tgtTimer) := by
  have hfix : (spawnStep L (shotWorld L w dat)).fixed = (preScene L (w.begin dat) dat).fixed := by
    unfold shotWorld handsWorld
    simp only [spawnStep_fixed, mainGameHand_fixed]
    rfl
  have hg : (spawnStep L (shotWorld L w dat)).gameDat = dat :=
    (congrArg Fixed.gameDat hfix).trans (preScene_stock L (w.begin dat) dat).2.1
  have hu : (spawnStep L (shotWorld L w dat)).upperVec = w.upperVec :=
    (congrArg Fixed.upperVec hfix).trans (preScene_stock L (w.begin dat) dat).2.2
  rw [proc_stock L w dat hinit, (proc_main_case L w dat).2.1 hscene, sceneMainGame_stock]
  show (entityStep L (spawnStep L (shotWorld L w dat))).stock = _
  rw [entityStep_stock, hg, hu]

/-- Marking the target at index `k` dead leaves the targets at the other
indices as they were. -/
theorem setDead_other (ts : List Target) (k j : Nat) (h : j ≠ k) :
    (setDead ts k)[j]? = ts[j]? := by
  induction ts generalizing k j with
  | nil => rfl
  | cons t ts ih =>
    cases k with
    | zero =>
      cases j with
      | zero => exact absurd rfl h
      | succ j => simp only [setDead, List.getElem?_cons_succ]
    | succ k =>
      cases j with
      | zero => simp only [setDead, List.getElem?_cons_zero]
      | succ j =>
        simp only [setDead, List.getElem?_cons_succ]
        exact ih k j (fun e => h (by rw [e]))

/-- A hand without a smoothed pose shoots nothing. -/
theorem shotIndex_no_pose (w : World) (i : Fin 2) (h : w.handPose i = none) :
    shotIndex w i = none := by
  unfold shotIndex
  rw [h]

/-- The hand loop body of the MainGame scene changes no target other than the
one it shoots. -/
theorem mainGameHand_targets (L : Lib) (w : World) (i : Fin 2) (j : Nat)
    (h : shotIndex w i ≠ some j) : (mainGameHand L w i).targets[j]? = w.targets[j]? := by
  cases hp : w.handPose i with
  | none => rw [mainGameHand_no_pose L w i hp]
  | some p =>
    rw [mainGameHand_of_pose L w i p hp]
    unfold shotIndex at h
    rw [hp] at h
    dsimp only at h
    have key : ∀ v : World, v.targets = w.targets → v.gameDat = w.gameDat →
        (applyHit L v i (lockOf w i p)).targets[j]? = w.targets[j]? := by
      intro v hvt hvg
      cases hl : (lockOf w i p).lockedon with
      | none => rw [applyHit_idle L v i _ (Or.inl hl), hvt]
      | some kh =>
        obtain ⟨k, hit⟩ := kh
        rw [hl] at h
        dsimp only at h
        cases ht : w.gameDat.trigger i with
        | false => rw [applyHit_idle L v i _ (Or.inr (by rw [hvg]; exact ht)), hvt]
        | true =>
          rw [ht] at h
          simp only [if_true, ne_eq, Option.some.injEq] at h
          rw [(applyHit_scores L v i _ k hit hl (by rw [hvg]; exact ht)).2.2.1, hvt]
          exact setDead_other _ k j (fun e => h e.symm)
    exact key _ rfl rfl

/-- The spawn step keeps every target and appends a new one exactly when the
spawn timer runs out. -/
theorem spawnStep_targets (L : Lib) (w : World) :
    (spawnStep L w).targets = w.targets ++
      (if w.tgtTimer - w.gameDat.dt ≤ 0 then
        [Target.new L w.sightBase w.stagePose w.upperVec w.rightVec w.fwdVec
          (L.rand w.randCount) (L.rand (w.randCount + 1)) (L.rand (w.randCount + 2))]
       else []) := by
  unfold spawnStep
  dsimp only
  split_ifs
  · rfl
  · exact (List.append_nil _).symm

/-- The targets after an initialised MainGame or ScoreResult tick are updated
targets that are alive. -/
theorem proc_targets_alive (L : Lib) (w : World) (dat : GameData)
    (hinit : w.initialized = true)
    (hscene : w.scene = Scene.MainGame ∨ w.scene = Scene.ScoreResult) :
    ∀ t' ∈ (proc L w dat).targets, t'.alive = true ∧ ∃ t : Target, t.timer < 7 ∧ t' = t.proc L dat.dt := by
  have key : ∀ (ts : List Target),
      ∀ t' ∈ (ts.map (fun t => t.proc L dat.dt)).filter (fun t => t.alive),
        t'.alive = true ∧ ∃ t : Target, t.timer < 7 ∧ t' = t.proc L dat.dt := by
    intro ts t' ht'
    obtain ⟨hm, ha⟩ := List.mem_filter.1 ht'
    obtain ⟨t, _, rfl⟩ := List.mem_map.1 hm
    refine ⟨ha, t, ?_, rfl⟩
    by_contra hge
    rw [Target.proc_alive, if_neg hge] at ha
    cases ha
  rcases hscene with hs | hs
  · have h := congrArg Prod.fst (proc_mainGame_stock L w dat hinit hs)
    have h' : (proc L w dat).targets = _ := h
    rw [h']
    exact key _
  · have h := congrArg Prod.fst (proc_scoreResult_stock L w dat hinit hs)
    have h' : (proc L w dat).targets = _ := h
    rw [h']
    exact key _

/-- A live target younger than 7 seconds that no hand shoots is kept, updated,
by an initialised MainGame or ScoreResult tick. -/
theorem proc_targets_keep (L : Lib) (w : World) (dat : GameData)
    (hinit : w.initialized = true)
    (hscene : w.scene = Scene.MainGame ∨ w.scene = Scene.ScoreResult)
    (k : Nat) (t : Target) (hk : w.targets[k]? = some t) (ha : t.alive = true)
    (ht : t.timer < 7)
    (hshot : w.scene = Scene.MainGame → ∀ i, shotIndex (handWorld L w dat i) i ≠ some k) :
    t.proc L dat.dt ∈ (proc L w dat).targets := by
  have key : ∀ (ts : List Target), t ∈ ts →
      t.proc L dat.dt ∈ (ts.map (fun t => t.proc L dat.dt)).filter (fun t => t.alive) := by
    intro ts hmem
    refine List.mem_filter.2 ⟨List.mem_map.2 ⟨t, hmem, rfl⟩, ?_⟩
    rw [Target.proc_alive, if_pos ht]
    exact ha
  rcases hscene with hs | hs
  · have h := congrArg Prod.fst (proc_mainGame_stock L w dat hinit hs)
    have h' : (proc L w dat).targets = _ := h
    rw [h']
    apply key
    rw [spawnStep_targets]
    apply List.mem_append_left
    have h0 : handWorld L w dat 0 = handsWorld L w dat := rfl
    have h1 : handWorld L w dat 1 = mainGameHand L (handsWorld L w dat) 0 := rfl
    have e1 := mainGameHand_targets L (handWorld L w dat 1) 1 k (hshot hs 1)
    have e0 := mainGameHand_targets L (handWorld L w dat 0) 0 k (hshot hs 0)
    rw [h1] at e1
    rw [h0] at e0
    have hget : (shotWorld L w dat).targets[k]? = some t := by
      unfold shotWorld
      rw [e1, e0, (handsWorld_fields L w dat hinit).2.2.2.1]
      exact hk
    exact List.getElem?_mem hget
  · have h := congrArg Prod.fst (proc_scoreResult_stock L w dat hinit hs)
    have h' : (proc L w dat).targets = _ := h
    rw [h']
    exact key _ (List.getElem?_mem hk)

/-- C14.  Target death and removal.  `Target::proc` sets `alive = false`
exactly when it is called with `timer >= 7` and leaves `alive` as it is when
`timer < 7`.  Consequently, after every initialised MainGame or ScoreResult
tick, every target of the collection is alive and is the update of a target
whose timer before the tick was below 7 (none whose timer was `>= 7` is left),
and the collection still contains the update of every live target of the
collection before the tick whose timer was below 7 and that no hand shot in
the tick (in MainGame: whose index is not the one either hand marks dead). -/
theorem target_removal (L : Lib) (w : World) (dat : GameData)
    (hinit : w.initialized = true)
    (hscene : w.scene = Scene.MainGame ∨ w.scene = Scene.ScoreResult) :
    (∀ (t : Target) (dt : ℚ), (t.proc L dt).alive = (if t.timer < 7 then t.alive else false)) ∧
    (∀ t' ∈ (proc L w dat).targets,
      t'.alive = true ∧ ∃ t : Target, t.timer < 7 ∧ t' = t.proc L dat.dt) ∧
    (∀ (k : Nat) (t : Target), w.targets[k]? = some t → t.alive = true → t.timer < 7 →
      (w.scene = Scene.MainGame → ∀ i, shotIndex (handWorld L w dat i) i ≠ some k) →
      t.proc L dat.dt ∈ (proc L w dat).targets) :=
  ⟨fun t dt => Target.proc_alive L t dt, proc_targets_alive L w dat hinit hscene,
    fun k t hk ha ht hshot => proc_targets_keep L w dat hinit hscene k t hk ha ht hshot⟩

/-- In the tick `proc Lib.sample World.range GameData.blind` no hand has a
smoothed pose, so no hand shoots. -/
theorem range_no_shot (i : Fin 2) (k : Nat) :
    shotIndex (handWorld Lib.sample World.range GameData.blind i) i ≠ some k := by
  have hp : (proc Lib.sample World.range GameData.blind).handPose i = none := by
    cases h : (proc Lib.sample World.range GameData.blind).handPose i with
    | none => rfl
    | some p =>
      have := (proc_absent Lib.sample World.range GameData.blind i rfl rfl).2.2.1
        (by rw [h]; rfl) 0
      cases this
  rw [shotIndex_no_pose _ i
    (by rw [(handWorld_fields Lib.sample World.range GameData.blind i rfl).2.2]; exact hp)]
  exact Option.noConfusion

/-- A use of `target_removal`: in a MainGame tick in which no hand is tracked,
the target `Target.sample` (alive, 3 seconds old) is kept, updated. -/
theorem target_removal_witness :
    Target.sample.proc Lib.sample GameData.blind.dt
      ∈ (proc Lib.sample World.range GameData.blind).targets :=
  (target_removal Lib.sample World.range GameData.blind rfl (Or.inl rfl)).2.2 0 Target.sample
    rfl rfl (by norm_num [Target.sample, Target.resting]) (fun _ i => range_no_shot i 0)

/-- The scoring of a hand does not touch the spawn timer. -/
theorem applyHit_tgtTimer (L : Lib) (w : World) (i : Fin 2) (s : LockState) :
    (applyHit L w i s).tgtTimer = w.tgtTimer := by
  have hb : ∀ (p : Vec3) (v : World), (addBooms L p v).tgtTimer = v.tgtTimer := fun p v =>
    foldl_preserves (fun v (_ : Nat) => addBoom L p v) World.tgtTimer (fun _ _ => rfl)
      (List.range 10) v
  unfold applyHit
  split
  · split_ifs
    · dsimp only
      rw [hb]
      rfl
    · rfl
  · rfl

/-- The hand loop body of the MainGame scene does not touch the spawn timer. -/
theorem mainGameHand_tgtTimer (L : Lib) (w : World) (i : Fin 2) :
    (mainGameHand L w i).tgtTimer = w.tgtTimer := by
  unfold mainGameHand
  split
  · rfl
  · dsimp only
    rw [applyHit_tgtTimer]

/-- The world left by the hand loop of a MainGame tick holds the tick's input
and the spawn timer of before the tick. -/
theorem shotWorld_fields (L : Lib) (w : World) (dat : GameData) :
    (shotWorld L w dat).tgtTimer = w.tgtTimer ∧ (shotWorld L w dat).gameDat = dat := by
  constructor
  · unfold shotWorld
    rw [mainGameHand_tgtTimer, mainGameHand_tgtTimer]
    exact congrArg (fun s => s.2.2.2) (preScene_stock L (w.begin dat) dat).1
  · have hfix : (shotWorld L w dat).fixed = (preScene L (w.begin dat) dat).fixed := by
      unfold shotWorld handsWorld
      simp only [mainGameHand_fixed]
      rfl
    exact (congrArg Fixed.gameDat hfix).trans (preScene_stock L (w.begin dat) dat).2.1

/-- The spawn timer after an initialised MainGame tick. -/
theorem proc_mainGame_tgtTimer (L : Lib) (w : World) (dat : GameData)
    (hinit : w.initialized = true) (hscene : w.scene = Scene.MainGame) :
    (proc L w dat).tgtTimer
      = (if w.tgtTimer - dat.dt ≤ 0 then 0.5 else w.tgtTimer - dat.dt) := by
  have h : (proc L w dat).tgtTimer = (spawnStep L (shotWorld L w dat)).tgtTimer :=
    congrArg (fun s => s.2.2.2) (proc_mainGame_stock L w dat hinit hscene)
  obtain ⟨h1, h2⟩ := shotWorld_fields L w dat
  rw [h]
  unfold spawnStep
  dsimp only
  rw [h1, h2]
  split_ifs <;> rfl

/-- An initialised MainGame tick in which the spawn timer runs out leaves a
target created in this tick (timer 0, alive) and updated once. -/
theorem proc_mainGame_spawn (L : Lib) (w : World) (dat : GameData)
    (hinit : w.initialized = true) (hscene : w.scene = Scene.MainGame)
    (h : w.tgtTimer - dat.dt ≤ 0) :
    ∃ t0 : Target, t0.timer = 0 ∧ t0.alive = true ∧
      t0.proc L dat.dt ∈ (proc L w dat).targets := by
  have ht : (proc L w dat).targets = _ :=
    congrArg Prod.fst (proc_mainGame_stock L w dat hinit hscene)
  obtain ⟨h1, h2⟩ := shotWorld_fields L w dat
  refine ⟨Target.new L (shotWorld L w dat).sightBase (shotWorld L w dat).stagePose
    (shotWorld L w dat).upperVec (shotWorld L w dat).rightVec (shotWorld L w dat).fwdVec
    (L.rand (shotWorld L w dat).randCount) (L.rand ((shotWorld L w dat).randCount + 1))
    (L.rand ((shotWorld L w dat).randCount + 2)), rfl, rfl, ?_⟩
  rw [ht, spawnStep_targets, h1, h2, if_pos h]
  refine List.mem_filter.2 ⟨List.mem_map.2 ⟨_, List.mem_append_right _ (List.mem_singleton.2 rfl),
    rfl⟩, ?_⟩
  rw [Target.proc_alive]
  have h0 : (Target.new L (shotWorld L w dat).sightBase (shotWorld L w dat).stagePose
    (shotWorld L w dat).upperVec (shotWorld L w dat).rightVec (shotWorld L w dat).fwdVec
    (L.rand (shotWorld L w dat).randCount) (L.rand ((shotWorld L w dat).randCount + 1))
    (L.rand ((shotWorld L w dat).randCount + 2))).timer = 0 := rfl
  rw [h0, if_pos (by norm_num)]
  rfl

/-- From an initialised MainGame world with game timer 30 and spawn timer 1,
ticks of 29 s, 1 s and 8 s without hand tracking end in the Title scene, with
a target spawned by the second tick still in the collection. -/
theorem run_leaves_target (L : Lib) (w : World) (hinit : w.initialized = true)
    (hscene : w.scene = Scene.MainGame) (hT : w.gameTimer = 30) (hs : w.tgtTimer = 1) :
    (run L w [GameData.wait 29, GameData.wait 1, GameData.wait 8]).initialized = true ∧
    (run L w [GameData.wait 29, GameData.wait 1, GameData.wait 8]).scene = Scene.Title ∧
    (run L w [GameData.wait 29, GameData.wait 1, GameData.wait 8]).targets ≠ [] := by
  have hd : ∀ q : ℚ, (GameData.wait q).dt = q := fun _ => rfl
  have hrun : run L w [GameData.wait 29, GameData.wait 1, GameData.wait 8]
      = proc L (proc L (proc L w (GameData.wait 29)) (GameData.wait 1)) (GameData.wait 8) := rfl
  -- first MainGame tick
  have hi4 := proc_initialized L w (GameData.wait 29) hinit
  have hc4 := proc_mainGame L w (GameData.wait 29) hinit hscene
  rw [hT, hd, if_neg (by norm_num)] at hc4
  have hs4 : (proc L w (GameData.wait 29)).scene = Scene.MainGame := congrArg Clock.scene hc4
  have hT4 : (proc L w (GameData.wait 29)).gameTimer = 30 - 29 := congrArg Clock.gameTimer hc4
  have ht4 := proc_mainGame_tgtTimer L w (GameData.wait 29) hinit hscene
  rw [hs, hd, if_pos (by norm_num)] at ht4
  -- second MainGame tick
  have hi5 := proc_initialized L _ (GameData.wait 1) hi4
  have hc5 := proc_mainGame L _ (GameData.wait 1) hi4 hs4
  rw [hT4, hd, if_pos (by norm_num)] at hc5
  have hs5 : (proc L (proc L w (GameData.wait 29)) (GameData.wait 1)).scene
      = Scene.ScoreResult := congrArg Clock.scene hc5
  have hT5 : (proc L (proc L w (GameData.wait 29)) (GameData.wait 1)).gameTimer = 8 :=
    congrArg Clock.gameTimer hc5
  obtain ⟨t0, h0t, h0a, h0m⟩ := proc_mainGame_spawn L _ (GameData.wait 1) hi4 hs4
    (by rw [ht4, hd]; norm_num)
  -- the ScoreResult tick
  have hi6 := proc_initialized L _ (GameData.wait 8) hi5
  have hc6 := (proc_scoreResult L _ (GameData.wait 8) hi5 hs5).1
  rw [hT5, hd, if_pos (by norm_num)] at hc6
  have ht6 : (proc L (proc L (proc L w (GameData.wait 29)) (GameData.wait 1))
      (GameData.wait 8)).targets = _ :=
    congrArg Prod.fst (proc_scoreResult_stock L _ (GameData.wait 8) hi5 hs5)
  have hmem : (t0.proc L (GameData.wait 1).dt).proc L (GameData.wait 8).dt
      ∈ (proc L (proc L (proc L w (GameData.wait 29)) (GameData.wait 1))
        (GameData.wait 8)).targets := by
    rw [ht6]
    refine List.mem_filter.2 ⟨List.mem_map.2 ⟨_, h0m, rfl⟩, ?_⟩
    rw [Target.proc_alive, Target.proc_timer, Target.proc_alive, h0t, hd,
      if_pos (by norm_num), if_pos (by norm_num)]
    exact h0a
  rw [hrun]
  exact ⟨hi6, hc6, List.ne_nil_of_mem hmem⟩

/-- The first tick of the held-trigger run gives no hand a smoothed pose and
stays in the Title scene. -/
theorem held_first :
    (proc Lib.sample World.ready GameData.held).initialized = true ∧
    (proc Lib.sample World.ready GameData.held).scene = Scene.Title := by
  have hno1 : ∀ i, (proc Lib.sample World.ready GameData.held).handPose i = none := by
    intro i
    have h := (run_bufInv Lib.sample i [GameData.held] World.ready 0 rfl
      (BufInv.empty _ _ (fun _ => rfl) rfl)).2 (List.cons_ne_nil _ _)
    have hs1 : samples i [GameData.held] = 1 := by
      simp [samples, GameData.held, GameData.sample]
    rw [hs1] at h
    cases hp : (proc Lib.sample World.ready GameData.held).handPose i with
    | none => rfl
    | some p =>
      have : ((run Lib.sample World.ready [GameData.held]).handPose i).isSome = true := by
        show ((proc Lib.sample World.ready GameData.held).handPose i).isSome = true
        rw [hp]; rfl
      have := h.1 this
      omega
  exact ⟨proc_initialized Lib.sample World.ready GameData.held rfl,
    proc_title_stay Lib.sample World.ready GameData.held rfl rfl hno1⟩

/-- The three Title ticks of the held-trigger run leave the entity collections
empty and the spawn timer 1, as at start-up. -/
theorem held_stock :
    (run Lib.sample World.ready [GameData.held, GameData.held, GameData.held]).stock
      = ([], [], [], 1) := by
  obtain ⟨hi1, hs1⟩ := held_first
  obtain ⟨hi2, hs2, _⟩ := held_run
  have e1 := proc_title_stock Lib.sample World.ready GameData.held rfl rfl
  have e2 := proc_title_stock Lib.sample _ GameData.held hi1 hs1
  have e3 := proc_title_stock Lib.sample _ GameData.held hi2 hs2
  have e0 : World.ready.stock = ([], [], [], 1) := rfl
  exact e3.trans (e2.trans (e1.trans e0))

/-- The world `World.leftover` is initialised, in the Title scene, and its
target collection is not empty. -/
theorem leftover_facts :
    World.leftover.initialized = true ∧ World.leftover.scene = Scene.Title ∧
    World.leftover.targets ≠ [] := by
  have hrun : World.leftover
      = run Lib.sample
          (run Lib.sample World.ready [GameData.held, GameData.held, GameData.held])
          [GameData.wait 29, GameData.wait 1, GameData.wait 8] := rfl
  rw [hrun]
  exact run_leaves_target Lib.sample _ held_run_starts.1 held_run_starts.2.1
    held_run_starts.2.2.2 (congrArg (fun s => s.2.2.2) held_stock)

/-- C15, as the code has it.  Entities advance in the MainGame and ScoreResult
scenes only.  For every initialised tick in the ScoreResult scene, every
target, score effect and boom effect of the collections has its timer advanced
by `dt` and every entity that is dead after its update is removed; the same
holds in the MainGame scene for the collections as the hand loop and the spawn
step of the tick leave them.  For every initialised tick in the Title scene the
three collections are left exactly as they were: entities left over when the
scene returns to Title do not age and are not pruned during Title ticks. -/
theorem entities_by_scene (L : Lib) (w : World) (dat : GameData)
    (hinit : w.initialized = true) :
    (w.scene = Scene.Title →
      (proc L w dat).targets = w.targets ∧ (proc L w dat).scoreEffects = w.scoreEffects ∧
      (proc L w dat).boomEffects = w.boomEffects) ∧
    (w.scene = Scene.ScoreResult →
      (proc L w dat).targets
        = (w.targets.map (fun t => t.proc L dat.dt)).filter (fun t => t.alive) ∧
      (proc L w dat).scoreEffects
        = (w.scoreEffects.map (fun e => e.proc w.upperVec dat.dt)).filter (fun e => e.alive) ∧
      (proc L w dat).boomEffects
        = (w.boomEffects.map (fun e => e.proc dat.dt)).filter (fun e => e.alive)) ∧
    (w.scene = Scene.MainGame →
      (proc L w dat).targets
        = ((spawnStep L (shotWorld L w dat)).targets.map
            (fun t => t.proc L dat.dt)).filter (fun t => t.alive) ∧
      (proc L w dat).scoreEffects
        = ((spawnStep L (shotWorld L w dat)).scoreEffects.map
            (fun e => e.proc w.upperVec dat.dt)).filter (fun e => e.alive) ∧
      (proc L w dat).boomEffects
        = ((spawnStep L (shotWorld L w dat)).boomEffects.map
            (fun e => e.proc dat.dt)).filter (fun e => e.alive)) ∧
    (∀ (t : Target) (dt : ℚ), (t.proc L dt).timer = t.timer + dt) ∧
    (∀ (e : scoreEffect) (u : Vec3) (dt : ℚ), (e.proc u dt).timer = e.timer + dt) ∧
    (∀ (e : boomEffect) (dt : ℚ), (e.proc dt).timer = e.timer + dt) := by
  refine ⟨fun hs => ?_, fun hs => ?_, fun hs => ?_, fun t dt => Target.proc_timer L t dt,
    fun _ _ _ => rfl, fun _ _ => rfl⟩
  · have h := proc_title_stock L w dat hinit hs
    simp only [World.stock, Prod.mk.injEq] at h
    exact ⟨h.1, h.2.1, h.2.2.1⟩
  · have h := proc_scoreResult_stock L w dat hinit hs
    simp only [World.stock, Prod.mk.injEq] at h
    exact ⟨h.1, h.2.1, h.2.2.1⟩
  · have h := proc_mainGame_stock L w dat hinit hs
    simp only [World.stock, Prod.mk.injEq] at h
    exact ⟨h.1, h.2.1, h.2.2.1⟩

/-- C15, the claim as written fails.  The world `World.leftover`, reached from
start-up by six ticks, is initialised and in the Title scene with a target
left in the collection; a further tick of one second in the Title scene leaves
the target collection exactly as it was: no timer is advanced, nothing is
pruned. -/
theorem title_keeps_entities :
    World.leftover.initialized = true ∧ World.leftover.scene = Scene.Title ∧
    World.leftover.targets ≠ [] ∧ GameData.blind.dt = 1 ∧
    (proc Lib.sample World.leftover GameData.blind).targets = World.leftover.targets :=
  ⟨leftover_facts.1, leftover_facts.2.1, leftover_facts.2.2, rfl,
    congrArg Prod.fst
      (proc_title_stock Lib.sample World.leftover GameData.blind leftover_facts.1
        leftover_facts.2.1)⟩

/-- A use of `entities_by_scene`: a MainGame tick from `World.range` updates and
prunes the targets that its hand loop and spawn step leave. -/
theorem entities_by_scene_witness :
    (proc Lib.sample World.range GameData.blind).targets
      = ((spawnStep Lib.sample (shotWorld Lib.sample World.range GameData.blind)).targets.map
          (fun t => t.proc Lib.sample GameData.blind.dt)).filter (fun t => t.alive) :=
  ((entities_by_scene Lib.sample World.range GameData.blind rfl).2.2.1 rfl).1

/-! ## The hover pulse of the Title scene -/

/-- The test `hovers` reads only globals that the scene code does not write. -/
theorem hovers_congr (a b : World) (i : Fin 2) (h : a.fixed = b.fixed) :
    hovers a i = hovers b i := by
  have h1 : a.handPose = b.handPose := congrArg Fixed.handPose h
  have h2 : a.gameStartStrPose = b.gameStartStrPose := congrArg Fixed.gameStartStrPose h
  unfold hovers startRect
  rw [h1, h2]

/-- The hand loop body of the Title scene records in `gsSelectedHands[i]` whether
hand `i` hovers over the start rectangle, and issues one pulse exactly when
that differs from the value recorded before. -/
theorem titleHand_pulse (dat : GameData) (st : World × Bool) (i : Fin 2) :
    (titleHand dat st i).1.gsSelectedHands
      = Function.update st.1.gsSelectedHands i (hovers st.1 i) ∧
    (titleHand dat st i).1.calls = st.1.calls ++
      (if st.1.gsSelectedHands i ≠ hovers st.1 i then [pulse dat i] else []) := by
  unfold titleHand hovers pulse
  dsimp only
  cases hp : st.1.handPose i with
  | none =>
    dsimp only
    simp only [Function.update_same]
    split_ifs with hc
    · cases hv : dat.handVib i <;> exact ⟨rfl, rfl⟩
    · exact ⟨rfl, (List.append_nil _).symm⟩
  | some p =>
    dsimp only
    have hr : startRect { st.1 with
        gsSelectedHands := Function.update st.1.gsSelectedHands i false } = startRect st.1 := rfl
    rw [hr]
    cases hcast : (startRect st.1).RayCast p.pos p.ray with
    | none =>
      dsimp only
      simp only [Function.update_same, Option.isSome_none]
      split_ifs with hc
      · cases hv : dat.handVib i <;> exact ⟨rfl, rfl⟩
      · exact ⟨rfl, (List.append_nil _).symm⟩
    | some col =>
      dsimp only
      simp only [Function.update_same, Function.update_idem, Option.isSome_some]
      split_ifs with hc
      · cases hv : dat.handVib i <;> exact ⟨rfl, rfl⟩
      · exact ⟨rfl, (List.append_nil _).symm⟩

/-- The Title scene code records for each hand whether it hovers over the
start rectangle, and appends to the device calls one pulse for each hand whose
recorded value changes. -/
theorem sceneTitle_pulse (dat : GameData) (w : World) :
    (∀ i, (sceneTitle dat w).gsSelectedHands i = hovers w i) ∧
    (sceneTitle dat w).calls = w.calls ++
      (if w.gsSelectedHands 0 ≠ hovers w 0 then [pulse dat 0] else []) ++
      (if w.gsSelectedHands 1 ≠ hovers w 1 then [pulse dat 1] else []) := by
  obtain ⟨g0, c0⟩ := titleHand_pulse dat ({ w with gsSelected := false }, false) 0
  obtain ⟨g1, c1⟩ := titleHand_pulse dat
    (titleHand dat ({ w with gsSelected := false }, false) 0) 1
  have hfix0 : (titleHand dat ({ w with gsSelected := false }, false) 0).1.fixed = w.fixed := by
    rw [titleHand_fixed]; rfl
  have hh0 : hovers { w with gsSelected := false } 0 = hovers w 0 := hovers_congr _ w 0 rfl
  have hh1 : hovers (titleHand dat ({ w with gsSelected := false }, false) 0).1 1 = hovers w 1 :=
    hovers_congr _ w 1 hfix0
  dsimp only at g0 c0
  rw [hh0] at g0 c0
  rw [hh1, g0] at g1
  rw [hh1, g0, c0, Function.update_noteq (by decide : (1 : Fin 2) ≠ 0)] at c1
  have hg : ∀ i, (titleHand dat (titleHand dat ({ w with gsSelected := false }, false) 0) 1
      ).1.gsSelectedHands i = hovers w i := by
    intro i
    rw [g1]
    fin_cases i
    · exact (Function.update_noteq (by decide : (0 : Fin 2) ≠ 1) _ _).trans
        (Function.update_same _ _ _)
    · exact Function.update_same _ _ _
  have hsame : (sceneTitle dat w).gsSelectedHands
        = (titleHand dat (titleHand dat ({ w with gsSelected := false }, false) 0) 1
          ).1.gsSelectedHands ∧
      (sceneTitle dat w).calls
        = (titleHand dat (titleHand dat ({ w with gsSelected := false }, false) 0) 1).1.calls := by
    unfold sceneTitle
    dsimp only
    split_ifs <;> exact ⟨rfl, rfl⟩
  rw [hsame.1, hsame.2]
  exact ⟨hg, c1⟩

/-- The part of `proc_main` before the scene switch issues no light haptic
pulse: its only `vibrate` call has amplitude 1. -/
theorem preScene_no_pulse (L : Lib) (w : World) (dat : GameData)
    (h : ∀ e ∈ w.calls, e.isPulse = false) :
    ∀ e ∈ (preScene L w dat).calls, e.isPulse = false := by
  have hemit : ∀ (v : World) (e : Event), e.isPulse = false →
      (∀ x ∈ v.calls, x.isPulse = false) → ∀ x ∈ (v.emit e).calls, x.isPulse = false := by
    intro v e he hv x hx
    rcases List.mem_append.1 hx with hx | hx
    · exact hv x hx
    · rw [List.mem_singleton.1 hx]; exact he
  have hsmooth : ∀ (v : World) (i : Fin 2), (smoothHand L dat v i).calls = v.calls := by
    intro v i
    unfold smoothHand
    cases hr : dat.handPoses i <;> dsimp only <;> split <;> rfl
  have hgun : ∀ (v : World) (i : Fin 2), (∀ x ∈ v.calls, x.isPulse = false) →
      ∀ x ∈ (gunFeedback dat v i).calls, x.isPulse = false := by
    intro v i hv
    have h1 : ∀ x ∈ (match v.handPose i with
        | some hp => v.emit (Event.gunSetPos i hp.pos)
        | none => v).calls, x.isPulse = false := by
      split
      · exact hemit _ _ rfl hv
      · exact hv
    unfold gunFeedback
    dsimp only
    split_ifs
    · split
      · exact hemit _ _ (by norm_num [Event.isPulse]) (hemit _ _ rfl h1)
      · exact hemit _ _ rfl h1
    · exact h1
  have hlisten : ∀ x ∈ (listenerStep (smoothHand L dat (smoothHand L dat (stageStep w dat) 0) 1)
      dat).calls, x.isPulse = false := by
    have hc : ∀ x ∈ (smoothHand L dat (smoothHand L dat (stageStep w dat) 0) 1).calls,
        x.isPulse = false := by
      rw [hsmooth, hsmooth]
      exact h
    unfold listenerStep
    split
    · rename_i p _
      exact hemit _ (Event.setListenerPose p) rfl hc
    · exact hc
  unfold preScene
  exact hgun _ 1 (hgun _ 0 hlisten)

/-- An initialised tick in the Title scene records for each hand whether it
hovers over the start rectangle in this tick, and its device calls are those
of the part before the scene switch, which contain no pulse, followed by one
pulse for each hand whose recorded value changes. -/
theorem proc_title_pulse (L : Lib) (w : World) (dat : GameData)
    (hinit : w.initialized = true) (hscene : w.scene = Scene.Title) :
    (∀ i, (proc L w dat).gsSelectedHands i = hovers (proc L w dat) i) ∧
    (∀ e ∈ (preScene L (w.begin dat) dat).calls, e.isPulse = false) ∧
    (proc L w dat).calls = (preScene L (w.begin dat) dat).calls ++
      (if w.gsSelectedHands 0 ≠ hovers (proc L w dat) 0 then [pulse dat 0] else []) ++
      (if w.gsSelectedHands 1 ≠ hovers (proc L w dat) 1 then [pulse dat 1] else []) := by
  have hfix : (proc L w dat).fixed = (preScene L (w.begin dat) dat).fixed := by
    rw [proc_of_initialized L w dat hinit, (proc_main_case L w dat).1 hscene]
    exact sceneTitle_fixed dat _
  have hh : ∀ i, hovers (proc L w dat) i = hovers (preScene L (w.begin dat) dat) i :=
    fun i => hovers_congr _ _ i hfix
  have hold : (preScene L (w.begin dat) dat).gsSelectedHands = w.gsSelectedHands :=
    congrArg Rest.gsSelectedHands (preScene_rest L (w.begin dat) dat)
  obtain ⟨g, c⟩ := sceneTitle_pulse dat (preScene L (w.begin dat) dat)
  have hg : (proc L w dat).gsSelectedHands
      = (sceneTitle dat (preScene L (w.begin dat) dat)).gsSelectedHands := by
    rw [proc_of_initialized L w dat hinit, (proc_main_case L w dat).1 hscene]
  have hc : (proc L w dat).calls = (sceneTitle dat (preScene L (w.begin dat) dat)).calls := by
    rw [proc_of_initialized L w dat hinit, (proc_main_case L w dat).1 hscene]
  refine ⟨fun i => ?_, preScene_no_pulse L _ dat (fun e he => absurd he (List.not_mem_nil e)), ?_⟩
  · rw [hg, g i, hh i]
  · rw [hc, c, hold, hh 0, hh 1]

/-- The world `World.hovering` is initialised, in the Title scene, its start
rectangle is that of `World.ready`, and hand 0 is recorded as hovering over it. -/
theorem hovering_facts :
    World.hovering.initialized = true ∧ World.hovering.scene = Scene.Title ∧
    World.hovering.gameStartStrPose = World.ready.gameStartStrPose ∧
    hovers World.hovering 0 = true ∧ World.hovering.gsSelectedHands 0 = true := by
  obtain ⟨hi2, hs2, _, hr2, hp3⟩ := aim_run GameData.idle GameData.idle GameData.idle
    (fun _ => rfl) (fun _ => rfl) (fun _ => rfl)
  have hw : World.hovering
      = proc Lib.sample (run Lib.sample World.ready [GameData.idle, GameData.idle])
          GameData.idle := rfl
  have hno : ∀ i, startsGame (proc Lib.sample
      (run Lib.sample World.ready [GameData.idle, GameData.idle]) GameData.idle) i = false := by
    intro i
    cases hc : startsGame (proc Lib.sample
      (run Lib.sample World.ready [GameData.idle, GameData.idle]) GameData.idle) i with
    | false => rfl
    | true =>
      obtain ⟨_, _, _, ht⟩ := (startsGame_proc Lib.sample _ GameData.idle i hi2).1 hc
      cases ht
  have hsc := (proc_title Lib.sample _ GameData.idle hi2 hs2).1
  rw [hno 0, hno 1] at hsc
  have hgsp : World.hovering.gameStartStrPose = World.ready.gameStartStrPose := by
    rw [hw, (proc_stored Lib.sample _ GameData.idle hi2).2.2, hr2]
  have hhov : hovers World.hovering 0 = true := by
    have hp : World.hovering.handPose 0 = some Pose.sample := hp3
    have hrect : startRect World.hovering = startRect World.ready := by
      unfold startRect; rw [hgsp]
    unfold hovers
    rw [hp]
    dsimp only
    rw [hrect]
    exact sample_hits_ready
  refine ⟨?_, ?_, hgsp, hhov, ?_⟩
  · rw [hw]; exact proc_initialized Lib.sample _ GameData.idle hi2
  · rw [hw]; exact hsc
  · have hg := (proc_title_pulse Lib.sample _ GameData.idle hi2 hs2).1 0
    rw [← hw] at hg
    rw [hg]
    exact hhov

/-- After a tick from `World.hovering` whose input tracks hand 0 at `Pose.aside`,
the smoothed pose of hand 0 is 100 to the side and its forward ray misses the
start rectangle. -/
theorem aside_misses (d : GameData) (hd : d.handPoses 0 = some Pose.aside) :
    hovers (proc Lib.sample World.hovering d) 0 = false := by
  have hrun : proc Lib.sample World.hovering d
      = run Lib.sample World.ready [GameData.idle, GameData.idle, GameData.idle, d] := rfl
  have hs : rawSamples 0 [GameData.idle, GameData.idle, GameData.idle, d]
      = [Pose.sample] ++ [Pose.sample, Pose.sample, Pose.aside] := by
    simp [rawSamples, hd, GameData.idle, GameData.sample]
  have hp := run_pose_recent Lib.sample World.ready 0
    [GameData.idle, GameData.idle, GameData.idle, d] [Pose.sample] Pose.sample Pose.sample
    Pose.aside rfl (List.cons_ne_nil _ _) hs
  have hpose : (⟨Vec3.sdiv (Pose.sample.pos + Pose.sample.pos + Pose.aside.pos) 3,
      Lib.sample.slerp (Lib.sample.slerp Pose.sample.ori Pose.sample.ori (1 / 2))
        Pose.aside.ori (1 / 3)⟩ : Pose) = ⟨⟨100, 1.2, 1⟩, Quat.identity⟩ := by
    norm_num [Pose.sample, Pose.aside, Lib.sample, Quat.identity, Vec3.sdiv, Vec3.add_def]
  rw [hpose, ← hrun] at hp
  have hrect : startRect (proc Lib.sample World.hovering d) = startRect World.ready := by
    unfold startRect
    rw [(proc_stored Lib.sample World.hovering d hovering_facts.1).2.2, hovering_facts.2.2.1]
  unfold hovers
  rw [hp]
  dsimp only
  rw [hrect]
  unfold startRect
  rw [ready_rect]
  norm_num [Rect.RayCast, intersectRayPlane, dot, Quat.rotate, Quat.identity, cross,
    Vec3.smul, Vec3.add_def, Vec3.sub_def, Pose.ray]

/-- The number of `vibrate(0.1)` calls on the handle `h` of hand `i` in the
pulse list of hand `j`. -/
theorem count_pulse (dat : GameData) (i j : Fin 2) (h : Nat) (hvib : dat.handVib i = some h)
    (c : Prop) [Decidable c] :
    List.count (Event.vibrate i h 0.1) (if c then [pulse dat j] else [])
      = (if j = i ∧ c then 1 else 0) := by
  by_cases hc : c
  · rw [if_pos hc]
    by_cases hj : j = i
    · subst hj
      have hp : pulse dat j = Event.vibrate j h 0.1 := by
        unfold pulse; rw [hvib]
      rw [hp, if_pos ⟨rfl, hc⟩]
      exact List.count_singleton_self _
    · rw [if_neg (fun hh => hj hh.1)]
      apply List.count_eq_zero_of_not_mem
      intro hmem
      have he := List.mem_singleton.1 hmem
      unfold pulse at he
      cases hv : dat.handVib j with
      | none => rw [hv] at he; cases he
      | some k =>
        rw [hv] at he
        injection he with e1 _ _
        exact hj e1.symm
  · rw [if_neg hc, if_neg (fun hh => hc hh.2)]
    rfl

/-- The number of `vibrate(0.1)` calls that an initialised Title tick makes on
the present handle of hand `i`: one if the recorded hover state of the hand
changes in the tick, none otherwise. -/
theorem proc_title_count (L : Lib) (w : World) (dat : GameData) (i : Fin 2) (h : Nat)
    (hinit : w.initialized = true) (hscene : w.scene = Scene.Title)
    (hvib : dat.handVib i = some h) :
    (proc L w dat).calls.count (Event.vibrate i h 0.1)
      = (if w.gsSelectedHands i ≠ hovers (proc L w dat) i then 1 else 0) := by
  obtain ⟨_, hpre, hc⟩ := proc_title_pulse L w dat hinit hscene
  have h0 : List.count (Event.vibrate i h 0.1) (preScene L (w.begin dat) dat).calls = 0 := by
    apply List.count_eq_zero_of_not_mem
    intro hmem
    have := hpre _ hmem
    simp [Event.isPulse] at this
  rw [hc, List.count_append, List.count_append, h0, count_pulse dat i 0 h hvib,
    count_pulse dat i 1 h hvib]
  fin_cases i
  · simp
  · simp

/-- C20, as the code has it.  The hover haptic fires on every change of the
hover state.  In every initialised Title-scene tick in which the haptic handle
of hand `i` is present, the light haptic pulse `vibrate(0.1)` is issued on it
exactly once if the overlap of hand `i`'s ray with the start rectangle in this
tick differs from the overlap recorded for hand `i` by the last Title tick
(rising edge and falling edge alike), and not at all otherwise (while the
overlap persists or stays absent), independently of the trigger state; the
tick records this tick's overlap in `gsSelectedHands[i]`. -/
theorem hover_pulse_edges (L : Lib) (w : World) (dat : GameData) (i : Fin 2) (h : Nat)
    (hinit : w.initialized = true) (hscene : w.scene = Scene.Title)
    (hvib : dat.handVib i = some h) :
    (proc L w dat).calls.count (Event.vibrate i h 0.1)
      = (if w.gsSelectedHands i ≠ hovers (proc L w dat) i then 1 else 0) ∧
    (proc L w dat).gsSelectedHands i = hovers (proc L w dat) i :=
  ⟨proc_title_count L w dat i h hinit hscene hvib,
    (proc_title_pulse L w dat hinit hscene).1 i⟩

/-- C20, the claim as written fails.  In the world `World.hovering`, in the
Title scene, hand 0's ray overlaps the start rectangle; in the tick with the
input `GameData.away` (haptic handle 0 of hand 0 present, no trigger pressed)
the overlap ends, and the tick issues the pulse `vibrate(0.1)` on hand 0: a
pulse on the falling edge. -/
theorem falling_edge_pulse :
    World.hovering.scene = Scene.Title ∧ hovers World.hovering 0 = true ∧
    World.hovering.gsSelectedHands 0 = true ∧
    hovers (proc Lib.sample World.hovering GameData.away) 0 = false ∧
    Event.vibrate 0 0 0.1 ∈ (proc Lib.sample World.hovering GameData.away).calls := by
  obtain ⟨hi, hs, _, hh, hg⟩ := hovering_facts
  have hm := aside_misses GameData.away rfl
  refine ⟨hs, hh, hg, hm, ?_⟩
  have hc := proc_title_count Lib.sample World.hovering GameData.away 0 0 hi hs rfl
  rw [hg, hm, if_pos (by decide)] at hc
  exact List.count_pos_iff.1 (by rw [hc]; exact Nat.one_pos)

/-- A use of `hover_pulse_edges`: the first tick from `World.ready`, in which no
hand has a smoothed pose yet and none was recorded as hovering, issues no
pulse on hand 0. -/
theorem hover_pulse_edges_witness :
    (proc Lib.sample World.ready GameData.idle).calls.count (Event.vibrate 0 0 0.1)
      = (if World.ready.gsSelectedHands 0
            ≠ hovers (proc Lib.sample World.ready GameData.idle) 0 then 1 else 0) ∧
    (proc Lib.sample World.ready GameData.idle).gsSelectedHands 0
      = hovers (proc Lib.sample World.ready GameData.idle) 0 :=
  hover_pulse_edges Lib.sample World.ready GameData.idle 0 0 rfl rfl rfl

/-- C19.  The Title scene calls `vibrate(0.1)` through an absent haptic handle.
In the world `World.hovering` (initialised, Title scene, hand 0 recorded as
hovering over the start rectangle) the tick with the input `GameData.mute`, in
which `handVib[0]` is absent and hand 0 moves off the rectangle, makes the
call `dat.handVib[0]->get().vibrate(0.1)` on the absent handle, whereas the
`vibrate(1.0)` of the gun feedback is made only under `has_value()`. -/
theorem title_pulse_unguarded :
    World.hovering.initialized = true ∧ World.hovering.scene = Scene.Title ∧
    GameData.mute.handVib 0 = none ∧
    Event.vibrateAbsent 0 0.1 ∈ (proc Lib.sample World.hovering GameData.mute).calls := by
  obtain ⟨hi, hs, _, _, hg⟩ := hovering_facts
  have hm := aside_misses GameData.mute rfl
  obtain ⟨_, _, hc⟩ := proc_title_pulse Lib.sample World.hovering GameData.mute hi hs
  refine ⟨hi, hs, rfl, ?_⟩
  rw [hc, hg, hm, if_pos (by decide)]
  exact List.mem_append_left _ (List.mem_append_right _ (List.mem_singleton.2 rfl))

/-! ## The gun feedback -/

theorem emit_guns (w : World) (e : Event) (h : e.isGun = false) : (w.emit e).guns = w.guns := by
  simp [World.emit, World.guns, List.filter_append, h]

@[simp] theorem sePlay_guns (w : World) (se : Sound) (p : Vec3) :
    (w.sePlay se p).guns = w.guns := by
  simp [World.sePlay, World.guns, List.filter_append, Event.isGun]

@[simp] theorem addBooms_guns (L : Lib) (p : Vec3) (w : World) :
    (addBooms L p w).guns = w.guns :=
  foldl_preserves (fun v (_ : Nat) => addBoom L p v) World.guns (fun _ _ => rfl) _ w

@[simp] theorem applyHit_guns (L : Lib) (w : World) (i : Fin 2) (s : LockState) :
    (applyHit L w i s).guns = w.guns := by
  unfold applyHit
  split
  · split_ifs
    · have h : ∀ (v : World) (se : List scoreEffect) (sc : Int),
          ({ v with scoreEffects := se, score := sc } : World).guns = v.guns :=
        fun _ _ _ => rfl
      dsimp only
      rw [h, addBooms_guns, sePlay_guns]
      rfl
    · rfl
  · rfl

@[simp] theorem mainGameHand_guns (L : Lib) (w : World) (i : Fin 2) :
    (mainGameHand L w i).guns = w.guns := by
  unfold mainGameHand
  split
  · rfl
  · dsimp only; rw [applyHit_guns]; rfl

@[simp] theorem spawnStep_guns (L : Lib) (w : World) : (spawnStep L w).guns = w.guns := by
  unfold spawnStep; dsimp only; split_ifs <;> rfl

@[simp] theorem entityStep_guns (L : Lib) (w : World) : (entityStep L w).guns = w.guns := rfl

@[simp] theorem cueStep_guns (dat : GameData) (w : World) (i : Nat) :
    (cueStep dat w i).guns = w.guns := by
  unfold cueStep; split_ifs
  · exact sePlay_guns _ _ _
  · rfl

/-- The MainGame scene code makes no gun-feedback call. -/
theorem sceneMainGame_guns (L : Lib) (dat : GameData) (w : World) :
    (sceneMainGame L dat w).guns = w.guns := by
  unfold sceneMainGame
  dsimp only
  rw [foldl_preserves (cueStep dat) World.guns (fun a b => cueStep_guns dat a b)]
  split_ifs
  · rw [sePlay_guns]
    show (entityStep L _).guns = _
    simp only [entityStep_guns, spawnStep_guns, mainGameHand_guns]
    rfl
  · simp only [entityStep_guns, spawnStep_guns, mainGameHand_guns]
    rfl

/-- The ScoreResult scene code makes no gun-feedback call. -/
theorem sceneScoreResult_guns (L : Lib) (dat : GameData) (w : World) :
    (sceneScoreResult L dat w).guns = w.guns := by
  unfold sceneScoreResult
  dsimp only
  split_ifs <;>
    simp [World.guns, World.sePlay, entityStep, List.filter_append, Event.isGun]

/-- The Title scene code makes no gun-feedback call: its pulses have
amplitude 0.1. -/
theorem sceneTitle_guns (dat : GameData) (w : World) : (sceneTitle dat w).guns = w.guns := by
  have hp : ∀ (c : Prop) [Decidable c] (j : Fin 2),
      List.filter Event.isGun (if c then [pulse dat j] else []) = [] := by
    intro c _ j
    split_ifs
    · unfold pulse
      cases dat.handVib j <;> norm_num [Event.isGun]
    · rfl
  unfold World.guns
  rw [(sceneTitle_pulse dat w).2, List.filter_append, List.filter_append, hp, hp,
    List.append_nil, List.append_nil]

/-- The gun feedback loop body for hand `i` appends the gun-feedback calls of
that hand. -/
theorem gunFeedback_guns (dat : GameData) (w : World) (i : Fin 2) :
    (gunFeedback dat w i).guns = w.guns ++ gunCalls w.trigger_old dat i := by
  have h1 : (match w.handPose i with
      | some hp => w.emit (Event.gunSetPos i hp.pos)
      | none => w).guns = w.guns := by
    split
    · exact emit_guns _ _ rfl
    · rfl
  have h2 : (match w.handPose i with
      | some hp => w.emit (Event.gunSetPos i hp.pos)
      | none => w).trigger_old = w.trigger_old := by
    split <;> rfl
  unfold gunFeedback gunCalls
  dsimp only
  rw [h2]
  split_ifs with hc
  · cases hv : dat.handVib i with
    | none =>
      dsimp only
      simp only [World.guns, World.emit, List.filter_append] at h1 ⊢
      rw [h1]
      simp [Event.isGun]
    | some h =>
      dsimp only
      simp only [World.guns, World.emit, List.filter_append] at h1 ⊢
      rw [h1]
      simp [Event.isGun]
  · rw [h1, List.append_nil]

/-- The part of `proc_main` before the scene switch appends the gun-feedback
calls of hand 0 and then of hand 1. -/
theorem preScene_guns (L : Lib) (w : World) (dat : GameData) :
    (preScene L w dat).guns
      = w.guns ++ gunCalls w.trigger_old dat 0 ++ gunCalls w.trigger_old dat 1 := by
  have hsmooth : ∀ (v : World) (i : Fin 2), (smoothHand L dat v i).calls = v.calls := by
    intro v i
    unfold smoothHand
    cases hr : dat.handPoses i <;> dsimp only <;> split <;> rfl
  have hl : (listenerStep (smoothHand L dat (smoothHand L dat (stageStep w dat) 0) 1) dat).guns
      = w.guns := by
    have hc : (smoothHand L dat (smoothHand L dat (stageStep w dat) 0) 1).guns = w.guns := by
      unfold World.guns
      rw [hsmooth, hsmooth]
      rfl
    unfold listenerStep
    split
    · rename_i p _
      rw [emit_guns _ (Event.setListenerPose p) rfl, hc]
    · exact hc
  have ht : (preScene L w dat).rest.trigger_old = w.rest.trigger_old :=
    congrArg Rest.trigger_old (preScene_rest L w dat)
  have ht0 : (listenerStep (smoothHand L dat (smoothHand L dat (stageStep w dat) 0) 1)
      dat).trigger_old = w.trigger_old := by
    have h1 := congrArg Rest.trigger_old (listenerStep_rest
      (smoothHand L dat (smoothHand L dat (stageStep w dat) 0) 1) dat)
    have h2 := congrArg Rest.trigger_old (smoothHand_rest L dat
      (smoothHand L dat (stageStep w dat) 0) 1)
    have h3 := congrArg Rest.trigger_old (smoothHand_rest L dat (stageStep w dat) 0)
    exact h1.trans (h2.trans h3)
  have ht1 : (gunFeedback dat (listenerStep (smoothHand L dat (smoothHand L dat
      (stageStep w dat) 0) 1) dat) 0).trigger_old = w.trigger_old :=
    (congrArg Fixed.trigger_old (gunFeedback_fixed dat _ 0)).trans ht0
  unfold preScene
  dsimp only
  rw [gunFeedback_guns, gunFeedback_guns, ht1, ht0, hl]

/-- The gun-feedback calls of an initialised tick, in any scene: those of
hand 0, then those of hand 1, decided by the triggers of the previous and of
the current input. -/
theorem proc_guns (L : Lib) (w : World) (dat : GameData) (hinit : w.initialized = true) :
    (proc L w dat).guns
      = gunCalls w.gameDat.trigger dat 0 ++ gunCalls w.gameDat.trigger dat 1 := by
  have hpre := preScene_guns L (w.begin dat) dat
  have hb : (w.begin dat).guns = [] := rfl
  rw [hb, List.nil_append] at hpre
  have hp : (proc L w dat).guns = (proc_main L (w.begin dat) dat).guns := by
    rw [proc_of_initialized L w dat hinit]
    rfl
  rw [hp]
  cases hs : w.scene with
  | Title => rw [(proc_main_case L w dat).1 hs, sceneTitle_guns, hpre]; rfl
  | MainGame => rw [(proc_main_case L w dat).2.1 hs, sceneMainGame_guns, hpre]; rfl
  | ScoreResult => rw [(proc_main_case L w dat).2.2 hs, sceneScoreResult_guns, hpre]; rfl

/-- The number of gunshot `play` calls on the audio source of hand `i` among
the gun-feedback calls of hand `j`. -/
theorem count_gunPlay (old : Fin 2 → Bool) (dat : GameData) (i j : Fin 2) :
    List.count (Event.gunPlay i Sound.gunSe) (gunCalls old dat j)
      = (if j = i ∧ old j = false ∧ dat.trigger j = true then 1 else 0) := by
  unfold gunCalls
  by_cases hj : j = i
  · subst hj
    cases ho : old j <;> cases ht : dat.trigger j <;> cases hv : dat.handVib j <;> simp
  · have hij : i ≠ j := fun e => hj e.symm
    cases ho : old j <;> cases ht : dat.trigger j <;> cases hv : dat.handVib j <;>
      simp [hj, hij, List.count_cons]

/-- The number of `vibrate(1.0)` calls on the handle `h` of hand `i` among the
gun-feedback calls of hand `j`. -/
theorem count_gunVibrate (old : Fin 2 → Bool) (dat : GameData) (i j : Fin 2) (h : Nat) :
    List.count (Event.vibrate i h 1) (gunCalls old dat j)
      = (if j = i ∧ (old j = false ∧ dat.trigger j = true) ∧ dat.handVib j = some h
          then 1 else 0) := by
  unfold gunCalls
  by_cases hj : j = i
  · subst hj
    cases ho : old j with
    | true => cases ht : dat.trigger j <;> cases hv : dat.handVib j <;> simp
    | false =>
      cases ht : dat.trigger j with
      | false => cases hv : dat.handVib j <;> simp
      | true =>
        cases hv : dat.handVib j with
        | none => simp [List.count_cons]
        | some k =>
          by_cases hk : k = h
          · subst hk
            simp [List.count_cons]
          · have hk2 : ¬ h = k := fun e => hk e.symm
            simp [List.count_cons, hk, hk2]
  · have hij : i ≠ j := fun e => hj e.symm
    cases ho : old j <;> cases ht : dat.trigger j <;> cases hv : dat.handVib j <;>
      simp [hj, hij, List.count_cons]

/-- The numbers of gunshot `play` calls and of `vibrate(1.0)` calls for hand
`i` among the device calls of an initialised tick. -/
theorem proc_gun_counts (L : Lib) (w : World) (dat : GameData) (i : Fin 2)
    (hinit : w.initialized = true) :
    (proc L w dat).calls.count (Event.gunPlay i Sound.gunSe)
      = (if w.gameDat.trigger i = false ∧ dat.trigger i = true then 1 else 0) ∧
    (∀ h : Nat, (proc L w dat).calls.count (Event.vibrate i h 1)
      = (if (w.gameDat.trigger i = false ∧ dat.trigger i = true) ∧ dat.handVib i = some h
          then 1 else 0)) := by
  have hg := proc_guns L w dat hinit
  unfold World.guns at hg
  constructor
  · rw [← List.count_filter (show Event.isGun (Event.gunPlay i Sound.gunSe) = true from rfl),
      hg, List.count_append, count_gunPlay, count_gunPlay]
    fin_cases i <;> simp
  · intro h
    rw [← List.count_filter
        (show Event.isGun (Event.vibrate i h 1) = true by simp [Event.isGun]),
      hg, List.count_append, count_gunVibrate, count_gunVibrate]
    fin_cases i <;> simp

/-- C21.  Gun feedback on the trigger rising edge in all scenes: for every
initialised tick, in any scene, and each hand `i`, the gunshot sound is
played on the audio source of hand `i` (once) if and only if `trigger[i]` is
pressed in this tick's input and was not pressed in the previous tick's input,
and `vibrate(1.0)` is issued on a handle `h` for hand `i` (once) if and only if
that rising edge occurs and `h` is the present haptic handle of the hand; in
the tick after a tick whose input had the trigger pressed, neither is issued,
so a trigger held over consecutive ticks produces the feedback once. -/
theorem gun_feedback (L : Lib) (w : World) (dat : GameData) (i : Fin 2)
    (hinit : w.initialized = true) :
    (proc L w dat).calls.count (Event.gunPlay i Sound.gunSe)
      = (if w.gameDat.trigger i = false ∧ dat.trigger i = true then 1 else 0) ∧
    (∀ h : Nat, (proc L w dat).calls.count (Event.vibrate i h 1)
      = (if (w.gameDat.trigger i = false ∧ dat.trigger i = true) ∧ dat.handVib i = some h
          then 1 else 0)) ∧
    (∀ next : GameData, dat.trigger i = true →
      (proc L (proc L w dat) next).calls.count (Event.gunPlay i Sound.gunSe) = 0 ∧
      ∀ h : Nat, (proc L (proc L w dat) next).calls.count (Event.vibrate i h 1) = 0) := by
  obtain ⟨h1, h2⟩ := proc_gun_counts L w dat i hinit
  refine ⟨h1, h2, ?_⟩
  intro next ht
  obtain ⟨n1, n2⟩ := proc_gun_counts L (proc L w dat) next i (proc_initialized L w dat hinit)
  have hold : (proc L w dat).gameDat.trigger i = true := by
    rw [(proc_stored L w dat hinit).1]; exact ht
  constructor
  · rw [n1, if_neg (fun hh => by rw [hold] at hh; cases hh.1)]
  · intro h
    rw [n2 h, if_neg (fun hh => by rw [hold] at hh; cases hh.1.1)]

/-- A use of `gun_feedback`: from `World.ready`, whose stored input has no
trigger pressed, the tick with the input `GameData.held` plays the gunshot
sound once on the audio source of hand 0 and vibrates its handle 0 once. -/
theorem gun_feedback_witness :
    (proc Lib.sample World.ready GameData.held).calls.count (Event.gunPlay 0 Sound.gunSe) = 1 ∧
    (proc Lib.sample World.ready GameData.held).calls.count (Event.vibrate 0 0 1) = 1 := by
  obtain ⟨h1, h2, _⟩ := gun_feedback Lib.sample World.ready GameData.held 0 rfl
  exact ⟨h1.trans (if_pos ⟨rfl, rfl⟩), (h2 0).trans (if_pos ⟨⟨rfl, rfl⟩, rfl⟩)⟩

/-! ## Start-up -/

/-- A tick of a world that is not initialised runs `proc_init` on the world
with the input stored. -/
theorem proc_of_uninitialized (L : Lib) (w : World) (dat : GameData)
    (hinit : w.initialized = false) : proc L w dat = proc_init L (w.begin dat) dat := by
  unfold proc
  dsimp only
  rw [if_neg (by rw [show (w.begin dat).initialized = false from hinit]; decide)]

/-- C22.  The core waits for the stage pose.  While the world is not
initialised, a `proc` call whose input has no stage pose changes nothing except
the stored input and the previous-trigger record, and makes no device call:
scene, score, game timer, spawn timer, hand pose buffers, smoothed hand poses,
entity collections and audio manager are those of before.  A `proc` call whose
input has a stage pose sets `initialized` and the spawn timer to 1 and runs no
scene logic: scene, score, game timer, buffers, smoothed poses, entity
collections and audio manager are unchanged and no device call is made. -/
theorem waits_for_stage (L : Lib) (w : World) (dat : GameData)
    (hinit : w.initialized = false) :
    (dat.stagePose = none →
      proc L w dat = { w with trigger_old := w.gameDat.trigger, gameDat := dat, calls := [] }) ∧
    (∀ sp : Pose, dat.stagePose = some sp →
      (proc L w dat).initialized = true ∧ (proc L w dat).tgtTimer = 1 ∧
      (proc L w dat).stagePose = sp ∧
      (proc L w dat).scene = w.scene ∧ (proc L w dat).score = w.score ∧
      (proc L w dat).gameTimer = w.gameTimer ∧
      (proc L w dat).handPoseBuf = w.handPoseBuf ∧
      (proc L w dat).handPoseBufIndex = w.handPoseBufIndex ∧
      (proc L w dat).handPose = w.handPose ∧
      (proc L w dat).targets = w.targets ∧ (proc L w dat).scoreEffects = w.scoreEffects ∧
      (proc L w dat).boomEffects = w.boomEffects ∧ (proc L w dat).seManager = w.seManager ∧
      (proc L w dat).gameDat = dat ∧ (proc L w dat).trigger_old = w.gameDat.trigger ∧
      (proc L w dat).calls = []) := by
  rw [proc_of_uninitialized L w dat hinit]
  constructor
  · intro hs
    unfold proc_init
    rw [hs]
    rfl
  · intro sp hs
    unfold proc_init
    rw [hs]
    exact ⟨rfl, rfl, rfl, rfl, rfl, rfl, rfl, rfl, rfl, rfl, rfl, rfl, rfl, rfl, rfl, rfl⟩

/-- A use of `waits_for_stage`: at start-up a tick whose input has no stage
pose leaves the world uninitialised in the Title scene, and the tick with a
stage pose that gives `World.ready` initialises it with spawn timer 1. -/
theorem waits_for_stage_witness :
    (proc Lib.sample World.start GameData.zero).initialized = false ∧
    (proc Lib.sample World.start GameData.zero).scene = Scene.Title ∧
    World.ready.initialized = true ∧ World.ready.tgtTimer = 1 := by
  have h0 := (waits_for_stage Lib.sample World.start GameData.zero rfl).1 rfl
  have h1 := (waits_for_stage Lib.sample World.start
    (GameData.sample 0 (fun _ => false) (fun _ => none)) rfl).2 ⟨Vec3.zero, Quat.identity⟩ rfl
  refine ⟨?_, ?_, h1.1, h1.2.1⟩
  · rw [h0]; rfl
  · rw [h0]; rfl

/-! ## The spawn timer -/

theorem setDead_length (ts : List Target) (k : Nat) : (setDead ts k).length = ts.length := by
  induction ts generalizing k with
  | nil => rfl
  | cons t ts ih =>
    cases k with
    | zero => rfl
    | succ k => simp only [setDead, List.length_cons, ih]

/-- The hand loop body of the MainGame scene adds no target and removes none. -/
theorem mainGameHand_length (L : Lib) (w : World) (i : Fin 2) :
    (mainGameHand L w i).targets.length = w.targets.length := by
  cases hp : w.handPose i with
  | none => rw [mainGameHand_no_pose L w i hp]
  | some p =>
    rw [mainGameHand_of_pose L w i p hp]
    have key : ∀ v : World, v.targets = w.targets →
        (applyHit L v i (lockOf w i p)).targets.length = w.targets.length := by
      intro v hvt
      cases hl : (lockOf w i p).lockedon with
      | none => rw [applyHit_idle L v i _ (Or.inl hl), hvt]
      | some kh =>
        obtain ⟨k, hit⟩ := kh
        cases ht : v.gameDat.trigger i with
        | false => rw [applyHit_idle L v i _ (Or.inr ht), hvt]
        | true => rw [(applyHit_scores L v i _ k hit hl ht).2.2.1, setDead_length, hvt]
    exact key _ rfl

/-- The world left by the hand loop of a MainGame tick holds the stage frame
of before the tick and as many targets as before the tick. -/
theorem shotWorld_frame (L : Lib) (w : World) (dat : GameData) (hinit : w.initialized = true) :
    (shotWorld L w dat).sightBase = w.sightBase ∧ (shotWorld L w dat).stagePose = w.stagePose ∧
    (shotWorld L w dat).upperVec = w.upperVec ∧ (shotWorld L w dat).rightVec = w.rightVec ∧
    (shotWorld L w dat).fwdVec = w.fwdVec ∧
    (shotWorld L w dat).targets.length = w.targets.length := by
  have hfix : (shotWorld L w dat).fixed = (preScene L (w.begin dat) dat).fixed := by
    unfold shotWorld handsWorld
    simp only [mainGameHand_fixed]
    rfl
  have hrest := preScene_rest L (w.begin dat) dat
  refine ⟨(congrArg Fixed.sightBase hfix).trans (congrArg Rest.sightBase hrest),
    (congrArg Fixed.stagePose hfix).trans (congrArg Rest.stagePose hrest),
    (congrArg Fixed.upperVec hfix).trans (congrArg Rest.upperVec hrest),
    (congrArg Fixed.rightVec hfix).trans (congrArg Rest.rightVec hrest),
    (congrArg Fixed.fwdVec hfix).trans (congrArg Rest.fwdVec hrest), ?_⟩
  unfold shotWorld
  rw [mainGameHand_length, mainGameHand_length, (handsWorld_fields L w dat hinit).2.2.2.1]

/-- The targets after an initialised MainGame tick: the live updated targets
of the hand loop's collection, followed by one new updated target exactly when
the decreased spawn timer is not positive. -/
theorem proc_mainGame_targets (L : Lib) (w : World) (dat : GameData)
    (hinit : w.initialized = true) (hscene : w.scene = Scene.MainGame) :
    (w.tgtTimer - dat.dt ≤ 0 → ∃ r0 r1 r2 : Nat,
      (proc L w dat).targets
        = ((shotWorld L w dat).targets.map (fun t => t.proc L dat.dt)).filter (fun t => t.alive)
          ++ [(Target.new L w.sightBase w.stagePose w.upperVec w.rightVec w.fwdVec
                r0 r1 r2).proc L dat.dt]) ∧
    (¬ w.tgtTimer - dat.dt ≤ 0 →
      (proc L w dat).targets
        = ((shotWorld L w dat).targets.map (fun t => t.proc L dat.dt)).filter
            (fun t => t.alive)) := by
  have ht : (proc L w dat).targets = _ :=
    congrArg Prod.fst (proc_mainGame_stock L w dat hinit hscene)
  obtain ⟨h1, h2⟩ := shotWorld_fields L w dat
  obtain ⟨f1, f2, f3, f4, f5, _⟩ := shotWorld_frame L w dat hinit
  rw [ht, spawnStep_targets, h1, h2, f1, f2, f3, f4, f5]
  constructor
  · intro h
    refine ⟨L.rand (shotWorld L w dat).randCount, L.rand ((shotWorld L w dat).randCount + 1),
      L.rand ((shotWorld L w dat).randCount + 2), ?_⟩
    rw [if_pos h, List.map_append, List.filter_append]
    congr 1
  · intro h
    rw [if_neg h, List.append_nil]

/-- C23.  Target spawn timer: initialisation sets the spawn timer to 1; in every
initialised MainGame tick it is decreased by `dt`, and if the decreased value
is `<= 0` exactly one new `Target` is added to the collection (after the
targets already there, none of which the hand loop adds or removes) and the
timer is set to 0.5, otherwise the timer keeps the decreased value and no
`Target` is added, however large `dt` is; in Title and ScoreResult ticks no
`Target` is added and the spawn timer is unchanged. -/
theorem spawn_timer (L : Lib) (w : World) (dat : GameData) :
    (w.initialized = false → dat.stagePose.isSome = true → (proc L w dat).tgtTimer = 1) ∧
    (w.initialized = true → w.scene = Scene.MainGame →
      (proc L w dat).tgtTimer
        = (if w.tgtTimer - dat.dt ≤ 0 then 0.5 else w.tgtTimer - dat.dt) ∧
      (shotWorld L w dat).targets.length = w.targets.length ∧
      (w.tgtTimer - dat.dt ≤ 0 → ∃ r0 r1 r2 : Nat,
        (proc L w dat).targets
          = ((shotWorld L w dat).targets.map (fun t => t.proc L dat.dt)).filter
              (fun t => t.alive)
            ++ [(Target.new L w.sightBase w.stagePose w.upperVec w.rightVec w.fwdVec
                  r0 r1 r2).proc L dat.dt]) ∧
      (¬ w.tgtTimer - dat.dt ≤ 0 →
        (proc L w dat).targets
          = ((shotWorld L w dat).targets.map (fun t => t.proc L dat.dt)).filter
              (fun t => t.alive))) ∧
    (w.initialized = true → w.scene = Scene.Title →
      (proc L w dat).tgtTimer = w.tgtTimer ∧ (proc L w dat).targets = w.targets) ∧
    (w.initialized = true → w.scene = Scene.ScoreResult →
      (proc L w dat).tgtTimer = w.tgtTimer ∧
      (proc L w dat).targets
        = (w.targets.map (fun t => t.proc L dat.dt)).filter (fun t => t.alive)) := by
  refine ⟨?_, ?_, ?_, ?_⟩
  · intro hi hs
    rw [proc_of_uninitialized L w dat hi]
    unfold proc_init
    cases hsp : dat.stagePose with
    | none => rw [hsp] at hs; cases hs
    | some sp => rfl
  · intro hi hs
    exact ⟨proc_mainGame_tgtTimer L w dat hi hs, (shotWorld_frame L w dat hi).2.2.2.2.2,
      (proc_mainGame_targets L w dat hi hs).1, (proc_mainGame_targets L w dat hi hs).2⟩
  · intro hi hs
    have h := proc_title_stock L w dat hi hs
    simp only [World.stock, Prod.mk.injEq] at h
    exact ⟨h.2.2.2, h.1⟩
  · intro hi hs
    have h := proc_scoreResult_stock L w dat hi hs
    simp only [World.stock, Prod.mk.injEq] at h
    exact ⟨h.2.2.2, h.1⟩

/-- A use of `spawn_timer`: the MainGame tick of one second from `World.range`,
whose spawn timer is 1, resets the spawn timer to 0.5. -/
theorem spawn_timer_witness :
    (proc Lib.sample World.range GameData.blind).tgtTimer = 0.5 := by
  have h := ((spawn_timer Lib.sample World.range GameData.blind).2.1 rfl rfl).1
  rw [h]
  have h1 : World.range.tgtTimer = 1 := rfl
  have h2 : GameData.blind.dt = 1 := rfl
  rw [h1, h2, if_pos (by norm_num)]

/-! ## The countdown cue -/

theorem emit_cues (w : World) (e : Event) (h : e.isCue = false) : (w.emit e).cues = w.cues := by
  simp [World.emit, World.cues, List.countP_append, h]

theorem sePlay_cues (w : World) (se : Sound) (p : Vec3) (h : se ≠ Sound.cntSe) :
    (w.sePlay se p).cues = w.cues := by
  have : (Event.sePlay se p w.seManager.play.2).isCue = false := by
    cases se <;> first | rfl | exact absurd rfl h
  simp [World.sePlay, World.cues, List.countP_append, this]

@[simp] theorem addBooms_cues (L : Lib) (p : Vec3) (w : World) :
    (addBooms L p w).cues = w.cues :=
  foldl_preserves (fun v (_ : Nat) => addBoom L p v) World.cues (fun _ _ => rfl) _ w

@[simp] theorem applyHit_cues (L : Lib) (w : World) (i : Fin 2) (s : LockState) :
    (applyHit L w i s).cues = w.cues := by
  unfold applyHit
  split
  · split_ifs
    · have h : ∀ (v : World) (se : List scoreEffect) (sc : Int),
          ({ v with scoreEffects := se, score := sc } : World).cues = v.cues :=
        fun _ _ _ => rfl
      dsimp only
      rw [h, addBooms_cues, sePlay_cues _ Sound.tgtSe _ (by decide)]
      rfl
    · rfl
  · rfl

@[simp] theorem mainGameHand_cues (L : Lib) (w : World) (i : Fin 2) :
    (mainGameHand L w i).cues = w.cues := by
  unfold mainGameHand
  split
  · rfl
  · dsimp only; rw [applyHit_cues]; rfl

@[simp] theorem spawnStep_cues (L : Lib) (w : World) : (spawnStep L w).cues = w.cues := by
  unfold spawnStep; dsimp only; split_ifs <;> rfl

@[simp] theorem entityStep_cues (L : Lib) (w : World) : (entityStep L w).cues = w.cues := rfl

/-- The part of `proc_main` before the scene switch requests no cue. -/
theorem preScene_cues (L : Lib) (w : World) (dat : GameData) :
    (preScene L w dat).cues = w.cues := by
  have hsmooth : ∀ (v : World) (i : Fin 2), (smoothHand L dat v i).cues = v.cues := by
    intro v i
    unfold smoothHand
    cases hr : dat.handPoses i <;> dsimp only <;> split <;> rfl
  have hgun : ∀ (v : World) (i : Fin 2), (gunFeedback dat v i).cues = v.cues := by
    intro v i
    have h1 : (match v.handPose i with
        | some hp => v.emit (Event.gunSetPos i hp.pos)
        | none => v).cues = v.cues := by
      split
      · exact emit_cues _ _ rfl
      · rfl
    unfold gunFeedback
    dsimp only
    split_ifs
    · split
      · rw [emit_cues _ (Event.vibrate _ _ _) rfl, emit_cues _ (Event.gunPlay _ _) rfl, h1]
      · rw [emit_cues _ (Event.gunPlay _ _) rfl, h1]
    · exact h1
  have hl : ∀ v : World, (listenerStep v dat).cues = v.cues := by
    intro v
    unfold listenerStep
    split
    · rename_i p _
      exact emit_cues _ (Event.setListenerPose p) rfl
    · rfl
  unfold preScene
  dsimp only
  rw [hgun, hgun, hl, hsmooth, hsmooth]
  rfl

/-- The cue loop body leaves the game timer as it is. -/
theorem cueStep_gameTimer (dat : GameData) (w : World) (i : Nat) :
    (cueStep dat w i).gameTimer = w.gameTimer :=
  congrArg Clock.gameTimer (cueStep_clock dat w i)

/-- The cue loop over the boundaries `l` requests one cue for each boundary
whose guard holds. -/
theorem cueLoop_cues (dat : GameData) (l : List Nat) :
    ∀ v : World, (l.foldl (cueStep dat) v).cues
      = v.cues + (l.filter (fun i => cueDue v.gameTimer dat.dt i)).length := by
  induction l with
  | nil => intro v; rfl
  | cons i l ih =>
    intro v
    rw [List.foldl_cons, ih (cueStep dat v i), cueStep_gameTimer]
    have hstep : (cueStep dat v i).cues
        = v.cues + (if cueDue v.gameTimer dat.dt i = true then 1 else 0) := by
      unfold cueStep cueDue
      by_cases hc : v.gameTimer ≥ (i : ℚ) ∧ v.gameTimer - dat.dt < (i : ℚ)
      · rw [if_pos hc, if_pos (decide_eq_true hc)]
        simp [World.sePlay, World.cues, List.countP_append, Event.isCue]
      · rw [if_neg hc, if_neg (by rw [decide_eq_false hc]; decide)]
        rfl
    rw [hstep, List.filter_cons]
    by_cases hd : cueDue v.gameTimer dat.dt i = true
    · rw [if_pos hd, if_pos hd, List.length_cons]
      omega
    · rw [if_neg hd, if_neg hd]
      omega

/-- The cue requests of the MainGame scene code: one for each boundary in
1..5 whose guard holds for the game timer that the scene code leaves. -/
theorem sceneMainGame_cues (L : Lib) (dat : GameData) (w : World) :
    (sceneMainGame L dat w).cues = w.cues +
      ([1, 2, 3, 4, 5].filter
        (fun i => cueDue (sceneMainGame L dat w).gameTimer dat.dt i)).length := by
  have h4 : (entityStep L (spawnStep L (mainGameHand L
      (mainGameHand L { w with gameTimer := w.gameTimer - dat.dt } 0) 1))).cues = w.cues := by
    simp only [entityStep_cues, spawnStep_cues, mainGameHand_cues]
    rfl
  have hT : (sceneMainGame L dat w).gameTimer
      = (if (entityStep L (spawnStep L (mainGameHand L
          (mainGameHand L { w with gameTimer := w.gameTimer - dat.dt } 0) 1))).gameTimer ≤ 0 then
        ({ entityStep L (spawnStep L (mainGameHand L
            (mainGameHand L { w with gameTimer := w.gameTimer - dat.dt } 0) 1)) with
            scene := Scene.ScoreResult, gameTimer := 8 } : World).sePlay Sound.buzzerSe
          ((entityStep L (spawnStep L (mainGameHand L
            (mainGameHand L { w with gameTimer := w.gameTimer - dat.dt } 0) 1))).sightBase.pos
            + Vec3.smul 2 (entityStep L (spawnStep L (mainGameHand L
              (mainGameHand L { w with gameTimer := w.gameTimer - dat.dt } 0) 1))).fwdVec
            + Vec3.smul 2 (entityStep L (spawnStep L (mainGameHand L
              (mainGameHand L { w with gameTimer := w.gameTimer - dat.dt } 0) 1))).upperVec)
        else entityStep L (spawnStep L (mainGameHand L
          (mainGameHand L { w with gameTimer := w.gameTimer - dat.dt } 0) 1))).gameTimer := by
    unfold sceneMainGame
    dsimp only
    exact foldl_preserves (cueStep dat) World.gameTimer
      (fun a b => cueStep_gameTimer dat a b) _ _
  rw [hT]
  unfold sceneMainGame
  dsimp only
  rw [cueLoop_cues]
  congr 1
  split_ifs
  · rw [sePlay_cues _ Sound.buzzerSe _ (by decide)]
    exact h4
  · exact h4

/-- The cue requests of an initialised MainGame tick: one for each boundary in
1..5 whose guard holds for the game timer that the tick leaves. -/
theorem proc_mainGame_cues (L : Lib) (w : World) (dat : GameData)
    (hinit : w.initialized = true) (hscene : w.scene = Scene.MainGame) :
    (proc L w dat).cues
      = ([1, 2, 3, 4, 5].filter
          (fun i => cueDue (proc L w dat).gameTimer dat.dt i)).length := by
  have hp : (proc L w dat).cues = (sceneMainGame L dat (preScene L (w.begin dat) dat)).cues := by
    rw [proc_of_initialized L w dat hinit, (proc_main_case L w dat).2.1 hscene]
    rfl
  have hg : (proc L w dat).gameTimer
      = (sceneMainGame L dat (preScene L (w.begin dat) dat)).gameTimer := by
    rw [proc_of_initialized L w dat hinit, (proc_main_case L w dat).2.1 hscene]
  rw [hp, hg, sceneMainGame_cues, preScene_cues]
  exact Nat.zero_add _

theorem cueTotal_append (L : Lib) (i : Nat) (as bs : List GameData) :
    ∀ w : World, cueTotal L i w (as ++ bs) = cueTotal L i w as + cueTotal L i (run L w as) bs := by
  induction as with
  | nil => intro w; simp [cueTotal, run]
  | cons a as ih =>
    intro w
    have hrun : run L w (a :: as) = run L (proc L w a) as := rfl
    rw [List.cons_append, cueTotal, cueTotal, ih (proc L w a), hrun]
    omega

/-- A MainGame run with the constant step `δ` (at most 1) that ends with the
tick in which the timer reaches 0: the cue of a boundary `i` in 1..5 is
requested in exactly one tick if the timer starts at `i + δ` or more and in no
tick otherwise, and the run ends in the ScoreResult scene. -/
theorem cueTotal_const (L : Lib) (δ : ℚ) (i : Nat) (hδ : 0 < δ) (hδ1 : δ ≤ 1)
    (hi1 : 1 ≤ i) (hi5 : i ≤ 5) (ds : List GameData) :
    ∀ w : World, w.initialized = true → w.scene = Scene.MainGame → 0 < w.gameTimer →
      (∀ d ∈ ds, d.dt = δ) →
      w.gameTimer - (ds.length : ℚ) * δ ≤ 0 → 0 < w.gameTimer - ((ds.length : ℚ) - 1) * δ →
      cueTotal L i w ds = (if (i : ℚ) + δ ≤ w.gameTimer then 1 else 0) ∧
      (run L w ds).scene = Scene.ScoreResult := by
  have hiq1 : (1 : ℚ) ≤ (i : ℚ) := by exact_mod_cast hi1
  have hiq5 : (i : ℚ) ≤ 5 := by exact_mod_cast hi5
  induction ds with
  | nil =>
    intro w _ _ h0 _ h1 _
    simp only [List.length_nil, Nat.cast_zero] at h1
    linarith
  | cons d ds ih =>
    intro w hinit hscene _ hdt h1 h2
    have hd : d.dt = δ := hdt d (List.mem_cons_self _ _)
    have hlen : ((d :: ds).length : ℚ) = (ds.length : ℚ) + 1 := by
      simp only [List.length_cons, Nat.cast_add, Nat.cast_one]
    rw [hlen] at h1 h2
    have hrun : run L w (d :: ds) = run L (proc L w d) ds := rfl
    have hclock := proc_mainGame L w d hinit hscene
    rw [hd] at hclock
    have hn : (0 : ℚ) ≤ (ds.length : ℚ) := Nat.cast_nonneg _
    by_cases hle : w.gameTimer - δ ≤ 0
    · -- the tick that ends the game; it is the last of the run
      rw [if_pos hle] at hclock
      have hnil : ds = [] := by
        cases ds with
        | nil => rfl
        | cons e es =>
          exfalso
          have hl : ((e :: es).length : ℚ) = (es.length : ℚ) + 1 := by
            simp only [List.length_cons, Nat.cast_add, Nat.cast_one]
          have : (0 : ℚ) ≤ (es.length : ℚ) := Nat.cast_nonneg _
          rw [hl] at h2
          nlinarith
      subst hnil
      have hT : (proc L w d).gameTimer = 8 := congrArg Clock.gameTimer hclock
      have hS : (proc L w d).scene = Scene.ScoreResult := congrArg Clock.scene hclock
      have hno : cueDue (proc L w d).gameTimer d.dt i = false := by
        unfold cueDue
        rw [hT, hd]
        exact decide_eq_false (fun hh => by linarith [hh.2])
      refine ⟨?_, by rw [hrun]; exact hS⟩
      rw [cueTotal, cueTotal, hno, if_neg (fun hh => by cases hh.2),
        if_neg (by intro hh; linarith)]
    · rw [if_neg hle] at hclock
      have hT : (proc L w d).gameTimer = w.gameTimer - δ := congrArg Clock.gameTimer hclock
      have hS : (proc L w d).scene = Scene.MainGame := congrArg Clock.scene hclock
      obtain ⟨ih1, ih2⟩ := ih (proc L w d) (proc_initialized L w d hinit) hS
        (by rw [hT]; linarith)
        (fun e he => hdt e (List.mem_cons_of_mem _ he))
        (by rw [hT]; linarith) (by rw [hT]; linarith)
      refine ⟨?_, by rw [hrun]; exact ih2⟩
      rw [cueTotal, ih1, hT, hd]
      unfold cueDue
      by_cases hc : w.gameTimer - δ ≥ (i : ℚ) ∧ w.gameTimer - δ - δ < (i : ℚ)
      · have h2n : ¬ ((i : ℚ) + δ ≤ w.gameTimer - δ) := by
          intro hh; linarith [hc.2]
        have h3p : (i : ℚ) + δ ≤ w.gameTimer := by linarith [hc.1]
        rw [if_pos ⟨hscene, decide_eq_true hc⟩, if_neg h2n, if_pos h3p]
      · have hcn : ¬ (w.scene = Scene.MainGame ∧
            decide (w.gameTimer - δ ≥ (i : ℚ) ∧ w.gameTimer - δ - δ < (i : ℚ)) = true) :=
          fun hh => hc (of_decide_eq_true hh.2)
        by_cases ha : (i : ℚ) + δ ≤ w.gameTimer - δ
        · have h3p : (i : ℚ) + δ ≤ w.gameTimer := by linarith
          rw [if_neg hcn, if_pos ha, if_pos h3p]
        · have h3n : ¬ ((i : ℚ) + δ ≤ w.gameTimer) := by
            intro hb
            exact hc ⟨by linarith, by linarith⟩
          rw [if_neg hcn, if_neg ha, if_neg h3n]

/-- C24, as the code has it.  The countdown cue plays once per boundary when
the step is regular.  In every initialised MainGame tick the cue is requested
once for each boundary `i` in 1..5 with `gameTimer >= i` and
`gameTimer - dt < i`, where `gameTimer` is the timer the tick leaves.  Over a
whole MainGame run from `gameTimer = 30` to the transition to ScoreResult, with
every step equal to the same positive `δ` of at most 1 second, this holds in
exactly one tick for each boundary `i` in {5, 4, 3, 2, 1}. -/
theorem cue_once_regular (L : Lib) (w : World) (ds : List GameData) (δ : ℚ) (i : Nat)
    (hinit : w.initialized = true) (hscene : w.scene = Scene.MainGame)
    (hT : w.gameTimer = 30) (hδ : 0 < δ) (hδ1 : δ ≤ 1) (hds : ∀ d ∈ ds, d.dt = δ)
    (hlast : 30 - (ds.length : ℚ) * δ ≤ 0) (hprev : 0 < 30 - ((ds.length : ℚ) - 1) * δ)
    (hi1 : 1 ≤ i) (hi5 : i ≤ 5) :
    cueTotal L i w ds = 1 ∧ (run L w ds).scene = Scene.ScoreResult ∧
    (∀ (v : World) (dat : GameData), v.initialized = true → v.scene = Scene.MainGame →
      (proc L v dat).cues
        = ([1, 2, 3, 4, 5].filter
            (fun j => cueDue (proc L v dat).gameTimer dat.dt j)).length) := by
  obtain ⟨h1, h2⟩ := cueTotal_const L δ i hδ hδ1 hi1 hi5 ds w hinit hscene
    (by rw [hT]; norm_num) hds (by rw [hT]; exact hlast) (by rw [hT]; exact hprev)
  have hiq5 : (i : ℚ) ≤ 5 := by exact_mod_cast hi5
  rw [hT, if_pos (by linarith)] at h1
  exact ⟨h1, h2, fun v dat hv hs => proc_mainGame_cues L v dat hv hs⟩

/-- A use of `cue_once_regular`: from the world in which the held-trigger run
started the game, thirty ticks of one second request the cue for the boundary
5 in exactly one tick. -/
theorem cue_once_regular_witness :
    cueTotal Lib.sample 5
      (run Lib.sample World.ready [GameData.held, GameData.held, GameData.held])
      (List.replicate 30 (GameData.wait 1)) = 1 :=
  (cue_once_regular Lib.sample _ (List.replicate 30 (GameData.wait 1)) 1 5
    held_run_starts.1 held_run_starts.2.1 held_run_starts.2.2.2 (by norm_num) (by norm_num)
    (fun d hd => by rw [List.eq_of_mem_replicate hd]; rfl)
    (by rw [List.length_replicate]; norm_num) (by rw [List.length_replicate]; norm_num)
    (by norm_num) (by norm_num)).1

/-- In the run `GameData.uneven` every step is positive and at most one second. -/
theorem uneven_steps : ∀ d ∈ GameData.uneven, 0 < d.dt ∧ d.dt ≤ 1 := by
  intro d hd
  unfold GameData.uneven at hd
  simp only [List.mem_append, List.mem_replicate, List.mem_cons, List.mem_singleton,
    List.not_mem_nil, or_false] at hd
  rcases hd with (⟨_, rfl⟩ | rfl | rfl | rfl) | ⟨_, rfl⟩ <;>
    norm_num [GameData.wait, GameData.sample]

/-- From an initialised MainGame world with timer 30, the run `GameData.uneven`
ends in the ScoreResult scene and the guard of the cue of boundary 5 holds in
two of its ticks: with the timer at 5.5 after a step of 1 s, and with the
timer at 5.1 after a step of 0.4 s. -/
theorem uneven_cues (L : Lib) (w : World) (hinit : w.initialized = true)
    (hscene : w.scene = Scene.MainGame) (hT : w.gameTimer = 30) :
    (run L w GameData.uneven).scene = Scene.ScoreResult ∧
    2 ≤ cueTotal L 5 w GameData.uneven := by
  have hd : ∀ q : ℚ, (GameData.wait q).dt = q := fun _ => rfl
  have hsplit : GameData.uneven
      = (List.replicate 23 (GameData.wait 1) ++ [GameData.wait (1 / 2)])
        ++ ([GameData.wait 1, GameData.wait (2 / 5)] ++ List.replicate 6 (GameData.wait 1)) := by
    simp [GameData.uneven]
  have hsum : dtSum (List.replicate 23 (GameData.wait 1) ++ [GameData.wait (1 / 2)])
      = 47 / 2 := by
    simp [dtSum, GameData.wait, GameData.sample]
    norm_num
  obtain ⟨pi, ps, pt⟩ := run_mainGame L
    (List.replicate 23 (GameData.wait 1) ++ [GameData.wait (1 / 2)]) w hinit hscene
    (by
      intro d hd
      simp only [List.mem_append, List.mem_replicate, List.mem_singleton] at hd
      rcases hd with ⟨_, rfl⟩ | rfl <;> norm_num [GameData.wait, GameData.sample])
    (by rw [hsum, hT]; norm_num)
  rw [hsum, hT] at pt
  -- the tick of 1 s that leaves the timer at 5.5
  have ca := proc_mainGame L _ (GameData.wait 1) pi ps
  rw [pt, hd, if_neg (by norm_num)] at ca
  have ai := proc_initialized L _ (GameData.wait 1) pi
  have as : (proc L (run L w (List.replicate 23 (GameData.wait 1) ++ [GameData.wait (1 / 2)]))
      (GameData.wait 1)).scene = Scene.MainGame := congrArg Clock.scene ca
  have at_ : (proc L (run L w (List.replicate 23 (GameData.wait 1) ++ [GameData.wait (1 / 2)]))
      (GameData.wait 1)).gameTimer = 30 - 47 / 2 - 1 := congrArg Clock.gameTimer ca
  -- the tick of 0.4 s that leaves the timer at 5.1
  have cb := proc_mainGame L _ (GameData.wait (2 / 5)) ai as
  rw [at_, hd, if_neg (by norm_num)] at cb
  have bi := proc_initialized L _ (GameData.wait (2 / 5)) ai
  have bs : (proc L (proc L (run L w (List.replicate 23 (GameData.wait 1)
      ++ [GameData.wait (1 / 2)])) (GameData.wait 1)) (GameData.wait (2 / 5))).scene
      = Scene.MainGame := congrArg Clock.scene cb
  have bt : (proc L (proc L (run L w (List.replicate 23 (GameData.wait 1)
      ++ [GameData.wait (1 / 2)])) (GameData.wait 1)) (GameData.wait (2 / 5))).gameTimer
      = 30 - 47 / 2 - 1 - 2 / 5 := congrArg Clock.gameTimer cb
  have hend := (cueTotal_const L 1 5 (by norm_num) (by norm_num) (by norm_num) (by norm_num)
    (List.replicate 6 (GameData.wait 1)) _ bi bs (by rw [bt]; norm_num)
    (fun d hd => by rw [List.eq_of_mem_replicate hd]; rfl)
    (by rw [bt, List.length_replicate]; norm_num)
    (by rw [bt, List.length_replicate]; norm_num)).2
  constructor
  · rw [hsplit, run_append, run_append]
    exact hend
  · rw [hsplit, cueTotal_append, List.cons_append, List.cons_append, List.nil_append,
      cueTotal, cueTotal, at_, bt, hd, hd]
    have e1 : cueDue (30 - 47 / 2 - 1) 1 5 = true := by
      unfold cueDue; exact decide_eq_true (by norm_num)
    have e2 : cueDue (30 - 47 / 2 - 1 - 2 / 5) (2 / 5) 5 = true := by
      unfold cueDue; exact decide_eq_true (by norm_num)
    rw [e1, e2, if_pos ⟨ps, rfl⟩, if_pos ⟨as, rfl⟩]
    omega

/-- C24, the claim as written fails.  From the world in which the held-trigger
run started the game (MainGame, timer 30), the run `GameData.uneven`, whose
steps are all positive and at most one second, goes on to the transition to
ScoreResult, and the cue of the boundary 5 is requested in two of its ticks. -/
theorem cue_twice_irregular :
    (∀ d ∈ GameData.uneven, 0 < d.dt ∧ d.dt ≤ 1) ∧
    (run Lib.sample World.ready [GameData.held, GameData.held, GameData.held]).scene
      = Scene.MainGame ∧
    (run Lib.sample World.ready [GameData.held, GameData.held, GameData.held]).gameTimer = 30 ∧
    (run Lib.sample
      (run Lib.sample World.ready [GameData.held, GameData.held, GameData.held])
      GameData.uneven).scene = Scene.ScoreResult ∧
    2 ≤ cueTotal Lib.sample 5
      (run Lib.sample World.ready [GameData.held, GameData.held, GameData.held])
      GameData.uneven :=
  ⟨uneven_steps, held_run_starts.2.1, held_run_starts.2.2.2,
    (uneven_cues Lib.sample _ held_run_starts.1 held_run_starts.2.1 held_run_starts.2.2.2).1,
    (uneven_cues Lib.sample _ held_run_starts.1 held_run_starts.2.1 held_run_starts.2.2.2).2⟩

/-! ## The consequences of a scoring hit -/

/-- The targets after `lockedon->get().alive = false` on the target at index
`k`, index by index. -/
theorem setDead_get (ts : List Target) (k j : Nat) :
    (setDead ts k)[j]? = (ts[j]?).map (fun t => if j = k then { t with alive := false } else t) := by
  induction ts generalizing k j with
  | nil => rfl
  | cons t ts ih =>
    cases k with
    | zero =>
      cases j with
      | zero => simp only [setDead, List.getElem?_cons_zero, Option.map_some', if_true]
      | succ j =>
        simp only [setDead, List.getElem?_cons_succ, Nat.succ_ne_zero, if_false]
        cases ts[j]? <;> rfl
    | succ k =>
      cases j with
      | zero =>
        simp only [setDead, List.getElem?_cons_zero, Option.map_some']
        rw [if_neg (by omega)]
      | succ j =>
        simp only [setDead, List.getElem?_cons_succ, ih k j, Nat.succ_inj']

/-- A target that is dead before the hand loop body of a hand is dead after
it. -/
theorem mainGameHand_dead (L : Lib) (w : World) (i : Fin 2) (k : Nat) (t : Target)
    (hk : w.targets[k]? = some t) (hd : t.alive = false) :
    ∃ t' : Target, (mainGameHand L w i).targets[k]? = some t' ∧ t'.alive = false := by
  have key : ∀ j : Nat, ∃ t' : Target, (setDead w.targets j)[k]? = some t' ∧ t'.alive = false := by
    intro j
    rw [setDead_get, hk]
    by_cases hkj : k = j
    · exact ⟨{ t with alive := false }, by simp only [Option.map_some', if_pos hkj], rfl⟩
    · exact ⟨t, by simp only [Option.map_some', if_neg hkj], hd⟩
  cases hp : w.handPose i with
  | none => rw [mainGameHand_no_pose L w i hp]; exact ⟨t, hk, hd⟩
  | some p =>
    cases hl : (lockOf w i p).lockedon with
    | none =>
      rw [(mainGameHand_idle L w i p hp (Or.inl hl)).2.1]
      exact ⟨t, hk, hd⟩
    | some kh =>
      obtain ⟨j, hit⟩ := kh
      cases ht : w.gameDat.trigger i with
      | false =>
        rw [(mainGameHand_idle L w i p hp (Or.inr ht)).2.1]
        exact ⟨t, hk, hd⟩
      | true =>
        rw [(mainGameHand_scores L w i p j hit hp hl ht).2.2]
        exact key j

/-- The lock-on that the target loop ends with is a front-facing hit of the
target at the recorded index. -/
theorem lockOf_valid (w : World) (i : Fin 2) (hp : Pose) (k : Nat) (hit : Hit)
    (h : (lockOf w i hp).lockedon = some (k, hit)) :
    ∃ T : Target, w.targets[k]? = some T ∧ T.RayCast hp.pos hp.ray = some hit ∧
      hit.enable = true := by
  unfold lockOf at h
  refine lockLoop_lockedon hp w.targets 0 _
    (fun k hit => ∃ T : Target, w.targets[k]? = some T ∧ T.RayCast hp.pos hp.ray = some hit ∧
      hit.enable = true) ?_ ?_ k hit h
  · intro k hit hs
    cases hs
  · intro j t hit hj hc he
    rw [Nat.zero_add]
    exact ⟨t, by rw [← List.get?_eq_getElem?]; exact hj, hc, he⟩

/-- A run of `emplace_back(p)` on the boom effects appends as many boom
effects as it has steps, each at `p`, new and alive. -/
theorem addBoom_run (L : Lib) (p : Vec3) (l : List Nat) :
    ∀ v : World, ∃ bs : List boomEffect, bs.length = l.length ∧
      (∀ b ∈ bs, b.pos = p ∧ b.timer = 0 ∧ b.alive = true) ∧
      (l.foldl (fun v _ => addBoom L p v) v).boomEffects = v.boomEffects ++ bs := by
  induction l with
  | nil => intro v; exact ⟨[], rfl, fun _ h => absurd h (List.not_mem_nil _), by simp⟩
  | cons n l ih =>
    intro v
    obtain ⟨bs, h1, h2, h3⟩ := ih (addBoom L p v)
    refine ⟨boomEffect.new L v.upperVec v.rightVec p (L.rand v.randCount) :: bs, ?_, ?_, ?_⟩
    · simp only [List.length_cons, h1]
    · intro b hb
      rcases List.mem_cons.1 hb with rfl | hb
      · exact ⟨rfl, rfl, rfl⟩
      · exact h2 b hb
    · rw [List.foldl_cons, h3]
      show (v.boomEffects ++ [_]) ++ bs = _
      rw [List.append_assoc]
      rfl

/-- A scoring hit of a hand appends ten boom effects at the hit point
`hit.colPos` to the boom effects. -/
theorem mainGameHand_booms (L : Lib) (w : World) (i : Fin 2) (hp : Pose) (k : Nat) (hit : Hit)
    (hpose : w.handPose i = some hp) (hlock : (lockOf w i hp).lockedon = some (k, hit))
    (htrig : w.gameDat.trigger i = true) :
    ∃ bs : List boomEffect, bs.length = 10 ∧
      (∀ b ∈ bs, b.pos = hit.colPos ∧ b.timer = 0 ∧ b.alive = true) ∧
      (mainGameHand L w i).boomEffects = w.boomEffects ++ bs := by
  rw [mainGameHand_of_pose L w i hp hpose]
  unfold applyHit
  rw [hlock]
  dsimp only
  rw [if_pos htrig]
  obtain ⟨bs, h1, h2, h3⟩ := addBoom_run L hit.colPos (List.range 10)
    (World.sePlay { { w with rayD := Function.update w.rayD i (lockOf w i hp).rayD } with
      targets := setDead w.targets k } Sound.tgtSe hit.colPos)
  exact ⟨bs, by rw [h1]; rfl, h2, h3⟩

/-- Erasing from a list an element whose image fails the test does not change
the filtered images. -/
theorem filter_map_eraseIdx {α β : Type} (f : α → β) (p : β → Bool) (l : List α) :
    ∀ (k : Nat) (a : α), l[k]? = some a → p (f a) = false →
      (l.map f).filter p = ((l.eraseIdx k).map f).filter p := by
  induction l with
  | nil => intro k a h; cases h
  | cons x xs ih =>
    intro k a h hp
    cases k with
    | zero =>
      simp only [List.getElem?_cons_zero, Option.some.injEq] at h
      subst h
      simp only [List.map_cons, List.eraseIdx_cons_zero]
      rw [List.filter_cons_of_neg (by rw [hp]; decide)]
    | succ k =>
      simp only [List.getElem?_cons_succ] at h
      simp only [List.map_cons, List.eraseIdx_cons_succ, List.filter_cons]
      rw [ih k a h hp]

/-- A target that a hand marks dead in an initialised MainGame tick is dead in
the collection that the hand loop leaves, and the targets after the tick are
the live updated targets of the collection without it. -/
theorem proc_kill (L : Lib) (w : World) (dat : GameData) (i : Fin 2) (k : Nat)
    (hinit : w.initialized = true) (hscene : w.scene = Scene.MainGame)
    (hshot : shotIndex (handWorld L w dat i) i = some k)
    (hk : k < (handWorld L w dat i).targets.length) :
    (∃ T' : Target, (shotWorld L w dat).targets[k]? = some T' ∧ T'.alive = false) ∧
    (proc L w dat).targets
      = (((spawnStep L (shotWorld L w dat)).targets.eraseIdx k).map
          (fun t => t.proc L dat.dt)).filter (fun t => t.alive) := by
  -- the hand's own loop body marks the target dead
  have hown : ∃ T' : Target, (mainGameHand L (handWorld L w dat i) i).targets[k]? = some T' ∧
      T'.alive = false := by
    unfold shotIndex at hshot
    cases hp : (handWorld L w dat i).handPose i with
    | none => rw [hp] at hshot; cases hshot
    | some p =>
      rw [hp] at hshot
      dsimp only at hshot
      cases hl : (lockOf (handWorld L w dat i) i p).lockedon with
      | none => rw [hl] at hshot; cases hshot
      | some kh =>
        obtain ⟨j, hit⟩ := kh
        rw [hl] at hshot
        dsimp only at hshot
        cases ht : (handWorld L w dat i).gameDat.trigger i with
        | false => rw [ht] at hshot; cases hshot
        | true =>
          rw [ht] at hshot
          simp only [if_true, Option.some.injEq] at hshot
          subst hshot
          rw [(mainGameHand_scores L _ i p j hit hp hl ht).2.2, setDead_get,
            List.getElem?_eq_getElem hk]
          exact ⟨{ (handWorld L w dat i).targets[j] with alive := false },
            by simp only [Option.map_some', if_true], rfl⟩
  have hdead : ∃ T' : Target, (shotWorld L w dat).targets[k]? = some T' ∧ T'.alive = false := by
    obtain ⟨T', h1, h2⟩ := hown
    have h0 : handWorld L w dat 0 = handsWorld L w dat := rfl
    have h1' : handWorld L w dat 1 = mainGameHand L (handsWorld L w dat) 0 := rfl
    fin_cases i
    · exact mainGameHand_dead L _ 1 k T' (by rw [← h0]; exact h1) h2
    · exact ⟨T', by unfold shotWorld; rw [← h1']; exact h1, h2⟩
  refine ⟨hdead, ?_⟩
  obtain ⟨T', h1, h2⟩ := hdead
  have ht : (proc L w dat).targets = _ :=
    congrArg Prod.fst (proc_mainGame_stock L w dat hinit hscene)
  have hlt : k < (shotWorld L w dat).targets.length := by
    by_contra hge
    rw [List.getElem?_eq_none (by omega)] at h1
    cases h1
  have hsp : (spawnStep L (shotWorld L w dat)).targets[k]? = some T' := by
    rw [spawnStep_targets, List.getElem?_append_left hlt]
    exact h1
  rw [ht]
  exact filter_map_eraseIdx _ _ _ k T' hsp (by rw [Target.proc_alive, h2]; split_ifs <;> rfl)

/-- C25.  Consequences of a scoring hit.  In an initialised MainGame tick, let
hand `i`, with smoothed pose `hp`, end its target loop with the target `T` at
index `k` locked on, hit at the point `hit.colPos` where its forward ray meets
`T`, and let `trigger[i]` be pressed.  Then the hand marks `T` dead; `T` is dead
in the collection that the hand loop leaves and the targets at the end of the
tick are the live updated targets of that collection without `T`; and the hand
appends exactly ten boom effects, each with position `hit.colPos`, timer 0 and
alive. -/
theorem scoring_hit_effects (L : Lib) (w : World) (dat : GameData) (i : Fin 2) (hp : Pose)
    (k : Nat) (hit : Hit) (hinit : w.initialized = true) (hscene : w.scene = Scene.MainGame)
    (hpose : (proc L w dat).handPose i = some hp)
    (hlock : (lockOf (handWorld L w dat i) i hp).lockedon = some (k, hit))
    (htrig : dat.trigger i = true) :
    (∃ T : Target, (handWorld L w dat i).targets[k]? = some T ∧
      T.RayCast hp.pos hp.ray = some hit ∧
      hit.colPos = hp.pos + Vec3.smul hit.rayLen hp.ray) ∧
    (mainGameHand L (handWorld L w dat i) i).targets
      = setDead (handWorld L w dat i).targets k ∧
    (∃ T' : Target, (shotWorld L w dat).targets[k]? = some T' ∧ T'.alive = false) ∧
    (proc L w dat).targets
      = (((spawnStep L (shotWorld L w dat)).targets.eraseIdx k).map
          (fun t => t.proc L dat.dt)).filter (fun t => t.alive) ∧
    (∃ bs : List boomEffect, bs.length = 10 ∧
      (∀ b ∈ bs, b.pos = hit.colPos ∧ b.timer = 0 ∧ b.alive = true) ∧
      (mainGameHand L (handWorld L w dat i) i).boomEffects
        = (handWorld L w dat i).boomEffects ++ bs) := by
  obtain ⟨hg, _, hh⟩ := handWorld_fields L w dat i hinit
  have hpv : (handWorld L w dat i).handPose i = some hp := by rw [hh]; exact hpose
  have htv : (handWorld L w dat i).gameDat.trigger i = true := by rw [hg]; exact htrig
  obtain ⟨T, hT, hc, _⟩ := lockOf_valid _ i hp k hit hlock
  have hlt : k < (handWorld L w dat i).targets.length := by
    by_contra hge
    rw [List.getElem?_eq_none (by omega)] at hT
    cases hT
  have hshot : shotIndex (handWorld L w dat i) i = some k := by
    unfold shotIndex
    rw [hpv]
    dsimp only
    rw [hlock]
    dsimp only
    rw [if_pos htv]
  obtain ⟨hd, hend⟩ := proc_kill L w dat i k hinit hscene hshot hlt
  exact ⟨⟨T, hT, hc, (Target.rayCast_eq_some T hp.pos hp.ray hit hc).2.2.1⟩,
    (mainGameHand_scores L _ i hp k hit hpv hlock htv).2.2, hd, hend,
    mainGameHand_booms L _ i hp k hit hpv hlock htv⟩

/-- A use of `scoring_hit_effects`: in the tick `proc Lib.sample World.shot
GameData.held`, hand 0 shoots `Target.sample`, which leaves it dead at index 0 of
the collection that the hand loop leaves. -/
theorem scoring_hit_effects_witness :
    ∃ T' : Target, (shotWorld Lib.sample World.shot GameData.held).targets[0]? = some T' ∧
      T'.alive = false :=
  (scoring_hit_effects Lib.sample World.shot GameData.held 0 Pose.sample 0
    ⟨true, ⟨0, 1.2, -1⟩, 2, Radical.ofRat 0.039⟩ shot_facts.1 shot_facts.2.1
    (by rw [← (handsWorld_fields Lib.sample World.shot GameData.held shot_facts.1).2.2.2.2.2]
        exact shot_hands.1 0)
    shot_lock rfl).2.2.1

/-! ## Two targets on one ray -/

/-- With three samples in the ring buffer of hand `i`, all `Pose.sample`, a tick
whose raw pose for the hand is `Pose.sample` gives the smoothed pose
`Pose.sample`. -/
theorem aimed_pose (v : World) (d : GameData) (i : Fin 2) (hinit : v.initialized = true)
    (hinv : BufInv (v.handPoseBuf i) (v.handPoseBufIndex i) 3)
    (hslots : ∀ j, v.handPoseBuf i j = none ∨ v.handPoseBuf i j = some Pose.sample)
    (hd : d.handPoses i = some Pose.sample) :
    (proc Lib.sample v d).handPose i = some Pose.sample := by
  have hs1 : samples i [d] = 1 := by
    simp [samples, hd]
  have hsome := ((run_bufInv Lib.sample i [d] v 3 hinit hinv).2
    (List.cons_ne_nil _ _)).2 (by rw [hs1]; omega)
  rcases (aim_step v d i hinit hd hslots).2 with h | h
  · have h' : (run Lib.sample v [d]).handPose i = none := h
    rw [h'] at hsome
    cases hsome
  · exact h

/-- The forward ray of `Pose.sample` hits `Target.screen` on its back, 1 away, at
its centre. -/
theorem screen_hit :
    Target.screen.RayCast Pose.sample.pos Pose.sample.ray
      = some ⟨false, ⟨0, 1.2, 0⟩, 1, Radical.ofRat 0⟩ := by
  have hray : Pose.sample.ray = ⟨0, 0, -1⟩ := by
    norm_num [Pose.sample, Pose.ray, Quat.rotate, Quat.identity, cross, Vec3.smul,
      Vec3.add_def]
  have hn : Target.screen.pose.ori.rotate ⟨0, 0, 1⟩ = ⟨0, 0, 1⟩ := by
    norm_num [Target.screen, Target.resting, Quat.rotate, Quat.identity, cross, Vec3.smul,
      Vec3.add_def]
  have hpt : Target.screen.pose.pos = ⟨0, 1.2, 0⟩ := rfl
  have hpo : Pose.sample.pos = ⟨0, 1.2, 1⟩ := rfl
  have hi : intersectRayPlane Pose.sample.pos Pose.sample.ray Target.screen.pose.pos
      (Target.screen.pose.ori.rotate ⟨0, 0, 1⟩) = some 1 := by
    rw [hray, hn, hpt, hpo]
    norm_num [intersectRayPlane, dot, Vec3.sub_def]
  have hl : (length (Pose.sample.pos + Vec3.smul 1 Pose.sample.ray
      - Target.screen.pose.pos)).le 0.2 = true := by
    rw [hray, hpt, hpo]
    norm_num [length, Radical.le, dot, Vec3.smul, Vec3.add_def, Vec3.sub_def]
  rw [Target.rayCast_of_intersect _ _ _ 1 hi hl, hray, hn, hpt, hpo]
  norm_num [length, dot, Vec3.smul, Vec3.add_def, Vec3.sub_def, Radical.ofRat]

/-- The target loop of a hand at `Pose.sample` over `Target.sample` followed by
`Target.screen`: `Target.sample` stays locked on with its hit point
`(0, 1.2, -1)`, while the recorded distance is 1 and `colPos` is `(0, 1.2, 0)`,
the point on `Target.screen`. -/
theorem lined_loop :
    lockLoop Pose.sample [Target.sample, Target.screen] 0
        { rayD := none, lockedon := none, colPos := Vec3.zero }
      = { rayD := some 1, colPos := ⟨0, 1.2, 0⟩,
          lockedon := some (0, ⟨true, ⟨0, 1.2, -1⟩, 2, Radical.ofRat 0.039⟩) } := by
  have hc : Pose.sample.pos + Vec3.smul 1 Pose.sample.ray = ⟨0, 1.2, 0⟩ := by
    norm_num [Pose.sample, Pose.ray, Quat.rotate, Quat.identity, cross, Vec3.smul,
      Vec3.add_def]
  have h1 : lockStep Pose.sample { rayD := none, lockedon := none, colPos := Vec3.zero }
      0 Target.sample
      = { rayD := some 2, colPos := Pose.sample.pos + Vec3.smul 2 Pose.sample.ray,
          lockedon := some (0, ⟨true, ⟨0, 1.2, -1⟩, 2, Radical.ofRat 0.039⟩) } := by
    rw [lockStep_nearer Pose.sample _ 0 Target.sample _ sample_hit (fun r hr => by cases hr)]
    rfl
  have h2 : lockStep Pose.sample
      { rayD := some 2, colPos := Pose.sample.pos + Vec3.smul 2 Pose.sample.ray,
        lockedon := some (0, ⟨true, ⟨0, 1.2, -1⟩, 2, Radical.ofRat 0.039⟩) }
      1 Target.screen
      = { rayD := some 1, colPos := ⟨0, 1.2, 0⟩,
          lockedon := some (0, ⟨true, ⟨0, 1.2, -1⟩, 2, Radical.ofRat 0.039⟩) } := by
    rw [lockStep_nearer Pose.sample _ 1 Target.screen _ screen_hit
      (fun r hr => by
        simp only [Option.some.injEq] at hr
        rw [← hr]; norm_num)]
    dsimp only
    rw [hc]
    rfl
  have e : lockLoop Pose.sample [Target.sample, Target.screen] 0
      { rayD := none, lockedon := none, colPos := Vec3.zero }
      = lockStep Pose.sample
          (lockStep Pose.sample { rayD := none, lockedon := none, colPos := Vec3.zero }
            0 Target.sample) 1 Target.screen := rfl
  rw [e, h1, h2]

/-- The world in which the hand loop starts in the tick
`proc Lib.sample World.lined GameData.held`: initialised, in MainGame, hand 0 has
the smoothed pose `Pose.sample`, and its target loop ends with `Target.sample`
locked on and `colPos` on `Target.screen`. -/
theorem lined_hands :
    World.lined.initialized = true ∧ World.lined.scene = Scene.MainGame ∧
    (handsWorld Lib.sample World.lined GameData.held).handPose 0 = some Pose.sample ∧
    (handsWorld Lib.sample World.lined GameData.held).gameDat = GameData.held ∧
    lockOf (handsWorld Lib.sample World.lined GameData.held) 0 Pose.sample
      = { rayD := some 1, colPos := ⟨0, 1.2, 0⟩,
          lockedon := some (0, ⟨true, ⟨0, 1.2, -1⟩, 2, Radical.ofRat 0.039⟩) } := by
  have hi : World.lined.initialized = true := held_run_starts.1
  have hs : World.lined.scene = Scene.MainGame := held_run_starts.2.1
  obtain ⟨f1, f2, _, f4, _, f6⟩ := handsWorld_fields Lib.sample World.lined GameData.held hi
  obtain ⟨hinv, hslots⟩ := held_buffers 0
  have hp := aimed_pose World.lined GameData.held 0 hi hinv hslots rfl
  refine ⟨hi, hs, by rw [f6]; exact hp, f2, ?_⟩
  unfold lockOf
  rw [f4, f1]
  exact lined_loop

/-- C26.  The score effect is created at `colPos`, the nearest intersection of
any facing, not at the hit point of the locked-on target.  In the tick
`proc Lib.sample World.lined GameData.held` hand 0, with its trigger pressed,
locks on `Target.sample`, which its ray meets at `(0, 1.2, -1)`; the ten boom
effects of the hit are created at `(0, 1.2, -1)`, but the score effect is
created at `(0, 1.2, 0)`, the point where the ray meets the back-facing
`Target.screen`. -/
theorem score_effect_off_hit :
    World.lined.initialized = true ∧ World.lined.scene = Scene.MainGame ∧
    (lockOf (handsWorld Lib.sample World.lined GameData.held) 0 Pose.sample).lockedon
      = some (0, ⟨true, ⟨0, 1.2, -1⟩, 2, Radical.ofRat 0.039⟩) ∧
    Target.sample.RayCast Pose.sample.pos Pose.sample.ray
      = some ⟨true, ⟨0, 1.2, -1⟩, 2, Radical.ofRat 0.039⟩ ∧
    Target.screen.RayCast Pose.sample.pos Pose.sample.ray
      = some ⟨false, ⟨0, 1.2, 0⟩, 1, Radical.ofRat 0⟩ ∧
    (mainGameHand Lib.sample (handsWorld Lib.sample World.lined GameData.held) 0).scoreEffects
      = (handsWorld Lib.sample World.lined GameData.held).scoreEffects ++
        [scoreEffect.new Lib.sample (handsWorld Lib.sample World.lined GameData.held).stagePose
          ⟨0, 1.2, 0⟩ 0] ∧
    (∃ bs : List boomEffect, bs.length = 10 ∧ (∀ b ∈ bs, b.pos = ⟨0, 1.2, -1⟩) ∧
      (mainGameHand Lib.sample (handsWorld Lib.sample World.lined GameData.held) 0).boomEffects
        = (handsWorld Lib.sample World.lined GameData.held).boomEffects ++ bs) := by
  obtain ⟨hi, hs, hp, hg, hl⟩ := lined_hands
  have hlock : (lockOf (handsWorld Lib.sample World.lined GameData.held) 0 Pose.sample).lockedon
      = some (0, ⟨true, ⟨0, 1.2, -1⟩, 2, Radical.ofRat 0.039⟩) := by rw [hl]
  have ht : (handsWorld Lib.sample World.lined GameData.held).gameDat.trigger 0 = true := by
    rw [hg]; rfl
  have hsc := (mainGameHand_scores Lib.sample _ 0 Pose.sample 0 _ hp hlock ht).2.1
  obtain ⟨bs, b1, b2, b3⟩ := mainGameHand_booms Lib.sample _ 0 Pose.sample 0 _ hp hlock ht
  have htier : (scoreBand (Radical.ofRat 0.039)).1 = 0 := by
    norm_num [scoreBand, Radical.lt, Radical.ofRat]
  refine ⟨hi, hs, hlock, sample_hit, screen_hit, ?_, bs, b1, fun b hb => (b2 b hb).1, b3⟩
  rw [hsc, hl]
  dsimp only
  rw [htier]

/-! ## The beam length and the order of the two hands -/

/-- The distance recorded by the loop body `lockStep`. -/
theorem lockStep_rayD (hp : Pose) (s : LockState) (k : Nat) (t : Target) :
    (lockStep hp s k t).rayD =
      match t.RayCast hp.pos hp.ray with
      | none => s.rayD
      | some res =>
        match s.rayD with
        | none => some res.rayLen
        | some r => if res.rayLen < r then some res.rayLen else some r := by
  unfold lockStep
  dsimp only
  cases hc : t.RayCast hp.pos hp.ray with
  | none => rfl
  | some res =>
    dsimp only
    cases hr : s.rayD with
    | none => simp
    | some r =>
      dsimp only
      by_cases hlt : res.rayLen < r
      · simp [hlt]
      · simp [hlt, hr]

/-- The distance that the target loop ends with: it is the distance recorded
before or the distance of a hit of one of the targets, it is no greater than
either, and it is absent only if none was recorded before and the ray hits no
target. -/
theorem lockLoop_rayD (hp : Pose) (ts : List Target) :
    ∀ (k : Nat) (s : LockState),
      (∀ d, (lockLoop hp ts k s).rayD = some d →
        (s.rayD = some d ∨
          ∃ t ∈ ts, ∃ hit : Hit, t.RayCast hp.pos hp.ray = some hit ∧ hit.rayLen = d) ∧
        (∀ t ∈ ts, ∀ hit : Hit, t.RayCast hp.pos hp.ray = some hit → d ≤ hit.rayLen) ∧
        (∀ d0, s.rayD = some d0 → d ≤ d0)) ∧
      ((lockLoop hp ts k s).rayD = none →
        s.rayD = none ∧ ∀ t ∈ ts, t.RayCast hp.pos hp.ray = none) := by
  induction ts with
  | nil =>
    intro k s
    refine ⟨fun d hd => ⟨Or.inl hd, fun t ht => absurd ht (List.not_mem_nil _), ?_⟩,
      fun hn => ⟨hn, fun t ht => absurd ht (List.not_mem_nil _)⟩⟩
    intro d0 h0
    have hd' : s.rayD = some d := hd
    rw [hd'] at h0
    cases h0
    exact le_refl _
  | cons t ts ih =>
    intro k s
    have hloop : lockLoop hp (t :: ts) k s = lockLoop hp ts (k + 1) (lockStep hp s k t) := rfl
    rw [hloop]
    obtain ⟨ih1, ih2⟩ := ih (k + 1) (lockStep hp s k t)
    have hstep := lockStep_rayD hp s k t
    constructor
    · intro d hd
      obtain ⟨a1, a2, a3⟩ := ih1 d hd
      cases hc : t.RayCast hp.pos hp.ray with
      | none =>
        rw [hc] at hstep
        dsimp only at hstep
        rw [hstep] at a1 a3
        refine ⟨?_, ?_, a3⟩
        · rcases a1 with h | ⟨t', ht', hit, h1, h2⟩
          · exact Or.inl h
          · exact Or.inr ⟨t', List.mem_cons_of_mem _ ht', hit, h1, h2⟩
        · intro t' ht' hit hh
          rcases List.mem_cons.1 ht' with rfl | ht'
          · rw [hc] at hh; cases hh
          · exact a2 t' ht' hit hh
      | some res =>
        rw [hc] at hstep
        dsimp only at hstep
        cases hr : s.rayD with
        | none =>
          rw [hr] at hstep
          dsimp only at hstep
          rw [hstep] at a1 a3
          have hle : d ≤ res.rayLen := a3 _ rfl
          refine ⟨Or.inr ?_, ?_, fun d0 h0 => by cases h0⟩
          · rcases a1 with h | ⟨t', ht', hit, h1, h2⟩
            · exact ⟨t, List.mem_cons_self _ _, res, hc, Option.some.inj h⟩
            · exact ⟨t', List.mem_cons_of_mem _ ht', hit, h1, h2⟩
          · intro t' ht' hit hh
            rcases List.mem_cons.1 ht' with rfl | ht'
            · rw [hc] at hh
              cases hh
              exact hle
            · exact a2 t' ht' hit hh
        | some r =>
          rw [hr] at hstep
          dsimp only at hstep
          by_cases hlt : res.rayLen < r
          · rw [if_pos hlt] at hstep
            rw [hstep] at a1 a3
            have hle : d ≤ res.rayLen := a3 _ rfl
            refine ⟨Or.inr ?_, ?_, ?_⟩
            · rcases a1 with h | ⟨t', ht', hit, h1, h2⟩
              · exact ⟨t, List.mem_cons_self _ _, res, hc, Option.some.inj h⟩
              · exact ⟨t', List.mem_cons_of_mem _ ht', hit, h1, h2⟩
            · intro t' ht' hit hh
              rcases List.mem_cons.1 ht' with rfl | ht'
              · rw [hc] at hh
                cases hh
                exact hle
              · exact a2 t' ht' hit hh
            · intro d0 h0
              cases h0
              linarith
          · rw [if_neg hlt] at hstep
            rw [hstep] at a1 a3
            have hle : d ≤ r := a3 _ rfl
            refine ⟨?_, ?_, ?_⟩
            · rcases a1 with h | ⟨t', ht', hit, h1, h2⟩
              · exact Or.inl h
              · exact Or.inr ⟨t', List.mem_cons_of_mem _ ht', hit, h1, h2⟩
            · intro t' ht' hit hh
              rcases List.mem_cons.1 ht' with rfl | ht'
              · rw [hc] at hh
                cases hh
                linarith [not_lt.1 hlt]
              · exact a2 t' ht' hit hh
            · intro d0 h0
              cases h0
              exact hle
    · intro hn
      obtain ⟨b1, b2⟩ := ih2 hn
      rw [hstep] at b1
      cases hc : t.RayCast hp.pos hp.ray with
      | none =>
        rw [hc] at b1
        refine ⟨b1, ?_⟩
        intro t' ht'
        rcases List.mem_cons.1 ht' with rfl | ht'
        · exact hc
        · exact b2 t' ht'
      | some res =>
        rw [hc] at b1
        dsimp only at b1
        cases hr : s.rayD with
        | none => rw [hr] at b1; cases b1
        | some r =>
          rw [hr] at b1
          dsimp only at b1
          split_ifs at b1

/-- The target loop does not read the `alive` flag: marking a target dead
does not change what the loop computes. -/
theorem lockLoop_setDead (hp : Pose) (ts : List Target) :
    ∀ (j k : Nat) (s : LockState), lockLoop hp (setDead ts j) k s = lockLoop hp ts k s := by
  induction ts with
  | nil => intro j k s; rfl
  | cons t ts ih =>
    intro j k s
    cases j with
    | zero => rfl
    | succ j =>
      show lockLoop hp (setDead ts j) (k + 1) (lockStep hp s k t) = _
      rw [ih]
      rfl

/-- The targets after the hand loop body of a hand: those before, with at most
one of them marked dead. -/
theorem mainGameHand_marks (L : Lib) (w : World) (i : Fin 2) :
    (mainGameHand L w i).targets = w.targets ∨
      ∃ k, (mainGameHand L w i).targets = setDead w.targets k := by
  cases hp : w.handPose i with
  | none => left; rw [mainGameHand_no_pose L w i hp]
  | some p =>
    cases hl : (lockOf w i p).lockedon with
    | none => left; exact (mainGameHand_idle L w i p hp (Or.inl hl)).2.1
    | some kh =>
      obtain ⟨k, hit⟩ := kh
      cases ht : w.gameDat.trigger i with
      | false => left; exact (mainGameHand_idle L w i p hp (Or.inr ht)).2.1
      | true => right; exact ⟨k, (mainGameHand_scores L w i p k hit hp hl ht).2.2⟩

/-- The distances `rayD` after the hand loop body of hand `i`: the entry of the
hand is the distance its target loop ends with, if it has a smoothed pose. -/
theorem mainGameHand_rayD (L : Lib) (w : World) (i : Fin 2) :
    (mainGameHand L w i).rayD =
      match w.handPose i with
      | none => w.rayD
      | some hp => Function.update w.rayD i (lockOf w i hp).rayD := by
  cases hp : w.handPose i with
  | none => rw [mainGameHand_no_pose L w i hp]
  | some p =>
    rw [mainGameHand_of_pose L w i p hp]
    dsimp only
    cases hl : (lockOf w i p).lockedon with
    | none => rw [applyHit_idle L _ i _ (Or.inl hl)]
    | some kh =>
      obtain ⟨k, hit⟩ := kh
      cases ht : w.gameDat.trigger i with
      | false =>
        rw [applyHit_idle L { w with rayD := Function.update w.rayD i (lockOf w i p).rayD } i _
          (Or.inr ht)]
      | true =>
        rw [(applyHit_scores L { w with rayD := Function.update w.rayD i (lockOf w i p).rayD }
          i _ k hit hl ht).2.2.2]

/-- The target loop of either hand in an initialised MainGame tick computes
what it computes on the target collection of before the tick, starting with
no distance recorded: the kill of hand 0 does not change what hand 1 finds. -/
theorem lockOf_handWorld (L : Lib) (w : World) (dat : GameData) (i : Fin 2) (hp : Pose)
    (hinit : w.initialized = true) :
    lockOf (handWorld L w dat i) i hp = lockLoop hp w.targets 0 LockState.start := by
  obtain ⟨f1, _, _, f4, _, _⟩ := handsWorld_fields L w dat hinit
  have h0 : handWorld L w dat 0 = handsWorld L w dat := rfl
  have h1 : handWorld L w dat 1 = mainGameHand L (handsWorld L w dat) 0 := rfl
  fin_cases i
  · show lockOf (handWorld L w dat 0) 0 hp = _
    rw [h0]
    unfold lockOf
    rw [f1, f4]
    rfl
  · show lockOf (handWorld L w dat 1) 1 hp = _
    rw [h1]
    have hr : (mainGameHand L (handsWorld L w dat) 0).rayD 1 = none := by
      rw [mainGameHand_rayD]
      cases (handsWorld L w dat).handPose 0 with
      | none => dsimp only; rw [f1]
      | some p =>
        dsimp only
        rw [Function.update_noteq (by decide : (1 : Fin 2) ≠ 0), f1]
    unfold lockOf
    rw [hr]
    rcases mainGameHand_marks L (handsWorld L w dat) 0 with h | ⟨k, h⟩
    · rw [h, f4]; rfl
    · rw [h, lockLoop_setDead, f4]; rfl

/-- The distance `rayD[i]` after an initialised MainGame tick: the distance that
the target loop of the hand ends with on the collection of before the tick, or
absent for a hand without a smoothed pose. -/
theorem proc_mainGame_rayD (L : Lib) (w : World) (dat : GameData) (i : Fin 2)
    (hinit : w.initialized = true) (hscene : w.scene = Scene.MainGame) :
    (proc L w dat).rayD i =
      match (proc L w dat).handPose i with
      | none => none
      | some hp => (lockLoop hp w.targets 0 LockState.start).rayD := by
  have ht : (proc L w dat).rayD = (shotWorld L w dat).rayD :=
    congrArg Prod.snd (proc_mainGame_tally L w dat hinit hscene)
  obtain ⟨f1, _, _, _, _, f6⟩ := handsWorld_fields L w dat hinit
  have h0 : handWorld L w dat 0 = handsWorld L w dat := rfl
  have h1 : handWorld L w dat 1 = mainGameHand L (handsWorld L w dat) 0 := rfl
  have hp1 : (mainGameHand L (handsWorld L w dat) 0).handPose = (proc L w dat).handPose :=
    (congrArg Fixed.handPose (mainGameHand_fixed L (handsWorld L w dat) 0)).trans f6
  have l0 := fun hp => lockOf_handWorld L w dat 0 hp hinit
  have l1 := fun hp => lockOf_handWorld L w dat 1 hp hinit
  rw [h0] at l0
  rw [h1] at l1
  rw [ht]
  unfold shotWorld
  rw [mainGameHand_rayD, hp1, mainGameHand_rayD, f6, f1]
  rcases (show i = 0 ∨ i = 1 by fin_cases i <;> simp) with rfl | rfl
  · cases (proc L w dat).handPose 1 with
    | none =>
      dsimp only
      cases (proc L w dat).handPose 0 with
      | none => rfl
      | some p0 => dsimp only; rw [Function.update_same, l0]
    | some p1 =>
      dsimp only
      rw [Function.update_noteq (by decide : (0 : Fin 2) ≠ 1)]
      cases (proc L w dat).handPose 0 with
      | none => rfl
      | some p0 => dsimp only; rw [Function.update_same, l0]
  · cases (proc L w dat).handPose 1 with
    | none =>
      dsimp only
      cases (proc L w dat).handPose 0 with
      | none => rfl
      | some p0 => dsimp only; rw [Function.update_noteq (by decide : (1 : Fin 2) ≠ 0)]
    | some p1 =>
      dsimp only
      rw [Function.update_same, l1]

/-- A tick keeps the target collection free of dead targets. -/
theorem proc_keeps_alive (L : Lib) (w : World) (dat : GameData)
    (h : ∀ t ∈ w.targets, t.alive = true) : ∀ t ∈ (proc L w dat).targets, t.alive = true := by
  cases hi : w.initialized with
  | false =>
    rw [proc_of_uninitialized L w dat hi]
    unfold proc_init
    cases dat.stagePose <;> exact h
  | true =>
    cases hs : w.scene with
    | Title =>
      have ht : (proc L w dat).targets = w.targets :=
        congrArg Prod.fst (proc_title_stock L w dat hi hs)
      rw [ht]
      exact h
    | MainGame => exact fun t ht => (proc_targets_alive L w dat hi (Or.inl hs) t ht).1
    | ScoreResult => exact fun t ht => (proc_targets_alive L w dat hi (Or.inr hs) t ht).1

/-- In every state reached from start-up, all targets in the collection are
alive. -/
theorem run_keeps_alive (L : Lib) (ds : List GameData) :
    ∀ w : World, (∀ t ∈ w.targets, t.alive = true) →
      ∀ t ∈ (run L w ds).targets, t.alive = true := by
  induction ds with
  | nil => intro w h; exact h
  | cons d ds ih => intro w h; exact ih (proc L w d) (proc_keeps_alive L w d h)

/-- C27.  Beam length is the nearest intersection of any facing.  After every
initialised MainGame tick, for a hand `i` with smoothed pose `hp`, `rayD[i]` is
absent if and only if the forward ray of the hand hits no target of the
collection of before the tick, and otherwise it is the ray distance of a hit
of one of these targets and no greater than the ray distance of any hit,
front- or back-facing alike; for a hand without a smoothed pose it is absent.
In every state reached from start-up all targets of the collection are
alive. -/
theorem beam_length (L : Lib) (w : World) (dat : GameData) (i : Fin 2)
    (hinit : w.initialized = true) (hscene : w.scene = Scene.MainGame) :
    (∀ hp : Pose, (proc L w dat).handPose i = some hp →
      ((proc L w dat).rayD i = none ↔ ∀ t ∈ w.targets, t.RayCast hp.pos hp.ray = none) ∧
      (∀ d : ℚ, (proc L w dat).rayD i = some d →
        (∃ t ∈ w.targets, ∃ hit : Hit, t.RayCast hp.pos hp.ray = some hit ∧ hit.rayLen = d) ∧
        ∀ t ∈ w.targets, ∀ hit : Hit, t.RayCast hp.pos hp.ray = some hit → d ≤ hit.rayLen)) ∧
    ((proc L w dat).handPose i = none → (proc L w dat).rayD i = none) ∧
    (∀ ds : List GameData, ∀ t ∈ (run L World.start ds).targets, t.alive = true) := by
  have hr := proc_mainGame_rayD L w dat i hinit hscene
  refine ⟨?_, ?_, fun ds => run_keeps_alive L ds World.start
    (fun t ht => absurd ht (List.not_mem_nil _))⟩
  · intro hp hpose
    rw [hpose] at hr
    dsimp only at hr
    rw [hr]
    obtain ⟨k1, k2⟩ := lockLoop_rayD hp w.targets 0 LockState.start
    refine ⟨⟨fun hn => (k2 hn).2, fun hall => ?_⟩, fun d hd => ?_⟩
    · rw [lockLoop_all_miss hp w.targets 0 LockState.start hall]
      rfl
    · obtain ⟨a1, a2, _⟩ := k1 d hd
      refine ⟨?_, a2⟩
      rcases a1 with h | h
      · cases h
      · exact h
  · intro hpose
    rw [hpose] at hr
    exact hr

/-- A use of `beam_length`: in the tick `proc Lib.sample World.lined GameData.held`
the beam of hand 0 ends no farther than 1 away, on the back-facing
`Target.screen`, although the locked-on `Target.sample` is 2 away. -/
theorem beam_length_witness :
    ∃ d : ℚ, (proc Lib.sample World.lined GameData.held).rayD 0 = some d ∧ d ≤ 1 := by
  obtain ⟨hi, hs, hp, _, _⟩ := lined_hands
  have hpose : (proc Lib.sample World.lined GameData.held).handPose 0 = some Pose.sample := by
    rw [← (handsWorld_fields Lib.sample World.lined GameData.held hi).2.2.2.2.2]
    exact hp
  obtain ⟨h1, h2⟩ := (beam_length Lib.sample World.lined GameData.held 0 hi hs).1
    Pose.sample hpose
  cases hr : (proc Lib.sample World.lined GameData.held).rayD 0 with
  | none =>
    have hmiss := h1.1 hr Target.sample (List.mem_cons_self _ _)
    rw [sample_hit] at hmiss
    cases hmiss
  | some d =>
    exact ⟨d, rfl, (h2 d hr).2 Target.screen
      (List.mem_cons_of_mem _ (List.mem_cons_self _ _)) _ screen_hit⟩

/-- The targets after the hand loop body of a hand: the target it shoots, if
any, is marked dead. -/
theorem mainGameHand_kill (L : Lib) (w : World) (i : Fin 2) :
    (mainGameHand L w i).targets =
      match shotIndex w i with
      | some k => setDead w.targets k
      | none => w.targets := by
  unfold shotIndex
  cases hp : w.handPose i with
  | none => rw [mainGameHand_no_pose L w i hp]
  | some p =>
    dsimp only
    cases hl : (lockOf w i p).lockedon with
    | none => exact (mainGameHand_idle L w i p hp (Or.inl hl)).2.1
    | some kh =>
      obtain ⟨k, hit⟩ := kh
      dsimp only
      cases ht : w.gameDat.trigger i with
      | false => exact (mainGameHand_idle L w i p hp (Or.inr ht)).2.1
      | true => exact (mainGameHand_scores L w i p k hit hp hl ht).2.2

/-- The score after the hand loop body of a hand, in terms of the hand's
lock-on. -/
theorem mainGameHand_points (L : Lib) (w : World) (i : Fin 2) :
    (mainGameHand L w i).score = w.score +
      (match w.handPose i with
       | none => 0
       | some hp =>
         match (lockOf w i hp).lockedon with
         | some (_, hit) => if w.gameDat.trigger i then (scoreBand hit.dCenter).2 else 0
         | none => 0) := by
  cases hp : w.handPose i with
  | none => rw [mainGameHand_no_pose L w i hp]; exact (add_zero _).symm
  | some p =>
    dsimp only
    cases hl : (lockOf w i p).lockedon with
    | none =>
      rw [(mainGameHand_idle L w i p hp (Or.inl hl)).1]
      exact (add_zero _).symm
    | some kh =>
      obtain ⟨k, hit⟩ := kh
      dsimp only
      cases ht : w.gameDat.trigger i with
      | false =>
        rw [(mainGameHand_idle L w i p hp (Or.inr ht)).1]
        exact (add_zero _).symm
      | true =>
        rw [(mainGameHand_scores L w i p k hit hp hl ht).1]
        rfl

/-- The score after an initialised MainGame tick: the score before plus the
points of hand 0 plus the points of hand 1, each computed on the target
collection of before the tick. -/
theorem proc_mainGame_score (L : Lib) (w : World) (dat : GameData)
    (hinit : w.initialized = true) (hscene : w.scene = Scene.MainGame) :
    (proc L w dat).score = w.score
      + hitPoints w.targets ((proc L w dat).handPose 0) (dat.trigger 0)
      + hitPoints w.targets ((proc L w dat).handPose 1) (dat.trigger 1) := by
  have hs : (proc L w dat).score = (shotWorld L w dat).score :=
    congrArg Prod.fst (proc_mainGame_tally L w dat hinit hscene)
  have h0 : handWorld L w dat 0 = handsWorld L w dat := rfl
  have h1 : handWorld L w dat 1 = mainGameHand L (handsWorld L w dat) 0 := rfl
  obtain ⟨g0, _, p0⟩ := handWorld_fields L w dat 0 hinit
  obtain ⟨g1, _, p1⟩ := handWorld_fields L w dat 1 hinit
  have l0 := fun hp => lockOf_handWorld L w dat 0 hp hinit
  have l1 := fun hp => lockOf_handWorld L w dat 1 hp hinit
  have hsc : (handsWorld L w dat).score = w.score := (handsWorld_fields L w dat hinit).2.2.2.2.1
  have e1 := mainGameHand_points L (handWorld L w dat 1) 1
  have e0 := mainGameHand_points L (handWorld L w dat 0) 0
  rw [g1, p1] at e1
  rw [g0, p0] at e0
  rw [hs]
  unfold shotWorld
  rw [← h1, e1, h1, ← h0, e0, h0, hsc]
  rw [h0] at l0
  rw [h1] at l1
  unfold hitPoints
  congr 1
  · congr 1
    cases (proc L w dat).handPose 0 with
    | none => rfl
    | some p => dsimp only; rw [l0 p]
  · cases (proc L w dat).handPose 1 with
    | none => rfl
    | some p => dsimp only; rw [l1 p]

/-- C28, as the code has it.  Hits are applied hand by hand.  In every
initialised MainGame tick the kill of hand 0 is applied before the target loop
of hand 1 runs: hand 1's loop runs over the collection in which the target
shot by hand 0 is already marked dead.  Because the ray test does not read the
`alive` flag, the target loop of either hand still ends in the state it would
end in on the collection of before the tick.  Each hand with a lock-on and a
pressed trigger marks its locked-on target dead and is awarded its points, so
the score after the tick is the score before plus the points of hand 0 plus
the points of hand 1, each determined on the collection of before the tick: a
target locked on by both hands is scored by both. -/
theorem hands_in_turn (L : Lib) (w : World) (dat : GameData)
    (hinit : w.initialized = true) (hscene : w.scene = Scene.MainGame) :
    (∀ (i : Fin 2) (hp : Pose),
      lockOf (handWorld L w dat i) i hp = lockLoop hp w.targets 0 LockState.start) ∧
    ((handWorld L w dat 1).targets =
      match shotIndex (handWorld L w dat 0) 0 with
      | some k => setDead w.targets k
      | none => w.targets) ∧
    ((shotWorld L w dat).targets =
      match shotIndex (handWorld L w dat 1) 1 with
      | some k => setDead (handWorld L w dat 1).targets k
      | none => (handWorld L w dat 1).targets) ∧
    (proc L w dat).score = w.score
      + hitPoints w.targets ((proc L w dat).handPose 0) (dat.trigger 0)
      + hitPoints w.targets ((proc L w dat).handPose 1) (dat.trigger 1) := by
  have h0 : handWorld L w dat 0 = handsWorld L w dat := rfl
  have h1 : handWorld L w dat 1 = mainGameHand L (handsWorld L w dat) 0 := rfl
  refine ⟨fun i hp => lockOf_handWorld L w dat i hp hinit, ?_, ?_,
    proc_mainGame_score L w dat hinit hscene⟩
  · have h := mainGameHand_kill L (handsWorld L w dat) 0
    rw [(handsWorld_fields L w dat hinit).2.2.2.1] at h
    rw [h1, h0]
    exact h
  · exact mainGameHand_kill L (handWorld L w dat 1) 1

/-- In a tick from `World.shot` whose input tracks both hands at `Pose.sample`,
both hands have the smoothed pose `Pose.sample`, and the target loop over
`Target.sample` alone ends with it locked on, hit 0.039 from its centre. -/
theorem shot_both (d : GameData) (hd : ∀ i, d.handPoses i = some Pose.sample) :
    (∀ i, (proc Lib.sample World.shot d).handPose i = some Pose.sample) ∧
    (lockLoop Pose.sample World.shot.targets 0 LockState.start).lockedon
      = some (0, ⟨true, ⟨0, 1.2, -1⟩, 2, Radical.ofRat 0.039⟩) ∧
    (scoreBand (Radical.ofRat 0.039)).2 = 100 := by
  refine ⟨fun i => aimed_pose World.shot d i shot_facts.1 (held_buffers i).1
    (held_buffers i).2 (hd i), ?_, by norm_num [scoreBand, Radical.lt, Radical.ofRat]⟩
  rw [shot_facts.2.2.2.2]
  exact (lockLoop_nearest Pose.sample [] [] Target.sample _ sample_hit rfl
    (fun _ h => absurd h (List.not_mem_nil _)) (fun _ h => absurd h (List.not_mem_nil _))).1

/-- The tick `proc Lib.sample World.shot GameData.both`: hand 1's target loop
runs on the collection in which hand 0 has already marked `Target.sample`
dead, and both hands are awarded 100 points for it. -/
theorem both_score :
    (handWorld Lib.sample World.shot GameData.both 1).targets
      = [{ Target.sample with alive := false }] ∧
    (proc Lib.sample World.shot GameData.both).score = 200 := by
  obtain ⟨hi, hs, hscore, _, ht⟩ := shot_facts
  obtain ⟨hp, hl, hb⟩ := shot_both GameData.both (fun _ => rfl)
  constructor
  · have h1 : handWorld Lib.sample World.shot GameData.both 1
        = mainGameHand Lib.sample (handsWorld Lib.sample World.shot GameData.both) 0 := rfl
    have h0 : handWorld Lib.sample World.shot GameData.both 0
        = handsWorld Lib.sample World.shot GameData.both := rfl
    obtain ⟨_, f2, _, f4, _, f6⟩ := handsWorld_fields Lib.sample World.shot GameData.both hi
    have hlock := lockOf_handWorld Lib.sample World.shot GameData.both 0 Pose.sample hi
    rw [h0] at hlock
    rw [h1, (mainGameHand_scores Lib.sample _ 0 Pose.sample 0
      ⟨true, ⟨0, 1.2, -1⟩, 2, Radical.ofRat 0.039⟩ (by rw [f6]; exact hp 0)
      (by rw [hlock]; exact hl) (by rw [f2]; rfl)).2.2, f4, ht]
    rfl
  · rw [proc_mainGame_score Lib.sample World.shot GameData.both hi hs, hp 0, hp 1, hscore]
    unfold hitPoints
    dsimp only
    rw [hl]
    dsimp only
    rw [hb]
    rfl

/-- C28, the claim as written fails.  In the world `World.shot` (MainGame, score
0, the live target `Target.sample` alone in the collection), the tick with both
hands aimed at the target and both triggers pressed: the target loop of hand 1
runs on the collection in which hand 0 has already killed the target, and the
target is scored by both hands, 100 points each. -/
theorem target_scored_twice :
    World.shot.scene = Scene.MainGame ∧ World.shot.score = 0 ∧
    World.shot.targets = [Target.sample] ∧ Target.sample.alive = true ∧
    (handWorld Lib.sample World.shot GameData.both 1).targets
      = [{ Target.sample with alive := false }] ∧
    (proc Lib.sample World.shot GameData.both).score = 200 :=
  ⟨shot_facts.2.1, shot_facts.2.2.1, shot_facts.2.2.2.2, rfl, both_score.1, both_score.2⟩

/-- A use of `hands_in_turn`: in the tick `proc Lib.sample World.shot GameData.held`
only hand 0 has its trigger pressed, and the score after the tick is the 100
points of hand 0. -/
theorem hands_in_turn_witness :
    (proc Lib.sample World.shot GameData.held).score = 0 + 100 + 0 := by
  obtain ⟨hp, hl, hb⟩ := shot_both GameData.held (fun _ => rfl)
  have h := (hands_in_turn Lib.sample World.shot GameData.held shot_facts.1
    shot_facts.2.1).2.2.2
  rw [h, hp 0, hp 1, shot_facts.2.2.1]
  unfold hitPoints
  dsimp only
  rw [hl]
  dsimp only
  rw [hb]
  rfl

/-! ## The smoothed orientation -/

/-- C29.  Smoothed orientation blend order: after every non-empty run of
initialised ticks, from any ring buffer contents and cursor position, in which
the raw samples supplied for hand `i` end in `a`, `b`, `c` in insertion order
(`a` oldest), whether or not the last ticks inserted a sample, the smoothed
orientation is `slerp(slerp(a.ori, b.ori, 1/2), c.ori, 1/3)`; in particular if
the three orientations are one `q` and `slerp(q, q, t) = q`, it is `q`. -/
theorem smoothed_orientation (L : Lib) (w : World) (i : Fin 2) (ds : List GameData)
    (qs : List Pose) (a b c : Pose) (hinit : w.initialized = true) (hne : ds ≠ [])
    (hs : rawSamples i ds = qs ++ [a, b, c]) :
    ∃ hp : Pose, (run L w ds).handPose i = some hp ∧
      hp.ori = L.slerp (L.slerp a.ori b.ori (1 / 2)) c.ori (1 / 3) ∧
      (∀ q : Quat, a.ori = q → b.ori = q → c.ori = q → (∀ t : ℚ, L.slerp q q t = q) →
        hp.ori = q) := by
  refine ⟨_, run_pose_recent L w i ds qs a b c hinit hne hs, rfl, ?_⟩
  intro q ha hb hc hq
  show L.slerp (L.slerp a.ori b.ori (1 / 2)) c.ori (1 / 3) = q
  rw [ha, hb, hc, hq, hq]

/-- A use of `smoothed_orientation`: three ticks from `World.ready` supplying the
orientations `(1,0,0,0)`, `(0,1,0,0)`, `(0,0,1,0)` for hand 0, with the
linear blend of `Lib.sample`, give the smoothed orientation
`(1/3, 1/3, 1/3, 0)`. -/
theorem smoothed_orientation_witness :
    ∃ hp : Pose,
      (run Lib.sample World.ready
        [GameData.sample 1 (fun _ => false) (fun _ => some ⟨Vec3.zero, ⟨1, 0, 0, 0⟩⟩),
         GameData.sample 1 (fun _ => false) (fun _ => some ⟨Vec3.zero, ⟨0, 1, 0, 0⟩⟩),
         GameData.sample 1 (fun _ => false)
          (fun _ => some ⟨Vec3.zero, ⟨0, 0, 1, 0⟩⟩)]).handPose 0 = some hp ∧
      hp.ori = ⟨1 / 3, 1 / 3, 1 / 3, 0⟩ := by
  obtain ⟨hp, h1, h2, _⟩ := smoothed_orientation Lib.sample World.ready 0
    [GameData.sample 1 (fun _ => false) (fun _ => some ⟨Vec3.zero, ⟨1, 0, 0, 0⟩⟩),
     GameData.sample 1 (fun _ => false) (fun _ => some ⟨Vec3.zero, ⟨0, 1, 0, 0⟩⟩),
     GameData.sample 1 (fun _ => false) (fun _ => some ⟨Vec3.zero, ⟨0, 0, 1, 0⟩⟩)]
    [] ⟨Vec3.zero, ⟨1, 0, 0, 0⟩⟩ ⟨Vec3.zero, ⟨0, 1, 0, 0⟩⟩ ⟨Vec3.zero, ⟨0, 0, 1, 0⟩⟩
    rfl (List.cons_ne_nil _ _) rfl
  refine ⟨hp, h1, ?_⟩
  rw [h2]
  norm_num [Lib.sample]

/-! ## The range of the game timer -/

/-- A tick with a non-negative step keeps the game timer in `(0, 30]` whenever
the scene is MainGame. -/
theorem proc_timer_range (L : Lib) (w : World) (dat : GameData) (hdt : 0 ≤ dat.dt)
    (h : w.scene = Scene.MainGame → 0 < w.gameTimer ∧ w.gameTimer ≤ 30) :
    (proc L w dat).scene = Scene.MainGame →
      0 < (proc L w dat).gameTimer ∧ (proc L w dat).gameTimer ≤ 30 := by
  cases hi : w.initialized with
  | false =>
    rw [proc_of_uninitialized L w dat hi]
    unfold proc_init
    cases dat.stagePose <;> exact h
  | true =>
    cases hs : w.scene with
    | Title =>
      obtain ⟨h1, _, h3⟩ := proc_title L w dat hi hs
      intro hm
      by_cases hst : (startsGame (proc L w dat) 0 || startsGame (proc L w dat) 1) = true
      · rw [h3, if_pos hst]
        norm_num
      · rw [if_neg hst] at h1
        rw [h1] at hm
        cases hm
    | MainGame =>
      have hc := proc_mainGame L w dat hi hs
      obtain ⟨hT0, hT30⟩ := h hs
      intro hm
      by_cases hle : w.gameTimer - dat.dt ≤ 0
      · rw [if_pos hle] at hc
        have : (proc L w dat).scene = Scene.ScoreResult := congrArg Clock.scene hc
        rw [this] at hm
        cases hm
      · rw [if_neg hle] at hc
        have hT : (proc L w dat).gameTimer = w.gameTimer - dat.dt := congrArg Clock.gameTimer hc
        rw [hT]
        constructor <;> linarith
    | ScoreResult =>
      have h1 := (proc_scoreResult L w dat hi hs).1
      intro hm
      rw [h1] at hm
      split_ifs at hm

/-- The timer range holds after every run of non-negative steps. -/
theorem run_timer_range (L : Lib) (ds : List GameData) :
    ∀ w : World, (∀ d ∈ ds, 0 ≤ d.dt) →
      (w.scene = Scene.MainGame → 0 < w.gameTimer ∧ w.gameTimer ≤ 30) →
      (run L w ds).scene = Scene.MainGame →
        0 < (run L w ds).gameTimer ∧ (run L w ds).gameTimer ≤ 30 := by
  induction ds with
  | nil => intro w _ h; exact h
  | cons d ds ih =>
    intro w hdt h
    exact ih (proc L w d) (fun e he => hdt e (List.mem_cons_of_mem _ he))
      (proc_timer_range L w d (hdt d (List.mem_cons_self _ _)) h)

/-- The digit indices of a timer in `(0, 30]` lie in 0..9. -/
theorem timerDigits_range (w : World) (h0 : 0 < w.gameTimer) (h30 : w.gameTimer ≤ 30) :
    0 ≤ (timerDigits w).1 ∧ (timerDigits w).1 ≤ 9 ∧
    0 ≤ (timerDigits w).2 ∧ (timerDigits w).2 ≤ 9 := by
  have hf0 : 0 ≤ ⌊w.gameTimer⌋ := Int.floor_nonneg.2 (le_of_lt h0)
  have hf30 : ⌊w.gameTimer⌋ ≤ 30 := by
    have : ⌊w.gameTimer⌋ ≤ ⌊(30 : ℚ)⌋ := Int.floor_le_floor h30
    simpa using this
  unfold timerDigits toInt
  rw [if_pos (le_of_lt h0)]
  dsimp only
  rw [Int.tdiv_eq_ediv hf0 (by norm_num), Int.tmod_eq_emod hf0 (by norm_num)]
  omega

/-- C30.  Countdown display indices stay in range: for every run of ticks with
`dt >= 0` from the initial state, whenever the scene is MainGame at the end of
the run the game timer satisfies `0 < gameTimer <= 30`, and the two indices
`int(gameTimer) / 10` and `int(gameTimer) % 10` with which `draw` selects a
number model both lie in 0..9. -/
theorem timer_digits_in_range (L : Lib) (ds : List GameData) (hdt : ∀ d ∈ ds, 0 ≤ d.dt)
    (hscene : (run L World.start ds).scene = Scene.MainGame) :
    0 < (run L World.start ds).gameTimer ∧ (run L World.start ds).gameTimer ≤ 30 ∧
    0 ≤ (timerDigits (run L World.start ds)).1 ∧ (timerDigits (run L World.start ds)).1 ≤ 9 ∧
    0 ≤ (timerDigits (run L World.start ds)).2 ∧
    (timerDigits (run L World.start ds)).2 ≤ 9 := by
  obtain ⟨h0, h30⟩ := run_timer_range L ds World.start hdt (fun h => by cases h) hscene
  exact ⟨h0, h30, timerDigits_range _ h0 h30⟩

theorem run_cons (L : Lib) (w : World) (d : GameData) (ds : List GameData) :
    run L w (d :: ds) = run L (proc L w d) ds := rfl

/-- A use of `timer_digits_in_range`: after start-up and the three ticks of the
held-trigger run the scene is MainGame, and the digit indices of the timer lie
in 0..9. -/
theorem timer_digits_in_range_witness :
    (run Lib.sample World.start
      [GameData.sample 0 (fun _ => false) (fun _ => none), GameData.held, GameData.held,
       GameData.held]).scene = Scene.MainGame ∧
    (timerDigits (run Lib.sample World.start
      [GameData.sample 0 (fun _ => false) (fun _ => none), GameData.held, GameData.held,
       GameData.held])).1 ≤ 9 ∧
    (timerDigits (run Lib.sample World.start
      [GameData.sample 0 (fun _ => false) (fun _ => none), GameData.held, GameData.held,
       GameData.held])).2 ≤ 9 := by
  have hs : (run Lib.sample World.start
      [GameData.sample 0 (fun _ => false) (fun _ => none), GameData.held, GameData.held,
       GameData.held]).scene = Scene.MainGame := by
    have hrun : run Lib.sample World.start
        [GameData.sample 0 (fun _ => false) (fun _ => none), GameData.held, GameData.held,
         GameData.held]
        = run Lib.sample World.ready [GameData.held, GameData.held, GameData.held] := by
      rw [run_cons, World.ready]
    rw [hrun]
    exact held_run_starts.2.1
  have h := timer_digits_in_range Lib.sample
    [GameData.sample 0 (fun _ => false) (fun _ => none), GameData.held, GameData.held,
     GameData.held]
    (by
      intro d hd
      simp only [List.mem_cons, List.mem_singleton, List.not_mem_nil, or_false] at hd
      rcases hd with rfl | rfl | rfl | rfl <;> norm_num [GameData.held, GameData.sample])
    hs
  exact ⟨hs, h.2.2.2.1, h.2.2.2.2.2⟩

end Game
